import Mathlib

/-!
# ContentZen Go SDK: a verification development

The package `contentzen` is a thin client over an HTTP API.  Every method of
`Client` builds a request, hands it to `HTTPClient`, checks the status code and
decodes the JSON body.  This file embeds the package in Lean:

* Go strings and byte slices are lists of bytes (natural numbers below 256);
* the operating system and the network are a value of `Env`: what `HTTPClient`
  answers to a request, what the file system answers to `os.Open` and
  `os.Create`, and so on;
* a method of `Client` is a function from an `Env`, a `Client` and its
  arguments to an `Outcome`: the pair of values the Go method returns together
  with the list of effects it performed, in order;
* the parts of the Go standard library the methods call (`encoding/json`,
  `unicode/utf8`, `mime/multipart`, `os`, `net/http`) are embedded at the
  depth the properties need.  Their definitions come first.
-/

namespace ContentZen

/-! ## Strings and errors -/

/-- A Go string or byte slice: a sequence of bytes, each a natural number
below 256. -/
abbrev GoString := List Nat

/-- An `error` value.  `errorf` is what `fmt.Errorf` builds from a message;
the next four are the errors `encoding/json` and `io` report; `external` is an
error made outside the package and outside `encoding/json` (by the transport,
the file system, `url.Parse`, or `json.Marshal` on a payload), named by a
code.  Such an error is never one that `fmt.Errorf` built in this package. -/
inductive GoError where
  | errorf (msg : GoString)
  | EOF
  | ErrUnexpectedEOF
  | SyntaxError
  | UnmarshalTypeError
  | external (code : Nat)
deriving DecidableEq, Repr

/-! ## unicode/utf8 -/

/-- The rune `utf8.RuneError`, U+FFFD. -/
def RuneError : Nat := 65533

/-- The function `utf8.EncodeRune`: the UTF-8 encoding of a rune; a surrogate
or a value above U+10FFFF is encoded as U+FFFD.  Shifts and masks are written
as division and remainder. -/
def EncodeRune (r : Nat) : List Nat :=
  if r < 128 then [r]
  else if r < 2048 then [192 + r / 64, 128 + r % 64]
  else if 1114111 < r ∨ (55296 ≤ r ∧ r < 57344) then [239, 191, 189]
  else if r < 65536 then [224 + r / 4096, 128 + r / 64 % 64, 128 + r % 64]
  else [240 + r / 262144, 128 + r / 4096 % 64, 128 + r / 64 % 64, 128 + r % 64]

/-- The function `utf8.DecodeRune`: the first rune of `p` and its width in
bytes.  Malformed input gives `(RuneError, 1)`, empty input `(RuneError, 0)`.
The accepted range of the second byte depends on the first (no overlong forms,
no surrogates, nothing above U+10FFFF). -/
def DecodeRune : List Nat → Nat × Nat
  | [] => (RuneError, 0)
  | p0 :: t =>
    if p0 < 128 then (p0, 1)
    else if p0 < 194 ∨ 244 < p0 then (RuneError, 1)
    else if p0 < 224 then
      match t with
      | b1 :: _ =>
        if 128 ≤ b1 ∧ b1 ≤ 191 then (p0 % 32 * 64 + b1 % 64, 2) else (RuneError, 1)
      | _ => (RuneError, 1)
    else if p0 < 240 then
      match t with
      | b1 :: b2 :: _ =>
        if (if p0 = 224 then 160 else 128) ≤ b1 ∧ b1 ≤ (if p0 = 237 then 159 else 191)
            ∧ 128 ≤ b2 ∧ b2 ≤ 191 then
          (p0 % 16 * 4096 + b1 % 64 * 64 + b2 % 64, 3)
        else (RuneError, 1)
      | _ => (RuneError, 1)
    else
      match t with
      | b1 :: b2 :: b3 :: _ =>
        if (if p0 = 240 then 144 else 128) ≤ b1 ∧ b1 ≤ (if p0 = 244 then 143 else 191)
            ∧ 128 ≤ b2 ∧ b2 ≤ 191 ∧ 128 ≤ b3 ∧ b3 ≤ 191 then
          (p0 % 8 * 262144 + b1 % 64 * 4096 + b2 % 64 * 64 + b3 % 64, 4)
        else (RuneError, 1)
      | _ => (RuneError, 1)

/-- A string literal of this file as a Go string (its UTF-8 bytes). -/
def str (s : String) : GoString := s.data.flatMap (fun c => EncodeRune c.toNat)

/-- The function `utf8.Valid`, with the recursion bounded by the length. -/
def validAux : Nat → List Nat → Bool
  | 0, p => p.isEmpty
  | _ + 1, [] => true
  | n + 1, b :: t =>
    if b < 128 then validAux n t
    else
      let d := DecodeRune (b :: t)
      if d.1 = RuneError ∧ d.2 = 1 then false else validAux n ((b :: t).drop d.2)

/-- Whether a Go string is valid UTF-8 (`utf8.Valid`). -/
def Valid (p : GoString) : Bool := validAux p.length p

/-! ## encoding/json: the parsed text -/

/-- A JSON text as `encoding/json` scans it: numbers keep their literal,
strings are already unquoted, and the members of an object stay in the order of
the text, repeated keys included. -/
inductive JValue where
  | null
  | bool (b : Bool)
  | number (lit : GoString)
  | string (s : GoString)
  | array (xs : List JValue)
  | object (ms : List (GoString × JValue))
deriving Repr, Inhabited

/-- The result of scanning a prefix of the input: a value and the bytes after
it, a byte the grammar does not allow (`*json.SyntaxError`), or the end of the
input inside a value. -/
inductive Parsed (α : Type) where
  | ok (v : α) (rest : List Nat)
  | invalid
  | incomplete
deriving Repr

/-- Applies a function to the value of a successful scan. -/
def Parsed.map {α β : Type} (f : α → β) : Parsed α → Parsed β
  | .ok v rest => .ok (f v) rest
  | .invalid => .invalid
  | .incomplete => .incomplete

/-- The scanner's `isSpace`: space, tab, carriage return, line feed. -/
def isSpace (c : Nat) : Bool := c = 32 || c = 9 || c = 13 || c = 10

/-- Drops leading white space. -/
def skipSpace : List Nat → List Nat
  | [] => []
  | c :: t => if isSpace c then skipSpace t else c :: t

/-- The value of a hexadecimal digit, if the byte is one. -/
def hexVal (c : Nat) : Option Nat :=
  if 48 ≤ c ∧ c ≤ 57 then some (c - 48)
  else if 97 ≤ c ∧ c ≤ 102 then some (c - 87)
  else if 65 ≤ c ∧ c ≤ 70 then some (c - 55)
  else none

/-- The four hexadecimal digits after a backslash and `u`: their value, the
first byte that is not a digit, or the end of the input. -/
def scanHex4 : List Nat → Parsed Nat
  | a :: t =>
    match hexVal a with
    | none => .invalid
    | some x =>
      match t with
      | b :: t =>
        match hexVal b with
        | none => .invalid
        | some y =>
          match t with
          | c :: t =>
            match hexVal c with
            | none => .invalid
            | some z =>
              match t with
              | d :: t =>
                match hexVal d with
                | none => .invalid
                | some w => .ok (x * 4096 + y * 256 + z * 16 + w) t
              | [] => .incomplete
          | [] => .incomplete
      | [] => .incomplete
  | [] => .incomplete

/-- The function `getu4` of the decoder: the value of a complete backslash-u
escape at the head of the input, if there is one. -/
def getu4 : List Nat → Option (Nat × List Nat)
  | 92 :: 117 :: t =>
    match scanHex4 t with
    | .ok r rest => some (r, rest)
    | _ => none
  | _ => none

/-- The byte a one-letter escape stands for. -/
def unescape (c : Nat) : Option Nat :=
  if c = 34 ∨ c = 92 ∨ c = 47 then some c
  else if c = 98 then some 8
  else if c = 102 then some 12
  else if c = 110 then some 10
  else if c = 114 then some 13
  else if c = 116 then some 9
  else none

/-- Puts bytes in front of a scanned string. -/
def Parsed.push (bs : List Nat) : Parsed GoString → Parsed GoString
  | .ok v rest => .ok (bs ++ v) rest
  | .invalid => .invalid
  | .incomplete => .incomplete

/-- A string literal after its opening quote: the scanner's check and the
decoder's `unquote` in one pass.  Escapes are replaced, a pair of surrogate
escapes becomes one rune, a lone surrogate becomes U+FFFD, and bytes that are
not valid UTF-8 are replaced by U+FFFD.  The first argument bounds the
recursion; the length of the input plus one is enough. -/
def scanStringAux : Nat → List Nat → Parsed GoString
  | 0, _ => .incomplete
  | _ + 1, [] => .incomplete
  | n + 1, c :: t =>
    if c = 34 then .ok [] t
    else if c = 92 then
      match t with
      | [] => .incomplete
      | e :: u =>
        if e = 117 then
          match scanHex4 u with
          | .invalid => .invalid
          | .incomplete => .incomplete
          | .ok rr v =>
            if 55296 ≤ rr ∧ rr < 57344 then
              match getu4 v with
              | some (rr1, w) =>
                if rr < 56320 ∧ 56320 ≤ rr1 ∧ rr1 < 57344 then
                  (scanStringAux n w).push
                    (EncodeRune ((rr - 55296) * 1024 + (rr1 - 56320) + 65536))
                else (scanStringAux n v).push (EncodeRune RuneError)
              | none => (scanStringAux n v).push (EncodeRune RuneError)
            else (scanStringAux n v).push (EncodeRune rr)
        else
          match unescape e with
          | some b => (scanStringAux n u).push [b]
          | none => .invalid
    else if c < 32 then .invalid
    else if c < 128 then (scanStringAux n t).push [c]
    else
      let d := DecodeRune (c :: t)
      (scanStringAux n ((c :: t).drop d.2)).push (EncodeRune d.1)

/-- A string literal after its opening quote. -/
def scanString (s : List Nat) : Parsed GoString := scanStringAux (s.length + 1) s

/-- Whether the byte is a decimal digit. -/
def isDigit (c : Nat) : Bool := 48 ≤ c && c ≤ 57

/-- The longest run of decimal digits at the head of the input, and the rest. -/
def spanDigits : List Nat → List Nat × List Nat
  | [] => ([], [])
  | c :: t => if isDigit c then ((c :: (spanDigits t).1), (spanDigits t).2) else ([], c :: t)

/-- The exponent of a number literal, if there is one (`stateE`, `stateESign`,
`stateE0`); `lit` is the literal so far. -/
def scanExponent (lit : List Nat) : List Nat → Parsed GoString
  | [] => .ok lit []
  | e :: t =>
    if e = 101 ∨ e = 69 then
      let sign := match t with
        | 43 :: _ => [43]
        | 45 :: _ => [45]
        | _ => []
      match t.drop sign.length with
      | [] => .incomplete
      | d :: u =>
        if isDigit d then
          .ok (lit ++ e :: sign ++ (spanDigits (d :: u)).1) (spanDigits (d :: u)).2
        else .invalid
    else .ok lit (e :: t)

/-- The fraction and exponent of a number literal (`state0`, `state1`,
`stateDot`, `stateDot0`). -/
def scanFraction (lit : List Nat) : List Nat → Parsed GoString
  | 46 :: t =>
    match t with
    | [] => .incomplete
    | d :: u =>
      if isDigit d then
        scanExponent (lit ++ 46 :: (spanDigits (d :: u)).1) (spanDigits (d :: u)).2
      else .invalid
  | s => scanExponent lit s

/-- The digits of a number literal after the optional minus sign
(`stateNeg`): a single zero, or a digit from 1 to 9 and any digits. -/
def scanDigits (sign : List Nat) : List Nat → Parsed GoString
  | [] => .incomplete
  | d :: t =>
    if d = 48 then scanFraction (sign ++ [48]) t
    else if isDigit d then
      scanFraction (sign ++ d :: (spanDigits t).1) (spanDigits t).2
    else .invalid

/-- A number literal: the literal and the bytes after it. -/
def scanNumber : List Nat → Parsed GoString
  | 45 :: t => scanDigits [45] t
  | s => scanDigits [] s

/-- The rest of a literal name (`true`, `false`, `null`): each byte has to be
the expected one. -/
def scanLiteral : List Nat → List Nat → Parsed Unit
  | [], s => .ok () s
  | _ :: _, [] => .incomplete
  | e :: es, c :: t => if c = e then scanLiteral es t else .invalid

/-- The scanner's `maxNestingDepth`. -/
def maxNestingDepth : Nat := 10000

mutual
/-- One JSON value at the head of the input, after optional white space.  The
first argument bounds the recursion: a value uses one step, the elements of an
array or the members of an object one more, so twice the length of the input
plus one is enough.  The second argument counts the arrays and objects around
the value. -/
def scanValue : Nat → Nat → List Nat → Parsed JValue
  | 0, _, _ => .incomplete
  | n + 1, depth, s =>
    match skipSpace s with
    | [] => .incomplete
    | c :: t =>
      if c = 123 then
        if maxNestingDepth ≤ depth then .invalid
        else
          match skipSpace t with
          | [] => .incomplete
          | k :: u =>
            if k = 125 then .ok (.object []) u
            else (scanMembers n (depth + 1) (k :: u)).map JValue.object
      else if c = 91 then
        if maxNestingDepth ≤ depth then .invalid
        else
          match skipSpace t with
          | [] => .incomplete
          | k :: u =>
            if k = 93 then .ok (.array []) u
            else (scanElems n (depth + 1) (k :: u)).map JValue.array
      else if c = 34 then (scanString t).map JValue.string
      else if c = 45 ∨ isDigit c then (scanNumber (c :: t)).map JValue.number
      else if c = 116 then (scanLiteral [114, 117, 101] t).map (fun _ => JValue.bool true)
      else if c = 102 then
        (scanLiteral [97, 108, 115, 101] t).map (fun _ => JValue.bool false)
      else if c = 110 then (scanLiteral [117, 108, 108] t).map (fun _ => JValue.null)
      else .invalid
/-- The elements of a non-empty array up to and including the closing
bracket. -/
def scanElems : Nat → Nat → List Nat → Parsed (List JValue)
  | 0, _, _ => .incomplete
  | n + 1, depth, s =>
    match scanValue n depth s with
    | .invalid => .invalid
    | .incomplete => .incomplete
    | .ok v r =>
      match skipSpace r with
      | [] => .incomplete
      | c :: t =>
        if c = 44 then (scanElems n depth t).map (fun vs => v :: vs)
        else if c = 93 then .ok [v] t
        else .invalid
/-- The members of a non-empty object up to and including the closing brace;
the input starts at the first key. -/
def scanMembers : Nat → Nat → List Nat → Parsed (List (GoString × JValue))
  | 0, _, _ => .incomplete
  | n + 1, depth, s =>
    match skipSpace s with
    | [] => .incomplete
    | q :: t =>
      if q = 34 then
        match scanString t with
        | .invalid => .invalid
        | .incomplete => .incomplete
        | .ok key r =>
          match skipSpace r with
          | [] => .incomplete
          | c :: u =>
            if c = 58 then
              match scanValue n depth u with
              | .invalid => .invalid
              | .incomplete => .incomplete
              | .ok v r2 =>
                match skipSpace r2 with
                | [] => .incomplete
                | d :: w =>
                  if d = 44 then (scanMembers n depth w).map (fun ms => (key, v) :: ms)
                  else if d = 125 then .ok [(key, v)] w
                  else .invalid
            else .invalid
      else .invalid
end

/-- A stream of bytes (`io.Reader`): the data it delivers and then either the
clean end (`none`) or the code of the error of the failing read. -/
structure Stream where
  data : GoString
  err : Option Nat
deriving DecidableEq, Repr

/-- The read error of a stream, if it has one. -/
def Stream.failure (b : Stream) : Option GoError :=
  match b.err with
  | some code => some (.external code)
  | none => none

/-- The method `Decoder.readValue` followed by the scan of `unmarshal`: the
first JSON value of the stream.  Bytes after the value are left unread.  An
array or object is complete at its closing bracket; any other value needs one
more byte or the clean end of the stream. -/
def readValue (b : Stream) : Except GoError JValue :=
  match scanValue (2 * b.data.length + 1) 0 b.data with
  | .invalid => .error .SyntaxError
  | .incomplete =>
    match b.failure with
    | some e => .error e
    | none => if skipSpace b.data = [] then .error .EOF else .error .ErrUnexpectedEOF
  | .ok v rest =>
    match v, rest, b.failure with
    | .array _, _, _ => .ok v
    | .object _, _, _ => .ok v
    | _, [], some e => .error e
    | _, _, _ => .ok v

/-! ## encoding/json: storing a value into a Go variable -/

/-- ASCII upper case. -/
def upper (c : Nat) : Nat := if 97 ≤ c ∧ c ≤ 122 then c - 32 else c

/-- The function `foldRune` on the runes that fold to an ASCII letter: the long
s (U+017F) and the Kelvin sign (U+212A).  Every other rune above U+007F folds to
a rune above U+007F; since the field names of this package are ASCII only that
fact matters, and such a rune is left as it is. -/
def foldRune (r : Nat) : Nat := if r = 383 then 83 else if r = 8490 then 75 else r

/-- The function `appendFoldedName`, with the recursion bounded by the
length. -/
def foldNameAux : Nat → List Nat → List Nat
  | 0, _ => []
  | _ + 1, [] => []
  | n + 1, c :: t =>
    if c < 128 then upper c :: foldNameAux n t
    else
      let d := DecodeRune (c :: t)
      EncodeRune (foldRune d.1) ++ foldNameAux n ((c :: t).drop d.2)

/-- The folded form of an object key, equal for keys that differ only in
case. -/
def foldName (s : GoString) : GoString := foldNameAux s.length s

/-- Whether an object key selects the struct field with the JSON name `name`:
an exact match or, failing that, a match of the folded names.  The names of one
struct of this package have distinct folded forms, so the first test is
subsumed by the second. -/
def fieldMatch (name key : GoString) : Bool := key = name || foldName key = foldName name

/-- Stores a JSON value into a `string`: a string is assigned, `null` leaves
the variable alone, anything else is an `UnmarshalTypeError`. -/
def storeString (cur : GoString) : JValue → Except GoError GoString
  | .string s => .ok s
  | .null => .ok cur
  | _ => .error .UnmarshalTypeError

/-- Stores a JSON value into a `bool`. -/
def storeBool (cur : Bool) : JValue → Except GoError Bool
  | .bool b => .ok b
  | .null => .ok cur
  | _ => .error .UnmarshalTypeError

/-- Stores each element of an array into a fresh element. -/
def storeElems {α : Type} (elem : JValue → Except GoError α) :
    List JValue → Except GoError (List α)
  | [] => .ok []
  | x :: xs =>
    match elem x with
    | .error e => .error e
    | .ok v =>
      match storeElems elem xs with
      | .error e => .error e
      | .ok vs => .ok (v :: vs)

/-- Stores a JSON value into a slice: an array gives a slice of its elements
(empty but not nil for the empty array), `null` gives the nil slice (`none`),
anything else is an `UnmarshalTypeError`.  Elements are decoded into the zero
value: when a member naming the slice occurs twice in one object Go reuses the
elements of the first array, which this embedding does not follow. -/
def storeSlice {α : Type} (elem : JValue → Except GoError α) :
    JValue → Except GoError (Option (List α))
  | .array xs =>
    match storeElems elem xs with
    | .error e => .error e
    | .ok vs => .ok (some vs)
  | .null => .ok none
  | _ => .error .UnmarshalTypeError

/-- Stores the members of an object one after the other, in the order of the
text, each into the variable as the members before it left it. -/
def storeMembers {α : Type} (field : α → GoString → JValue → Except GoError α) :
    α → List (GoString × JValue) → Except GoError α
  | cur, [] => .ok cur
  | cur, (k, v) :: ms =>
    match field cur k v with
    | .error e => .error e
    | .ok next => storeMembers field next ms

/-- Stores a JSON value into a struct: an object is stored member by member,
`null` leaves the struct alone, anything else is an `UnmarshalTypeError`. -/
def storeStruct {α : Type} (field : α → GoString → JValue → Except GoError α)
    (cur : α) : JValue → Except GoError α
  | .object ms => storeMembers field cur ms
  | .null => .ok cur
  | _ => .error .UnmarshalTypeError

/-- A Go map from strings to dynamic values (`map[string]interface{}`): its
entries, with distinct keys.  A dynamic value is `nil`, a `bool`, a `float64`
(kept as the literal it was read from), a `string`, a slice of dynamic values
or a map of them. -/
abbrev GoMap := List (GoString × JValue)

/-- The assignment `m[k] = v`. -/
def mapSet : GoMap → GoString → JValue → GoMap
  | [], k, v => [(k, v)]
  | (k0, v0) :: m, k, v => if k0 = k then (k, v) :: m else (k0, v0) :: mapSet m k v

mutual
/-- The method `valueInterface`: a JSON value as a dynamic Go value.  In an
object a repeated key keeps its last value.  A number becomes a `float64`;
`floatOK` tells whether `strconv.ParseFloat` accepts the literal, and a literal
out of range is an `UnmarshalTypeError`. -/
def toInterface (floatOK : GoString → Bool) : JValue → Except GoError JValue
  | .null => .ok .null
  | .bool b => .ok (.bool b)
  | .number lit => if floatOK lit then .ok (.number lit) else .error .UnmarshalTypeError
  | .string s => .ok (.string s)
  | .array xs =>
    match toInterfaceElems floatOK xs with
    | .error e => .error e
    | .ok vs => .ok (.array vs)
  | .object ms =>
    match toInterfaceMembers floatOK ms [] with
    | .error e => .error e
    | .ok m => .ok (.object m)
/-- The elements of an array as dynamic values. -/
def toInterfaceElems (floatOK : GoString → Bool) : List JValue → Except GoError (List JValue)
  | [] => .ok []
  | x :: xs =>
    match toInterface floatOK x with
    | .error e => .error e
    | .ok v =>
      match toInterfaceElems floatOK xs with
      | .error e => .error e
      | .ok vs => .ok (v :: vs)
/-- The members of an object assigned one after the other to a map. -/
def toInterfaceMembers (floatOK : GoString → Bool) :
    List (GoString × JValue) → GoMap → Except GoError GoMap
  | [], m => .ok m
  | (k, x) :: ms, m =>
    match toInterface floatOK x with
    | .error e => .error e
    | .ok v => toInterfaceMembers floatOK ms (mapSet m k v)
end

/-- Stores a JSON value into a `map[string]interface{}`: the members of an
object are assigned to the map (a nil map is made first), `null` gives the nil
map, anything else is an `UnmarshalTypeError`. -/
def storeMap (floatOK : GoString → Bool) (cur : Option GoMap) :
    JValue → Except GoError (Option GoMap)
  | .object ms =>
    match toInterfaceMembers floatOK ms (cur.getD []) with
    | .error e => .error e
    | .ok m => .ok (some m)
  | .null => .ok none
  | _ => .error .UnmarshalTypeError

/-- The method `Decoder.Decode` into a variable: the first value of the stream
is read and stored by `store`. -/
def Decode {α : Type} (store : JValue → Except GoError α) (body : Stream) : Except GoError α :=
  match readValue body with
  | .error e => .error e
  | .ok v => store v

/-! ## encoding/json: Marshal -/

/-- A hexadecimal digit in lower case. -/
def hexDigit (n : Nat) : Nat := if n < 10 then 48 + n else 87 + n

/-- The table `htmlSafeSet`: the ASCII bytes `json.Marshal` copies unescaped,
that is all from the space on except the double quote, the backslash and the
three HTML characters. -/
def htmlSafe (b : Nat) : Bool :=
  32 ≤ b && b < 128 && b != 34 && b != 38 && b != 60 && b != 62 && b != 92

/-- The escape `json.Marshal` writes for an ASCII byte outside
`htmlSafeSet`. -/
def escapeByte (b : Nat) : List Nat :=
  if b = 92 ∨ b = 34 then [92, b]
  else if b = 8 then [92, 98]
  else if b = 12 then [92, 102]
  else if b = 10 then [92, 110]
  else if b = 13 then [92, 114]
  else if b = 9 then [92, 116]
  else [92, 117, 48, 48, hexDigit (b / 16), hexDigit (b % 16)]

/-- The body of `appendString` between the quotes, with the recursion bounded
by the length: a byte that is not valid UTF-8 is written as the escape of
U+FFFD, the separators U+2028 and U+2029 are escaped, every other rune is
copied. -/
def appendStringAux : Nat → List Nat → List Nat
  | 0, _ => []
  | _ + 1, [] => []
  | n + 1, b :: t =>
    if b < 128 then
      (if htmlSafe b then [b] else escapeByte b) ++ appendStringAux n t
    else
      let d := DecodeRune ((b :: t).take 4)
      if d.1 = RuneError ∧ d.2 = 1 then
        [92, 117, 102, 102, 102, 100] ++ appendStringAux n t
      else if d.1 = 8232 ∨ d.1 = 8233 then
        [92, 117, 50, 48, 50, hexDigit (d.1 % 16)] ++ appendStringAux n ((b :: t).drop d.2)
      else (b :: t).take d.2 ++ appendStringAux n ((b :: t).drop d.2)

/-- The function `appendString` with HTML escaping, as `json.Marshal` uses it:
a Go string as a JSON string literal. -/
def appendString (src : GoString) : GoString :=
  [34] ++ appendStringAux src.length src ++ [34]

/-- A `bool` as JSON. -/
def appendBool (b : Bool) : GoString := if b then str "true" else str "false"

/-- The elements of a non-empty array, separated by commas. -/
def joinComma : List GoString → GoString
  | [] => []
  | [x] => x
  | x :: y :: rest => x ++ [44] ++ joinComma (y :: rest)

/-- A slice as JSON: `null` for the nil slice, otherwise the elements in
brackets. -/
def appendSlice {α : Type} (elem : α → GoString) : Option (List α) → GoString
  | none => str "null"
  | some xs => [91] ++ joinComma (xs.map elem) ++ [93]

/-! ## types.go -/

/-- The struct `Document`.  `Payload` is a `map[string]interface{}`; `none` is
the nil map. -/
structure Document where
  UUID : GoString
  Payload : Option GoMap
  Lang : GoString
  State : GoString
deriving Repr, Inhabited

/-- The struct `CollectionField`.  The Go field `Type` is `Type_` here. -/
structure CollectionField where
  Name : GoString
  Type_ : GoString
  DisplayName : GoString
  Required : Bool
  Unique : Bool
deriving DecidableEq, Repr, Inhabited

/-- The struct `Collection`.  `Fields` is a slice; `none` is the nil slice. -/
structure Collection where
  UUID : GoString
  Name : GoString
  DisplayName : GoString
  Description : GoString
  IsPublic : Bool
  Fields : Option (List CollectionField)
deriving DecidableEq, Repr, Inhabited

/-- The struct `Media`. -/
structure Media where
  UUID : GoString
  AltText : GoString
  URL : GoString
deriving DecidableEq, Repr, Inhabited

/-- The struct `Webhook`.  `Events` is a slice; `none` is the nil slice. -/
structure Webhook where
  UUID : GoString
  Name : GoString
  URL : GoString
  Events : Option (List GoString)
  Method : GoString
deriving DecidableEq, Repr, Inhabited

/-- The zero value of `Document`. -/
def Document.zero : Document := ⟨[], none, [], []⟩

/-- The zero value of `CollectionField`. -/
def CollectionField.zero : CollectionField := ⟨[], [], [], false, false⟩

/-- The zero value of `Collection`. -/
def Collection.zero : Collection := ⟨[], [], [], [], false, none⟩

/-- The zero value of `Media`. -/
def Media.zero : Media := ⟨[], [], []⟩

/-- The zero value of `Webhook`. -/
def Webhook.zero : Webhook := ⟨[], [], [], none, []⟩

/-! ### The JSON tags of the structs: decoding -/

/-- Stores one member of an object into a `Document`, by the tags `uuid`,
`payload`, `lang` and `state`; a key that matches no tag is skipped. -/
def Document.field (floatOK : GoString → Bool) (d : Document) (key : GoString) (v : JValue) :
    Except GoError Document :=
  if fieldMatch (str "uuid") key then
    match storeString d.UUID v with
    | .error e => .error e
    | .ok x => .ok { d with UUID := x }
  else if fieldMatch (str "payload") key then
    match storeMap floatOK d.Payload v with
    | .error e => .error e
    | .ok x => .ok { d with Payload := x }
  else if fieldMatch (str "lang") key then
    match storeString d.Lang v with
    | .error e => .error e
    | .ok x => .ok { d with Lang := x }
  else if fieldMatch (str "state") key then
    match storeString d.State v with
    | .error e => .error e
    | .ok x => .ok { d with State := x }
  else .ok d

/-- Stores a JSON value into a `Document` variable. -/
def Document.store (floatOK : GoString → Bool) (cur : Document) : JValue → Except GoError Document :=
  storeStruct (Document.field floatOK) cur

/-- Stores one member of an object into a `CollectionField`, by the tags
`name`, `type`, `display_name`, `required` and `unique`. -/
def CollectionField.field (f : CollectionField) (key : GoString) (v : JValue) :
    Except GoError CollectionField :=
  if fieldMatch (str "name") key then
    match storeString f.Name v with
    | .error e => .error e
    | .ok x => .ok { f with Name := x }
  else if fieldMatch (str "type") key then
    match storeString f.Type_ v with
    | .error e => .error e
    | .ok x => .ok { f with Type_ := x }
  else if fieldMatch (str "display_name") key then
    match storeString f.DisplayName v with
    | .error e => .error e
    | .ok x => .ok { f with DisplayName := x }
  else if fieldMatch (str "required") key then
    match storeBool f.Required v with
    | .error e => .error e
    | .ok x => .ok { f with Required := x }
  else if fieldMatch (str "unique") key then
    match storeBool f.Unique v with
    | .error e => .error e
    | .ok x => .ok { f with Unique := x }
  else .ok f

/-- Stores a JSON value into a `CollectionField` variable. -/
def CollectionField.store (cur : CollectionField) : JValue → Except GoError CollectionField :=
  storeStruct CollectionField.field cur

/-- Stores one member of an object into a `Collection`, by the tags `uuid`,
`name`, `display_name`, `description`, `is_public` and `fields`. -/
def Collection.field (c : Collection) (key : GoString) (v : JValue) :
    Except GoError Collection :=
  if fieldMatch (str "uuid") key then
    match storeString c.UUID v with
    | .error e => .error e
    | .ok x => .ok { c with UUID := x }
  else if fieldMatch (str "name") key then
    match storeString c.Name v with
    | .error e => .error e
    | .ok x => .ok { c with Name := x }
  else if fieldMatch (str "display_name") key then
    match storeString c.DisplayName v with
    | .error e => .error e
    | .ok x => .ok { c with DisplayName := x }
  else if fieldMatch (str "description") key then
    match storeString c.Description v with
    | .error e => .error e
    | .ok x => .ok { c with Description := x }
  else if fieldMatch (str "is_public") key then
    match storeBool c.IsPublic v with
    | .error e => .error e
    | .ok x => .ok { c with IsPublic := x }
  else if fieldMatch (str "fields") key then
    match storeSlice (CollectionField.store CollectionField.zero) v with
    | .error e => .error e
    | .ok x => .ok { c with Fields := x }
  else .ok c

/-- Stores a JSON value into a `Collection` variable. -/
def Collection.store (cur : Collection) : JValue → Except GoError Collection :=
  storeStruct Collection.field cur

/-- Stores one member of an object into a `Media`, by the tags `uuid`,
`alt_text` and `url`. -/
def Media.field (m : Media) (key : GoString) (v : JValue) : Except GoError Media :=
  if fieldMatch (str "uuid") key then
    match storeString m.UUID v with
    | .error e => .error e
    | .ok x => .ok { m with UUID := x }
  else if fieldMatch (str "alt_text") key then
    match storeString m.AltText v with
    | .error e => .error e
    | .ok x => .ok { m with AltText := x }
  else if fieldMatch (str "url") key then
    match storeString m.URL v with
    | .error e => .error e
    | .ok x => .ok { m with URL := x }
  else .ok m

/-- Stores a JSON value into a `Media` variable. -/
def Media.store (cur : Media) : JValue → Except GoError Media :=
  storeStruct Media.field cur

/-- Stores one member of an object into a `Webhook`, by the tags `uuid`,
`name`, `url`, `events` and `method`. -/
def Webhook.field (w : Webhook) (key : GoString) (v : JValue) : Except GoError Webhook :=
  if fieldMatch (str "uuid") key then
    match storeString w.UUID v with
    | .error e => .error e
    | .ok x => .ok { w with UUID := x }
  else if fieldMatch (str "name") key then
    match storeString w.Name v with
    | .error e => .error e
    | .ok x => .ok { w with Name := x }
  else if fieldMatch (str "url") key then
    match storeString w.URL v with
    | .error e => .error e
    | .ok x => .ok { w with URL := x }
  else if fieldMatch (str "events") key then
    match storeSlice (storeString []) v with
    | .error e => .error e
    | .ok x => .ok { w with Events := x }
  else if fieldMatch (str "method") key then
    match storeString w.Method v with
    | .error e => .error e
    | .ok x => .ok { w with Method := x }
  else .ok w

/-- Stores a JSON value into a `Webhook` variable. -/
def Webhook.store (cur : Webhook) : JValue → Except GoError Webhook :=
  storeStruct Webhook.field cur

/-- Stores one member of an object into the anonymous struct of
`GetPublicDocuments`, whose only field `Data []Document` has the tag `data`. -/
def Envelope.field (floatOK : GoString → Bool) (cur : Option (List Document)) (key : GoString)
    (v : JValue) : Except GoError (Option (List Document)) :=
  if fieldMatch (str "data") key then storeSlice (Document.store floatOK Document.zero) v
  else .ok cur

/-! ### The JSON tags of the structs: encoding -/

/-- The text `json.Marshal` writes for a `CollectionField`; the member `unique`
has the option `omitempty` and is left out when the flag is false. -/
def CollectionField.marshal (f : CollectionField) : GoString :=
  str "\x7b\"name\":" ++ appendString f.Name ++ str ",\"type\":" ++ appendString f.Type_
    ++ str ",\"display_name\":" ++ appendString f.DisplayName
    ++ str ",\"required\":" ++ appendBool f.Required
    ++ (if f.Unique then str ",\"unique\":true" else []) ++ str "\x7d"

/-- The text `json.Marshal` writes for a `*Collection`; `null` for the nil
pointer. -/
def Collection.marshal : Option Collection → GoString
  | none => str "null"
  | some c =>
    str "\x7b\"uuid\":" ++ appendString c.UUID ++ str ",\"name\":" ++ appendString c.Name
      ++ str ",\"display_name\":" ++ appendString c.DisplayName
      ++ str ",\"description\":" ++ appendString c.Description
      ++ str ",\"is_public\":" ++ appendBool c.IsPublic
      ++ str ",\"fields\":" ++ appendSlice CollectionField.marshal c.Fields ++ str "\x7d"

/-- The text `json.Marshal` writes for a `*Media`. -/
def Media.marshal : Option Media → GoString
  | none => str "null"
  | some m =>
    str "\x7b\"uuid\":" ++ appendString m.UUID ++ str ",\"alt_text\":" ++ appendString m.AltText
      ++ str ",\"url\":" ++ appendString m.URL ++ str "\x7d"

/-- The text `json.Marshal` writes for a `*Webhook`. -/
def Webhook.marshal : Option Webhook → GoString
  | none => str "null"
  | some w =>
    str "\x7b\"uuid\":" ++ appendString w.UUID ++ str ",\"name\":" ++ appendString w.Name
      ++ str ",\"url\":" ++ appendString w.URL
      ++ str ",\"events\":" ++ appendSlice appendString w.Events
      ++ str ",\"method\":" ++ appendString w.Method ++ str "\x7d"

/-- The result of `json.Marshal` for a `*Document`.  The payload holds dynamic
values, floating-point numbers among them, whose text (or the error for a value
JSON cannot express) is given by `marshalPayload`. -/
def Document.marshal (marshalPayload : Option GoMap → Except Nat GoString) :
    Option Document → Except GoError GoString
  | none => .ok (str "null")
  | some d =>
    match marshalPayload d.Payload with
    | .error code => .error (.external code)
    | .ok p =>
      .ok (str "\x7b\"uuid\":" ++ appendString d.UUID ++ str ",\"payload\":" ++ p
        ++ str ",\"lang\":" ++ appendString d.Lang
        ++ str ",\"state\":" ++ appendString d.State ++ str "\x7d")

/-! ## mime/multipart, net/http, os -/

/-- One part of a multipart form as `Writer.CreateFormFile` starts it: the
field name and the file name it was given, and the bytes written to the part so
far. -/
structure FormPart where
  fieldname : GoString
  filename : GoString
  content : GoString
deriving DecidableEq, Repr

/-- The contents of the buffer behind a `multipart.Writer`: the boundary, the
parts in the order they were created, and whether the closing boundary has been
written. -/
structure Form where
  boundary : GoString
  parts : List FormPart
  closed : Bool
deriving DecidableEq, Repr

/-- The function `multipart.NewWriter` on an empty buffer; the boundary is the
random one the writer draws. -/
def Form.NewWriter (boundary : GoString) : Form := ⟨boundary, [], false⟩

/-- The method `Writer.CreateFormFile`: a new part after the others. -/
def Form.CreateFormFile (w : Form) (fieldname filename : GoString) : Form :=
  { w with parts := w.parts ++ [⟨fieldname, filename, []⟩] }

/-- Writing to the part that was created last. -/
def Form.Write (w : Form) (data : GoString) : Form :=
  match w.parts.reverse with
  | [] => w
  | last :: before =>
    { w with parts := before.reverse ++ [{ last with content := last.content ++ data }] }

/-- The method `Writer.Close`. -/
def Form.Close (w : Form) : Form := { w with closed := true }

/-- The method `Writer.FormDataContentType`; the random boundary consists of
hexadecimal digits and is not quoted. -/
def Form.FormDataContentType (w : Form) : GoString :=
  str "multipart/form-data; boundary=" ++ w.boundary

/-- The body of a request: nil, the bytes of a `bytes.Reader`, or the buffer a
multipart writer filled. -/
inductive RequestBody where
  | none
  | bytes (b : GoString)
  | form (f : Form)
deriving DecidableEq, Repr

/-- An `http.Request` as the package builds it: the method, the URL as the text
given to `http.NewRequest`, the header as a list of keys and values, and the
body.  How `net/http` writes the request on the wire is outside this
embedding. -/
structure Request where
  Method : GoString
  URL : GoString
  Header : List (GoString × GoString)
  Body : RequestBody
deriving DecidableEq, Repr

/-- The method `Header.Set`: the value replaces any value of the key. -/
def Request.Set (r : Request) (key value : GoString) : Request :=
  { r with Header := r.Header.filter (fun kv => kv.1 ≠ key) ++ [(key, value)] }

/-- The method `Header.Values`: the values of a key. -/
def Request.Values (r : Request) (key : GoString) : List GoString :=
  (r.Header.filter (fun kv => kv.1 = key)).map (fun kv => kv.2)

/-- An `http.Response`: the status line text, the status code and the body
stream. -/
structure Response where
  Status : GoString
  StatusCode : Int
  Body : Stream
deriving DecidableEq, Repr

/-- What the methods observe of the world outside the package; errors are
given by their codes.
`parseURL u` is the error of `url.Parse` when `http.NewRequest` rejects the
URL; `openFile` is `os.Open` followed by reading the file (its bytes, then the
clean end or a read error); `createFile` is the error of `os.Create`, if any;
`writeFile name data` tells how writing `data` to the created file goes: `none`
when all of it is written, `some (n, e)` when only `n` bytes are and the write
fails with `e`; `boundary` is the random boundary of a new multipart writer;
`marshalPayload` and `floatOK` are the two places where `encoding/json` deals
with floating-point numbers. -/
structure Env where
  parseURL : GoString → Option Nat
  openFile : GoString → Except Nat Stream
  createFile : GoString → Option Nat
  writeFile : GoString → GoString → Option (Nat × Nat)
  boundary : GoString
  marshalPayload : Option GoMap → Except Nat GoString
  floatOK : GoString → Bool

/-- The function `os.Open`, with the contents of the opened file. -/
def Env.Open (env : Env) (name : GoString) : Except GoError Stream :=
  match env.openFile name with
  | .error code => .error (.external code)
  | .ok file => .ok file

/-- The function `os.Create`: its error, if any. -/
def Env.Create (env : Env) (name : GoString) : Option GoError :=
  match env.createFile name with
  | some code => some (.external code)
  | none => none

/-- The writes of `io.Copy` to a created file: `none` when all of `data` is
written, else the number of bytes written and the error. -/
def Env.Write (env : Env) (name data : GoString) : Option (Nat × GoError) :=
  match env.writeFile name data with
  | some (n, code) => some (n, .external code)
  | none => none

/-- An `http.Client`: its timeout in nanoseconds and what it gives for a
request (the final answer of the server, or the code of a transport error).
One call of `Do` or `Get` is one request handed to the transport; what
`http.Client` does inside such a call is outside this embedding. -/
structure HTTPClient where
  Timeout : Nat
  transport : Request → Except Nat Response

/-- The method `http.Client.Do`. -/
def HTTPClient.Do (h : HTTPClient) (req : Request) : Except GoError Response :=
  match h.transport req with
  | .error code => .error (.external code)
  | .ok resp => .ok resp

/-- The struct `Client` of client.go. -/
structure Client where
  BaseURL : GoString
  APIToken : GoString
  HTTPClient : HTTPClient

/-- The function `NewClient`; `transport` is what the new `http.Client` will
answer. -/
def NewClient (transport : Request → Except Nat Response) (apiToken : GoString) : Client :=
  { BaseURL := str "https://api.contentzen.io"
    APIToken := apiToken
    HTTPClient := { Timeout := 10 * 1000000000, transport := transport } }

/-- An observable action of a method, in the order of execution: a request
handed to `HTTPClient`, a call of `os.Open`, a call of `os.Create`, and the
bytes that reached a created file. -/
inductive Effect where
  | Do (req : Request)
  | Open (name : GoString)
  | Create (name : GoString)
  | Write (name : GoString) (data : GoString)
deriving DecidableEq, Repr

/-- What a call of a method amounts to: the returned value or error, and the
effects. -/
abbrev Outcome (α : Type) := Except GoError α × List Effect

/-- The function `http.NewRequest` for one of the methods of this package. -/
def NewRequest (env : Env) (method url : GoString) (body : RequestBody) :
    Except GoError Request :=
  match env.parseURL url with
  | some code => .error (.external code)
  | none => .ok { Method := method, URL := url, Header := [], Body := body }

/-! ## private.go -/

/-- The method `Client.GetDocuments`. -/
def GetDocuments (env : Env) (c : Client) (collectionUUID : GoString) :
    Outcome (Option (List Document)) :=
  if c.APIToken = [] then (.error (.errorf (str "API token required for this endpoint")), [])
  else
    let url := c.BaseURL ++ str "/api/v1/documents/" ++ collectionUUID
    match NewRequest env (str "GET") url .none with
    | .error err => (.error err, [])
    | .ok req =>
      let req := req.Set (str "Authorization") (str "Bearer " ++ c.APIToken)
      match c.HTTPClient.Do req with
      | .error err => (.error err, [.Do req])
      | .ok resp =>
        if resp.StatusCode ≠ 200 then
          (.error (.errorf (str "unexpected status: " ++ resp.Status)), [.Do req])
        else
          match Decode (storeSlice (Document.store env.floatOK Document.zero)) resp.Body with
          | .error err => (.error err, [.Do req])
          | .ok docs => (.ok docs, [.Do req])

/-- The method `Client.CreateDocument`. -/
def CreateDocument (env : Env) (c : Client) (collectionUUID : GoString) (doc : Option Document) :
    Outcome Document :=
  if c.APIToken = [] then (.error (.errorf (str "API token required for this endpoint")), [])
  else
    let url := c.BaseURL ++ str "/api/v1/documents/" ++ collectionUUID
    match Document.marshal env.marshalPayload doc with
    | .error err => (.error err, [])
    | .ok body =>
      match NewRequest env (str "POST") url (.bytes body) with
      | .error err => (.error err, [])
      | .ok req =>
        let req := req.Set (str "Authorization") (str "Bearer " ++ c.APIToken)
        let req := req.Set (str "Content-Type") (str "application/json")
        match c.HTTPClient.Do req with
        | .error err => (.error err, [.Do req])
        | .ok resp =>
          if resp.StatusCode ≠ 200 ∧ resp.StatusCode ≠ 201 then
            (.error (.errorf (str "unexpected status: " ++ resp.Status)), [.Do req])
          else
            match Decode (Document.store env.floatOK Document.zero) resp.Body with
            | .error err => (.error err, [.Do req])
            | .ok created => (.ok created, [.Do req])

/-- The method `Client.UpdateDocument`. -/
def UpdateDocument (env : Env) (c : Client) (collectionUUID documentUUID : GoString)
    (doc : Option Document) : Outcome Document :=
  if c.APIToken = [] then (.error (.errorf (str "API token required for this endpoint")), [])
  else
    let url := c.BaseURL ++ str "/api/v1/documents/" ++ collectionUUID ++ str "/" ++ documentUUID
    match Document.marshal env.marshalPayload doc with
    | .error err => (.error err, [])
    | .ok body =>
      match NewRequest env (str "PUT") url (.bytes body) with
      | .error err => (.error err, [])
      | .ok req =>
        let req := req.Set (str "Authorization") (str "Bearer " ++ c.APIToken)
        let req := req.Set (str "Content-Type") (str "application/json")
        match c.HTTPClient.Do req with
        | .error err => (.error err, [.Do req])
        | .ok resp =>
          if resp.StatusCode ≠ 200 then
            (.error (.errorf (str "unexpected status: " ++ resp.Status)), [.Do req])
          else
            match Decode (Document.store env.floatOK Document.zero) resp.Body with
            | .error err => (.error err, [.Do req])
            | .ok updated => (.ok updated, [.Do req])

/-- The method `Client.DeleteDocument`. -/
def DeleteDocument (env : Env) (c : Client) (collectionUUID documentUUID : GoString) :
    Outcome Unit :=
  if c.APIToken = [] then (.error (.errorf (str "API token required for this endpoint")), [])
  else
    let url := c.BaseURL ++ str "/api/v1/documents/" ++ collectionUUID ++ str "/" ++ documentUUID
    match NewRequest env (str "DELETE") url .none with
    | .error err => (.error err, [])
    | .ok req =>
      let req := req.Set (str "Authorization") (str "Bearer " ++ c.APIToken)
      match c.HTTPClient.Do req with
      | .error err => (.error err, [.Do req])
      | .ok resp =>
        if resp.StatusCode ≠ 200 ∧ resp.StatusCode ≠ 204 then
          (.error (.errorf (str "unexpected status: " ++ resp.Status)), [.Do req])
        else (.ok (), [.Do req])

/-- The method `Client.GetCollections`. -/
def GetCollections (env : Env) (c : Client) : Outcome (Option (List Collection)) :=
  if c.APIToken = [] then (.error (.errorf (str "API token required for this endpoint")), [])
  else
    let url := c.BaseURL ++ str "/api/v1/collections"
    match NewRequest env (str "GET") url .none with
    | .error err => (.error err, [])
    | .ok req =>
      let req := req.Set (str "Authorization") (str "Bearer " ++ c.APIToken)
      match c.HTTPClient.Do req with
      | .error err => (.error err, [.Do req])
      | .ok resp =>
        if resp.StatusCode ≠ 200 then
          (.error (.errorf (str "unexpected status: " ++ resp.Status)), [.Do req])
        else
          match Decode (storeSlice (Collection.store Collection.zero)) resp.Body with
          | .error err => (.error err, [.Do req])
          | .ok collections => (.ok collections, [.Do req])

/-- The method `Client.GetCollection`. -/
def GetCollection (env : Env) (c : Client) (collectionUUID : GoString) : Outcome Collection :=
  if c.APIToken = [] then (.error (.errorf (str "API token required for this endpoint")), [])
  else
    let url := c.BaseURL ++ str "/api/v1/collections/" ++ collectionUUID
    match NewRequest env (str "GET") url .none with
    | .error err => (.error err, [])
    | .ok req =>
      let req := req.Set (str "Authorization") (str "Bearer " ++ c.APIToken)
      match c.HTTPClient.Do req with
      | .error err => (.error err, [.Do req])
      | .ok resp =>
        if resp.StatusCode ≠ 200 then
          (.error (.errorf (str "unexpected status: " ++ resp.Status)), [.Do req])
        else
          match Decode (Collection.store Collection.zero) resp.Body with
          | .error err => (.error err, [.Do req])
          | .ok collection => (.ok collection, [.Do req])

/-- The method `Client.CreateCollection`. -/
def CreateCollection (env : Env) (c : Client) (col : Option Collection) : Outcome Collection :=
  if c.APIToken = [] then (.error (.errorf (str "API token required for this endpoint")), [])
  else
    let url := c.BaseURL ++ str "/api/v1/collections"
    let body := Collection.marshal col
    match NewRequest env (str "POST") url (.bytes body) with
    | .error err => (.error err, [])
    | .ok req =>
      let req := req.Set (str "Authorization") (str "Bearer " ++ c.APIToken)
      let req := req.Set (str "Content-Type") (str "application/json")
      match c.HTTPClient.Do req with
      | .error err => (.error err, [.Do req])
      | .ok resp =>
        if resp.StatusCode ≠ 200 ∧ resp.StatusCode ≠ 201 then
          (.error (.errorf (str "unexpected status: " ++ resp.Status)), [.Do req])
        else
          match Decode (Collection.store Collection.zero) resp.Body with
          | .error err => (.error err, [.Do req])
          | .ok created => (.ok created, [.Do req])

/-- The method `Client.UpdateCollection`. -/
def UpdateCollection (env : Env) (c : Client) (collectionUUID : GoString)
    (col : Option Collection) : Outcome Collection :=
  if c.APIToken = [] then (.error (.errorf (str "API token required for this endpoint")), [])
  else
    let url := c.BaseURL ++ str "/api/v1/collections/" ++ collectionUUID
    let body := Collection.marshal col
    match NewRequest env (str "PUT") url (.bytes body) with
    | .error err => (.error err, [])
    | .ok req =>
      let req := req.Set (str "Authorization") (str "Bearer " ++ c.APIToken)
      let req := req.Set (str "Content-Type") (str "application/json")
      match c.HTTPClient.Do req with
      | .error err => (.error err, [.Do req])
      | .ok resp =>
        if resp.StatusCode ≠ 200 then
          (.error (.errorf (str "unexpected status: " ++ resp.Status)), [.Do req])
        else
          match Decode (Collection.store Collection.zero) resp.Body with
          | .error err => (.error err, [.Do req])
          | .ok updated => (.ok updated, [.Do req])

/-- The method `Client.DeleteCollection`. -/
def DeleteCollection (env : Env) (c : Client) (collectionUUID : GoString) : Outcome Unit :=
  if c.APIToken = [] then (.error (.errorf (str "API token required for this endpoint")), [])
  else
    let url := c.BaseURL ++ str "/api/v1/collections/" ++ collectionUUID
    match NewRequest env (str "DELETE") url .none with
    | .error err => (.error err, [])
    | .ok req =>
      let req := req.Set (str "Authorization") (str "Bearer " ++ c.APIToken)
      match c.HTTPClient.Do req with
      | .error err => (.error err, [.Do req])
      | .ok resp =>
        if resp.StatusCode ≠ 200 ∧ resp.StatusCode ≠ 204 then
          (.error (.errorf (str "unexpected status: " ++ resp.Status)), [.Do req])
        else (.ok (), [.Do req])

/-- The method `Client.ListMedia`. -/
def ListMedia (env : Env) (c : Client) : Outcome (Option (List Media)) :=
  if c.APIToken = [] then (.error (.errorf (str "API token required for this endpoint")), [])
  else
    let url := c.BaseURL ++ str "/api/v1/media/ls"
    match NewRequest env (str "GET") url .none with
    | .error err => (.error err, [])
    | .ok req =>
      let req := req.Set (str "Authorization") (str "Bearer " ++ c.APIToken)
      match c.HTTPClient.Do req with
      | .error err => (.error err, [.Do req])
      | .ok resp =>
        if resp.StatusCode ≠ 200 then
          (.error (.errorf (str "unexpected status: " ++ resp.Status)), [.Do req])
        else
          match Decode (storeSlice (Media.store Media.zero)) resp.Body with
          | .error err => (.error err, [.Do req])
          | .ok media => (.ok media, [.Do req])

/-- The method `Client.UploadMedia`.  `file.Name()` is the name the file was
opened with, that is `filePath`. -/
def UploadMedia (env : Env) (c : Client) (filePath : GoString) : Outcome Media :=
  if c.APIToken = [] then (.error (.errorf (str "API token required for this endpoint")), [])
  else
    match env.Open filePath with
    | .error err => (.error err, [.Open filePath])
    | .ok file =>
      let w := Form.NewWriter env.boundary
      let w := w.CreateFormFile (str "file") filePath
      match file.failure with
      | some err => (.error err, [.Open filePath])
      | none =>
        let w := w.Write file.data
        let w := w.Close
        let url := c.BaseURL ++ str "/api/v1/media/upload"
        match NewRequest env (str "POST") url (.form w) with
        | .error err => (.error err, [.Open filePath])
        | .ok req =>
          let req := req.Set (str "Authorization") (str "Bearer " ++ c.APIToken)
          let req := req.Set (str "Content-Type") w.FormDataContentType
          match c.HTTPClient.Do req with
          | .error err => (.error err, [.Open filePath, .Do req])
          | .ok resp =>
            if resp.StatusCode ≠ 200 ∧ resp.StatusCode ≠ 201 then
              (.error (.errorf (str "unexpected status: " ++ resp.Status)),
                [.Open filePath, .Do req])
            else
              match Decode (Media.store Media.zero) resp.Body with
              | .error err => (.error err, [.Open filePath, .Do req])
              | .ok media => (.ok media, [.Open filePath, .Do req])

/-- The method `Client.GetMedia`. -/
def GetMedia (env : Env) (c : Client) (mediaUUID : GoString) : Outcome Media :=
  if c.APIToken = [] then (.error (.errorf (str "API token required for this endpoint")), [])
  else
    let url := c.BaseURL ++ str "/api/v1/media/" ++ mediaUUID
    match NewRequest env (str "GET") url .none with
    | .error err => (.error err, [])
    | .ok req =>
      let req := req.Set (str "Authorization") (str "Bearer " ++ c.APIToken)
      match c.HTTPClient.Do req with
      | .error err => (.error err, [.Do req])
      | .ok resp =>
        if resp.StatusCode ≠ 200 then
          (.error (.errorf (str "unexpected status: " ++ resp.Status)), [.Do req])
        else
          match Decode (Media.store Media.zero) resp.Body with
          | .error err => (.error err, [.Do req])
          | .ok media => (.ok media, [.Do req])

/-- The method `Client.UpdateMedia`. -/
def UpdateMedia (env : Env) (c : Client) (mediaUUID : GoString) (media : Option Media) :
    Outcome Media :=
  if c.APIToken = [] then (.error (.errorf (str "API token required for this endpoint")), [])
  else
    let url := c.BaseURL ++ str "/api/v1/media/" ++ mediaUUID
    let body := Media.marshal media
    match NewRequest env (str "PUT") url (.bytes body) with
    | .error err => (.error err, [])
    | .ok req =>
      let req := req.Set (str "Authorization") (str "Bearer " ++ c.APIToken)
      let req := req.Set (str "Content-Type") (str "application/json")
      match c.HTTPClient.Do req with
      | .error err => (.error err, [.Do req])
      | .ok resp =>
        if resp.StatusCode ≠ 200 then
          (.error (.errorf (str "unexpected status: " ++ resp.Status)), [.Do req])
        else
          match Decode (Media.store Media.zero) resp.Body with
          | .error err => (.error err, [.Do req])
          | .ok updated => (.ok updated, [.Do req])

/-- The method `Client.DeleteMedia`. -/
def DeleteMedia (env : Env) (c : Client) (mediaUUID : GoString) : Outcome Unit :=
  if c.APIToken = [] then (.error (.errorf (str "API token required for this endpoint")), [])
  else
    let url := c.BaseURL ++ str "/api/v1/media/" ++ mediaUUID
    match NewRequest env (str "DELETE") url .none with
    | .error err => (.error err, [])
    | .ok req =>
      let req := req.Set (str "Authorization") (str "Bearer " ++ c.APIToken)
      match c.HTTPClient.Do req with
      | .error err => (.error err, [.Do req])
      | .ok resp =>
        if resp.StatusCode ≠ 200 ∧ resp.StatusCode ≠ 204 then
          (.error (.errorf (str "unexpected status: " ++ resp.Status)), [.Do req])
        else (.ok (), [.Do req])

/-- The method `Client.DownloadMedia`.  `io.Copy` writes the body to the
created file (an empty body is not written at all); it returns the error of a
failed write, else the read error of the body, else nil. -/
def DownloadMedia (env : Env) (c : Client) (mediaUUID destPath : GoString) : Outcome Unit :=
  if c.APIToken = [] then (.error (.errorf (str "API token required for this endpoint")), [])
  else
    let url := c.BaseURL ++ str "/api/v1/media/" ++ mediaUUID ++ str "/download"
    match NewRequest env (str "GET") url .none with
    | .error err => (.error err, [])
    | .ok req =>
      let req := req.Set (str "Authorization") (str "Bearer " ++ c.APIToken)
      match c.HTTPClient.Do req with
      | .error err => (.error err, [.Do req])
      | .ok resp =>
        if resp.StatusCode ≠ 200 then
          (.error (.errorf (str "unexpected status: " ++ resp.Status)), [.Do req])
        else
          match env.Create destPath with
          | some err => (.error err, [.Do req, .Create destPath])
          | none =>
            match (if resp.Body.data = [] then none else env.Write destPath resp.Body.data) with
            | some (n, err) =>
              (.error err, [.Do req, .Create destPath, .Write destPath (resp.Body.data.take n)])
            | none =>
              match resp.Body.failure with
              | some err =>
                (.error err, [.Do req, .Create destPath, .Write destPath resp.Body.data])
              | none => (.ok (), [.Do req, .Create destPath, .Write destPath resp.Body.data])

/-- The method `Client.ListWebhooks`. -/
def ListWebhooks (env : Env) (c : Client) : Outcome (Option (List Webhook)) :=
  if c.APIToken = [] then (.error (.errorf (str "API token required for this endpoint")), [])
  else
    let url := c.BaseURL ++ str "/api/v1/webhooks"
    match NewRequest env (str "GET") url .none with
    | .error err => (.error err, [])
    | .ok req =>
      let req := req.Set (str "Authorization") (str "Bearer " ++ c.APIToken)
      match c.HTTPClient.Do req with
      | .error err => (.error err, [.Do req])
      | .ok resp =>
        if resp.StatusCode ≠ 200 then
          (.error (.errorf (str "unexpected status: " ++ resp.Status)), [.Do req])
        else
          match Decode (storeSlice (Webhook.store Webhook.zero)) resp.Body with
          | .error err => (.error err, [.Do req])
          | .ok webhooks => (.ok webhooks, [.Do req])

/-- The method `Client.CreateWebhook`. -/
def CreateWebhook (env : Env) (c : Client) (wh : Option Webhook) : Outcome Webhook :=
  if c.APIToken = [] then (.error (.errorf (str "API token required for this endpoint")), [])
  else
    let url := c.BaseURL ++ str "/api/v1/webhooks"
    let body := Webhook.marshal wh
    match NewRequest env (str "POST") url (.bytes body) with
    | .error err => (.error err, [])
    | .ok req =>
      let req := req.Set (str "Authorization") (str "Bearer " ++ c.APIToken)
      let req := req.Set (str "Content-Type") (str "application/json")
      match c.HTTPClient.Do req with
      | .error err => (.error err, [.Do req])
      | .ok resp =>
        if resp.StatusCode ≠ 200 ∧ resp.StatusCode ≠ 201 then
          (.error (.errorf (str "unexpected status: " ++ resp.Status)), [.Do req])
        else
          match Decode (Webhook.store Webhook.zero) resp.Body with
          | .error err => (.error err, [.Do req])
          | .ok created => (.ok created, [.Do req])

/-- The method `Client.UpdateWebhook`. -/
def UpdateWebhook (env : Env) (c : Client) (webhookUUID : GoString) (wh : Option Webhook) :
    Outcome Webhook :=
  if c.APIToken = [] then (.error (.errorf (str "API token required for this endpoint")), [])
  else
    let url := c.BaseURL ++ str "/api/v1/webhooks/" ++ webhookUUID
    let body := Webhook.marshal wh
    match NewRequest env (str "PUT") url (.bytes body) with
    | .error err => (.error err, [])
    | .ok req =>
      let req := req.Set (str "Authorization") (str "Bearer " ++ c.APIToken)
      let req := req.Set (str "Content-Type") (str "application/json")
      match c.HTTPClient.Do req with
      | .error err => (.error err, [.Do req])
      | .ok resp =>
        if resp.StatusCode ≠ 200 then
          (.error (.errorf (str "unexpected status: " ++ resp.Status)), [.Do req])
        else
          match Decode (Webhook.store Webhook.zero) resp.Body with
          | .error err => (.error err, [.Do req])
          | .ok updated => (.ok updated, [.Do req])

/-- The method `Client.DeleteWebhook`. -/
def DeleteWebhook (env : Env) (c : Client) (webhookUUID : GoString) : Outcome Unit :=
  if c.APIToken = [] then (.error (.errorf (str "API token required for this endpoint")), [])
  else
    let url := c.BaseURL ++ str "/api/v1/webhooks/" ++ webhookUUID
    match NewRequest env (str "DELETE") url .none with
    | .error err => (.error err, [])
    | .ok req =>
      let req := req.Set (str "Authorization") (str "Bearer " ++ c.APIToken)
      match c.HTTPClient.Do req with
      | .error err => (.error err, [.Do req])
      | .ok resp =>
        if resp.StatusCode ≠ 200 ∧ resp.StatusCode ≠ 204 then
          (.error (.errorf (str "unexpected status: " ++ resp.Status)), [.Do req])
        else (.ok (), [.Do req])

/-- The method `Client.GetCollectionSchema`. -/
def GetCollectionSchema (env : Env) (c : Client) (collectionUUID : GoString) :
    Outcome (Option GoMap) :=
  if c.APIToken = [] then (.error (.errorf (str "API token required for this endpoint")), [])
  else
    let url := c.BaseURL ++ str "/api/v1/collections/" ++ collectionUUID ++ str "/schema"
    match NewRequest env (str "GET") url .none with
    | .error err => (.error err, [])
    | .ok req =>
      let req := req.Set (str "Authorization") (str "Bearer " ++ c.APIToken)
      match c.HTTPClient.Do req with
      | .error err => (.error err, [.Do req])
      | .ok resp =>
        if resp.StatusCode ≠ 200 then
          (.error (.errorf (str "unexpected status: " ++ resp.Status)), [.Do req])
        else
          match Decode (storeMap env.floatOK none) resp.Body with
          | .error err => (.error err, [.Do req])
          | .ok schema => (.ok schema, [.Do req])

/-- The method `Client.GetCollectionFields`. -/
def GetCollectionFields (env : Env) (c : Client) (collectionUUID : GoString) :
    Outcome (Option (List CollectionField)) :=
  if c.APIToken = [] then (.error (.errorf (str "API token required for this endpoint")), [])
  else
    let url := c.BaseURL ++ str "/api/v1/collections/" ++ collectionUUID ++ str "/fields"
    match NewRequest env (str "GET") url .none with
    | .error err => (.error err, [])
    | .ok req =>
      let req := req.Set (str "Authorization") (str "Bearer " ++ c.APIToken)
      match c.HTTPClient.Do req with
      | .error err => (.error err, [.Do req])
      | .ok resp =>
        if resp.StatusCode ≠ 200 then
          (.error (.errorf (str "unexpected status: " ++ resp.Status)), [.Do req])
        else
          match Decode (storeSlice (CollectionField.store CollectionField.zero)) resp.Body with
          | .error err => (.error err, [.Do req])
          | .ok fields => (.ok fields, [.Do req])

/-- The method `Client.GetFieldTypes`. -/
def GetFieldTypes (env : Env) (c : Client) : Outcome (Option (List GoString)) :=
  if c.APIToken = [] then (.error (.errorf (str "API token required for this endpoint")), [])
  else
    let url := c.BaseURL ++ str "/api/v1/collections/field-types"
    match NewRequest env (str "GET") url .none with
    | .error err => (.error err, [])
    | .ok req =>
      let req := req.Set (str "Authorization") (str "Bearer " ++ c.APIToken)
      match c.HTTPClient.Do req with
      | .error err => (.error err, [.Do req])
      | .ok resp =>
        if resp.StatusCode ≠ 200 then
          (.error (.errorf (str "unexpected status: " ++ resp.Status)), [.Do req])
        else
          match Decode (storeSlice (storeString [])) resp.Body with
          | .error err => (.error err, [.Do req])
          | .ok types => (.ok types, [.Do req])

/-! ## public.go -/

/-- The method `Client.GetPublicDocuments`.  `HTTPClient.Get` builds the GET
request with `http.NewRequest` and passes it to `Do`. -/
def GetPublicDocuments (env : Env) (c : Client) (collectionUUID : GoString) :
    Outcome (Option (List Document)) :=
  let url := c.BaseURL ++ str "/api/v1/documents/collection/" ++ collectionUUID
    ++ str "?state=published"
  match NewRequest env (str "GET") url .none with
  | .error err => (.error err, [])
  | .ok req =>
    match c.HTTPClient.Do req with
    | .error err => (.error err, [.Do req])
    | .ok resp =>
      if resp.StatusCode ≠ 200 then
        (.error (.errorf (str "unexpected status: " ++ resp.Status)), [.Do req])
      else
        match Decode (storeStruct (Envelope.field env.floatOK) none) resp.Body with
        | .error err => (.error err, [.Do req])
        | .ok data => (.ok data, [.Do req])

/-- The method `Client.GetPublicDocument`. -/
def GetPublicDocument (env : Env) (c : Client) (collectionUUID documentUUID : GoString) :
    Outcome Document :=
  let url := c.BaseURL ++ str "/api/v1/documents/collection/" ++ collectionUUID ++ str "/"
    ++ documentUUID
  match NewRequest env (str "GET") url .none with
  | .error err => (.error err, [])
  | .ok req =>
    match c.HTTPClient.Do req with
    | .error err => (.error err, [.Do req])
    | .ok resp =>
      if resp.StatusCode ≠ 200 then
        (.error (.errorf (str "unexpected status: " ++ resp.Status)), [.Do req])
      else
        match Decode (Document.store env.floatOK Document.zero) resp.Body with
        | .error err => (.error err, [.Do req])
        | .ok doc => (.ok doc, [.Do req])

/-! ## The methods as one family -/

/-- A call of a method of `Client` with its arguments.  A pointer argument is
an `Option`; `none` is the nil pointer. -/
inductive Call where
  | GetDocuments (collectionUUID : GoString)
  | CreateDocument (collectionUUID : GoString) (doc : Option Document)
  | UpdateDocument (collectionUUID documentUUID : GoString) (doc : Option Document)
  | DeleteDocument (collectionUUID documentUUID : GoString)
  | GetCollections
  | GetCollection (collectionUUID : GoString)
  | CreateCollection (col : Option Collection)
  | UpdateCollection (collectionUUID : GoString) (col : Option Collection)
  | DeleteCollection (collectionUUID : GoString)
  | ListMedia
  | UploadMedia (filePath : GoString)
  | GetMedia (mediaUUID : GoString)
  | UpdateMedia (mediaUUID : GoString) (media : Option Media)
  | DeleteMedia (mediaUUID : GoString)
  | DownloadMedia (mediaUUID destPath : GoString)
  | ListWebhooks
  | CreateWebhook (wh : Option Webhook)
  | UpdateWebhook (webhookUUID : GoString) (wh : Option Webhook)
  | DeleteWebhook (webhookUUID : GoString)
  | GetCollectionSchema (collectionUUID : GoString)
  | GetCollectionFields (collectionUUID : GoString)
  | GetFieldTypes
  | GetPublicDocuments (collectionUUID : GoString)
  | GetPublicDocument (collectionUUID documentUUID : GoString)

/-- The value a method returns next to a nil error.  `done` is the return of
the methods that return only an error. -/
inductive Value where
  | documents (v : Option (List Document))
  | document (v : Document)
  | collections (v : Option (List Collection))
  | collection (v : Collection)
  | mediaList (v : Option (List Media))
  | media (v : Media)
  | webhooks (v : Option (List Webhook))
  | webhook (v : Webhook)
  | schema (v : Option GoMap)
  | fields (v : Option (List CollectionField))
  | types (v : Option (List GoString))
  | done

/-- Forgets the type of the returned value. -/
def Outcome.as {α : Type} (f : α → Value) (o : Outcome α) : Outcome Value :=
  (match o.1 with
    | .error e => .error e
    | .ok v => .ok (f v), o.2)

/-- Runs a call. -/
def Call.run (env : Env) (c : Client) : Call → Outcome Value
  | .GetDocuments a => (ContentZen.GetDocuments env c a).as .documents
  | .CreateDocument a d => (ContentZen.CreateDocument env c a d).as .document
  | .UpdateDocument a b d => (ContentZen.UpdateDocument env c a b d).as .document
  | .DeleteDocument a b => (ContentZen.DeleteDocument env c a b).as (fun _ => .done)
  | .GetCollections => (ContentZen.GetCollections env c).as .collections
  | .GetCollection a => (ContentZen.GetCollection env c a).as .collection
  | .CreateCollection col => (ContentZen.CreateCollection env c col).as .collection
  | .UpdateCollection a col => (ContentZen.UpdateCollection env c a col).as .collection
  | .DeleteCollection a => (ContentZen.DeleteCollection env c a).as (fun _ => .done)
  | .ListMedia => (ContentZen.ListMedia env c).as .mediaList
  | .UploadMedia p => (ContentZen.UploadMedia env c p).as .media
  | .GetMedia a => (ContentZen.GetMedia env c a).as .media
  | .UpdateMedia a m => (ContentZen.UpdateMedia env c a m).as .media
  | .DeleteMedia a => (ContentZen.DeleteMedia env c a).as (fun _ => .done)
  | .DownloadMedia a p => (ContentZen.DownloadMedia env c a p).as (fun _ => .done)
  | .ListWebhooks => (ContentZen.ListWebhooks env c).as .webhooks
  | .CreateWebhook w => (ContentZen.CreateWebhook env c w).as .webhook
  | .UpdateWebhook a w => (ContentZen.UpdateWebhook env c a w).as .webhook
  | .DeleteWebhook a => (ContentZen.DeleteWebhook env c a).as (fun _ => .done)
  | .GetCollectionSchema a => (ContentZen.GetCollectionSchema env c a).as .schema
  | .GetCollectionFields a => (ContentZen.GetCollectionFields env c a).as .fields
  | .GetFieldTypes => (ContentZen.GetFieldTypes env c).as .types
  | .GetPublicDocuments a => (ContentZen.GetPublicDocuments env c a).as .documents
  | .GetPublicDocument a b => (ContentZen.GetPublicDocument env c a b).as .document

/-- The two methods of public.go. -/
def Call.isPublic : Call → Bool
  | .GetPublicDocuments _ => true
  | .GetPublicDocument _ _ => true
  | _ => false

/-- The four methods that send DELETE. -/
def Call.isDelete : Call → Bool
  | .DeleteDocument _ _ => true
  | .DeleteCollection _ => true
  | .DeleteMedia _ => true
  | .DeleteWebhook _ => true
  | _ => false

/-- The four methods that send POST. -/
def Call.isCreate : Call → Bool
  | .CreateDocument _ _ => true
  | .CreateCollection _ => true
  | .CreateWebhook _ => true
  | .UploadMedia _ => true
  | _ => false

/-- The requests among the effects, in order. -/
def requests : List Effect → List Request
  | [] => []
  | .Do r :: es => r :: requests es
  | _ :: es => requests es

/-- The files touched among the effects: the names passed to `os.Open` and
`os.Create`. -/
def files : List Effect → List GoString
  | [] => []
  | .Open p :: es => p :: files es
  | .Create p :: es => p :: files es
  | _ :: es => files es


/-! ## The wire protocol of the specification and sample data -/

/-- The column "Method" of the wire-protocol table of the specification. -/
def Call.method : Call → GoString
  | .GetDocuments _ => str "GET"
  | .CreateDocument _ _ => str "POST"
  | .UpdateDocument _ _ _ => str "PUT"
  | .DeleteDocument _ _ => str "DELETE"
  | .GetPublicDocuments _ => str "GET"
  | .GetPublicDocument _ _ => str "GET"
  | .GetCollections => str "GET"
  | .GetCollection _ => str "GET"
  | .CreateCollection _ => str "POST"
  | .UpdateCollection _ _ => str "PUT"
  | .DeleteCollection _ => str "DELETE"
  | .GetCollectionSchema _ => str "GET"
  | .GetCollectionFields _ => str "GET"
  | .GetFieldTypes => str "GET"
  | .ListMedia => str "GET"
  | .UploadMedia _ => str "POST"
  | .GetMedia _ => str "GET"
  | .UpdateMedia _ _ => str "PUT"
  | .DeleteMedia _ => str "DELETE"
  | .DownloadMedia _ _ => str "GET"
  | .ListWebhooks => str "GET"
  | .CreateWebhook _ => str "POST"
  | .UpdateWebhook _ _ => str "PUT"
  | .DeleteWebhook _ => str "DELETE"

/-- The column "Path" of the wire-protocol table of the specification, with the
identifiers of the call put in the place of the names in braces. -/
def Call.path : Call → GoString
  | .GetDocuments collectionId => str "/documents/" ++ collectionId
  | .CreateDocument collectionId _ => str "/documents/" ++ collectionId
  | .UpdateDocument collectionId docId _ => str "/documents/" ++ collectionId ++ str "/" ++ docId
  | .DeleteDocument collectionId docId => str "/documents/" ++ collectionId ++ str "/" ++ docId
  | .GetPublicDocuments collectionId =>
    str "/documents/collection/" ++ collectionId ++ str "?state=published"
  | .GetPublicDocument collectionId docId =>
    str "/documents/collection/" ++ collectionId ++ str "/" ++ docId
  | .GetCollections => str "/collections"
  | .GetCollection collectionId => str "/collections/" ++ collectionId
  | .CreateCollection _ => str "/collections"
  | .UpdateCollection collectionId _ => str "/collections/" ++ collectionId
  | .DeleteCollection collectionId => str "/collections/" ++ collectionId
  | .GetCollectionSchema collectionId => str "/collections/" ++ collectionId ++ str "/schema"
  | .GetCollectionFields collectionId => str "/collections/" ++ collectionId ++ str "/fields"
  | .GetFieldTypes => str "/collections/field-types"
  | .ListMedia => str "/media/ls"
  | .UploadMedia _ => str "/media/upload"
  | .GetMedia mediaId => str "/media/" ++ mediaId
  | .UpdateMedia mediaId _ => str "/media/" ++ mediaId
  | .DeleteMedia mediaId => str "/media/" ++ mediaId
  | .DownloadMedia mediaId _ => str "/media/" ++ mediaId ++ str "/download"
  | .ListWebhooks => str "/webhooks"
  | .CreateWebhook _ => str "/webhooks"
  | .UpdateWebhook webhookId _ => str "/webhooks/" ++ webhookId
  | .DeleteWebhook webhookId => str "/webhooks/" ++ webhookId

/-- Whether the steps of a method that come before `http.NewRequest` succeed:
`json.Marshal` of a document, and opening and reading the file to upload. -/
def Call.prepared (env : Env) : Call → Bool
  | .CreateDocument _ doc => (Document.marshal env.marshalPayload doc).toBool
  | .UpdateDocument _ _ doc => (Document.marshal env.marshalPayload doc).toBool
  | .UploadMedia filePath =>
    match env.Open filePath with
    | .ok file => file.failure.isNone
    | .error _ => false
  | _ => true

/-- The base name of a path in the words of the specification: its last
element, without any directory components (as `filepath.Base` computes it). -/
def baseName (p : GoString) : GoString :=
  let q := (p.reverse.dropWhile (fun c => c = 47)).reverse
  if p = [] then str "."
  else if q = [] then str "/"
  else (q.reverse.takeWhile (fun c => c ≠ 47)).reverse

/-- Whether an error is one that `fmt.Errorf` built. -/
def GoError.isErrorf : GoError → Bool
  | .errorf _ => true
  | _ => false

/-- A store function fails only with an `UnmarshalTypeError`. -/
def TypeErrors {α : Type} (store : JValue → Except GoError α) : Prop :=
  ∀ v e, store v = .error e → e = .UnmarshalTypeError

/-- A sample environment: every URL is accepted, the only file is
`/tmp/images/cat.png` with three bytes, files can be created and written. -/
def demoEnv : Env where
  parseURL := fun _ => none
  openFile := fun p => if p = str "/tmp/images/cat.png" then .ok ⟨[1, 2, 3], none⟩ else .error 2
  createFile := fun _ => none
  writeFile := fun _ _ => none
  boundary := str "b0"
  marshalPayload := fun _ => .ok (str "null")
  floatOK := fun _ => true

/-- A sample response with a complete body. -/
def demoResponse (code : Int) (status body : String) : Response :=
  ⟨str status, code, ⟨str body, none⟩⟩

/-- A sample client with the credential `secret` whose server always gives the
same response. -/
def demoClient (resp : Response) : Client := NewClient (fun _ => .ok resp) (str "secret")

/-! ## Notions used to state the claims on JSON -/

/-- The members of an object whose key selects the struct field with the JSON
name `name`, in the order of the text. -/
def membersFor (name : GoString) (ms : List (GoString × JValue)) : List (GoString × JValue) :=
  ms.filter (fun m => fieldMatch name m.1)

/-- A JSON value is a document object for the document `d`: it is an object
that has, for each of `uuid`, `lang` and `state`, exactly one member selecting
the field, holding the string of `d`, and exactly one member selecting
`payload`, holding an object whose members make the map of `d` (all its numbers
being in the range of `float64`). -/
def DocumentObject (floatOK : GoString → Bool) (v : JValue) (d : Document) : Prop :=
  ∃ ms ku kl ks kp pm m,
    v = .object ms
    ∧ membersFor (str "uuid") ms = [(ku, .string d.UUID)]
    ∧ membersFor (str "lang") ms = [(kl, .string d.Lang)]
    ∧ membersFor (str "state") ms = [(ks, .string d.State)]
    ∧ membersFor (str "payload") ms = [(kp, .object pm)]
    ∧ toInterfaceMembers floatOK pm [] = .ok m ∧ d.Payload = some m

/-- The JSON value of the text `json.Marshal` writes for a `CollectionField`. -/
def CollectionField.toJSON (f : CollectionField) : JValue :=
  .object ([(str "name", .string f.Name), (str "type", .string f.Type_),
    (str "display_name", .string f.DisplayName), (str "required", .bool f.Required)]
    ++ (if f.Unique then [(str "unique", .bool true)] else []))

/-- The JSON value of the text `json.Marshal` writes for a slice of fields. -/
def fieldsToJSON : Option (List CollectionField) → JValue
  | none => .null
  | some fs => .array (fs.map CollectionField.toJSON)

/-- The JSON value of the text `json.Marshal` writes for a `Collection`. -/
def Collection.toJSON (c : Collection) : JValue :=
  .object [(str "uuid", .string c.UUID), (str "name", .string c.Name),
    (str "display_name", .string c.DisplayName), (str "description", .string c.Description),
    (str "is_public", .bool c.IsPublic), (str "fields", fieldsToJSON c.Fields)]

/-- Whether the strings of a `CollectionField` are valid UTF-8. -/
def CollectionField.valid (f : CollectionField) : Bool :=
  Valid f.Name && Valid f.Type_ && Valid f.DisplayName

/-- Whether all strings of a `Collection`, those of its fields included, are
valid UTF-8. -/
def Collection.valid (c : Collection) : Bool :=
  Valid c.UUID && Valid c.Name && Valid c.DisplayName && Valid c.Description
    && (c.Fields.getD []).all CollectionField.valid

/-- The document of the example of the specification. -/
def demoDocument : Document :=
  { UUID := str "a1", Payload := some [(str "title", .string (str "x"))], Lang := str "en",
    State := str "published" }

/-- A transport that answers a request that has a body of bytes with the status
201 and the same bytes; a request without such a body fails. -/
def echoTransport (req : Request) : Except Nat Response :=
  match req.Body with
  | .bytes b => .ok ⟨str "201 Created", 201, ⟨b, none⟩⟩
  | _ => .error 1

/-- A sample client with the credential `secret` whose server echoes the
request body. -/
def echoClient : Client := NewClient echoTransport (str "secret")

/-- The collection of the round-trip example of the specification: a single
field with name "title", type "text" and the required flag. -/
def demoCollection : Collection :=
  { UUID := [], Name := str "articles", DisplayName := str "Articles", Description := [],
    IsPublic := false, Fields := some [⟨str "title", str "text", [], true, false⟩] }

/-- A collection whose name is the single byte 0xFF, which is not valid
UTF-8. -/
def latin1Collection : Collection := { Collection.zero with Name := [255] }

/-! ## The file system and the decoding step, for the claims on them -/

/-- The contents of the files by path; `none` where there is no file. -/
abbrev Files := GoString → Option GoString

/-- The files after one effect.  An `os.Create` that succeeds leaves the file
empty, whatever it held before; one that fails changes nothing.  The bytes of a
write are put after those the file holds.  A request and an `os.Open` change no
file. -/
def Env.step (env : Env) (fs : Files) : Effect → Files
  | .Create p =>
    if env.createFile p = none then fun q => if q = p then some [] else fs q else fs
  | .Write p d => fun q => if q = p then some ((fs p).getD [] ++ d) else fs q
  | _ => fs

/-- The files after the effects of a call, in order. -/
def Env.after (env : Env) (fs : Files) (es : List Effect) : Files := es.foldl env.step fs

/-- A sample environment in which files can be created but the disk is full
after two bytes: every write stops there with an error. -/
def fullDiskEnv : Env := { demoEnv with writeFile := fun _ _ => some (2, 28) }

/-- The methods that decode a result from the body of the response: all but
the four deletes and DownloadMedia. -/
def Call.decodes : Call → Bool
  | .DeleteDocument _ _ => false
  | .DeleteCollection _ => false
  | .DeleteMedia _ => false
  | .DeleteWebhook _ => false
  | .DownloadMedia _ _ => false
  | _ => true

/-- The column "Success codes" of the wire-protocol table of the
specification. -/
def Call.accepts (call : Call) (code : Int) : Bool :=
  if call.isCreate then code = 200 || code = 201
  else if call.isDelete then code = 200 || code = 204
  else code = 200

/-- Whether the result type of the method is a slice, so that the body is
expected to be a JSON array; the other decoding methods expect an object. -/
def Call.wantsArray : Call → Bool
  | .GetDocuments _ => true
  | .GetCollections => true
  | .ListMedia => true
  | .ListWebhooks => true
  | .GetCollectionFields _ => true
  | .GetFieldTypes => true
  | _ => false

/-- A JSON value of the wrong kind for the result of a method: not `null`, and
not an array where a slice is decoded, not an object where a struct or a map
is. -/
def wrongKind (call : Call) : JValue → Bool
  | .null => false
  | .array _ => !call.wantsArray
  | .object _ => call.wantsArray
  | _ => true

/-- Gives the returned value of a store its place in `Value`. -/
def tag {α : Type} (f : α → Value) : Except GoError α → Except GoError Value
  | .error e => .error e
  | .ok v => .ok (f v)

/-- The variable a method passes to `Decode`, as a store function: a fresh
variable of the result type of the method.  The methods that decode nothing
have no such variable. -/
def Call.store (env : Env) : Call → JValue → Except GoError Value
  | .GetDocuments _, v => tag .documents (storeSlice (Document.store env.floatOK Document.zero) v)
  | .CreateDocument _ _, v => tag .document (Document.store env.floatOK Document.zero v)
  | .UpdateDocument _ _ _, v => tag .document (Document.store env.floatOK Document.zero v)
  | .GetCollections, v => tag .collections (storeSlice (Collection.store Collection.zero) v)
  | .GetCollection _, v => tag .collection (Collection.store Collection.zero v)
  | .CreateCollection _, v => tag .collection (Collection.store Collection.zero v)
  | .UpdateCollection _ _, v => tag .collection (Collection.store Collection.zero v)
  | .ListMedia, v => tag .mediaList (storeSlice (Media.store Media.zero) v)
  | .UploadMedia _, v => tag .media (Media.store Media.zero v)
  | .GetMedia _, v => tag .media (Media.store Media.zero v)
  | .UpdateMedia _ _, v => tag .media (Media.store Media.zero v)
  | .ListWebhooks, v => tag .webhooks (storeSlice (Webhook.store Webhook.zero) v)
  | .CreateWebhook _, v => tag .webhook (Webhook.store Webhook.zero v)
  | .UpdateWebhook _ _, v => tag .webhook (Webhook.store Webhook.zero v)
  | .GetCollectionSchema _, v => tag .schema (storeMap env.floatOK none v)
  | .GetCollectionFields _, v =>
    tag .fields (storeSlice (CollectionField.store CollectionField.zero) v)
  | .GetFieldTypes, v => tag .types (storeSlice (storeString []) v)
  | .GetPublicDocuments _, v => tag .documents (storeStruct (Envelope.field env.floatOK) none v)
  | .GetPublicDocument _ _, v => tag .document (Document.store env.floatOK Document.zero v)
  | _, _ => .ok .done

/-- Whether a JSON value is a number.  A number is the one kind of value with
no closing byte: digits after its literal make another number. -/
def JValue.isNumber : JValue → Bool
  | .number _ => true
  | _ => false

/-- How the scan `p` of an input and the scan `q` of the same input with the
bytes `x` after it go together.  A byte that is not allowed stays not allowed.
A value that was found is found again, with `x` after its rest, unless it is
open (`isOpen`) and ends the input: then a value found in the longer input is
open too, and it either ends inside `x` or is the same value with all of `x`
after it.  Where the input ended inside a value, a value found in the longer
input ends inside `x`. -/
def Extends {α : Type} (isOpen : α → Bool) (x : List Nat) (p q : Parsed α) : Prop :=
  match p with
  | .invalid => q = .invalid
  | .incomplete => ∀ v r, q = .ok v r → r.length < x.length
  | .ok v r =>
    ((r ≠ [] ∨ isOpen v = false) → q = .ok v (r ++ x))
    ∧ (r = [] → isOpen v = true →
        ∀ w r2, q = .ok w r2 → isOpen w = true ∧ (r2.length < x.length ∨ (w = v ∧ r2 = x)))

/-- The variable a method passes to `Decode` as it is declared, before anything
is stored into it: the nil slice, the nil map or the zero struct.  It is what
the method returns when nothing is stored. -/
def Call.zero : Call → Value
  | .GetDocuments _ => .documents none
  | .CreateDocument _ _ => .document Document.zero
  | .UpdateDocument _ _ _ => .document Document.zero
  | .GetCollections => .collections none
  | .GetCollection _ => .collection Collection.zero
  | .CreateCollection _ => .collection Collection.zero
  | .UpdateCollection _ _ => .collection Collection.zero
  | .ListMedia => .mediaList none
  | .UploadMedia _ => .media Media.zero
  | .GetMedia _ => .media Media.zero
  | .UpdateMedia _ _ => .media Media.zero
  | .ListWebhooks => .webhooks none
  | .CreateWebhook _ => .webhook Webhook.zero
  | .UpdateWebhook _ _ => .webhook Webhook.zero
  | .GetCollectionSchema _ => .schema none
  | .GetCollectionFields _ => .fields none
  | .GetFieldTypes => .types none
  | .GetPublicDocuments _ => .documents none
  | .GetPublicDocument _ _ => .document Document.zero
  | _ => .done

mutual
/-- Whether no object inside a JSON value has two members whose names are equal
without regard to case, so that no field of a struct is stored twice.  On such
values every slice is decoded into a fresh variable, as `storeSlice` does. -/
def JValue.distinctNames : JValue → Bool
  | .array xs => distinctNamesElems xs
  | .object ms => decide ((ms.map (fun m => foldName m.1)).Nodup) && distinctNamesMembers ms
  | _ => true
/-- The same for the elements of an array. -/
def distinctNamesElems : List JValue → Bool
  | [] => true
  | x :: xs => x.distinctNames && distinctNamesElems xs
/-- The same for the values of the members of an object. -/
def distinctNamesMembers : List (GoString × JValue) → Bool
  | [] => true
  | (_, v) :: ms => v.distinctNames && distinctNamesMembers ms
end

/-! ## Well-formed JSON in the words of the specification -/

/-- White space between the tokens of a JSON text (RFC 8259, `ws`): spaces,
tabs, line feeds and carriage returns. -/
def JSONSpace (s : List Nat) : Prop := ∀ b ∈ s, b = 32 ∨ b = 9 ∨ b = 10 ∨ b = 13

/-- A hexadecimal digit, in either case. -/
def JSONHex (c : Nat) : Prop := (48 ≤ c ∧ c ≤ 57) ∨ (65 ≤ c ∧ c ≤ 70) ∨ (97 ≤ c ∧ c ≤ 102)

/-- The characters of a JSON string and its closing quotation mark (RFC 8259,
`*char quotation-mark`): a byte from the space on other than the quotation mark
and the backslash stands for itself, and a backslash starts one of the eight
short escapes or `u` and four hexadecimal digits.  The grammar is one of bytes:
it does not ask that the bytes of a string be valid UTF-8. -/
inductive JSONChars : List Nat → Prop
  | close : JSONChars [34]
  | unescaped (c : Nat) (t : List Nat) : 32 ≤ c → c ≠ 34 → c ≠ 92 → JSONChars t →
    JSONChars (c :: t)
  | escape (e : Nat) (t : List Nat) : e ∈ [34, 92, 47, 98, 102, 110, 114, 116] → JSONChars t →
    JSONChars (92 :: e :: t)
  | unicode (a b c d : Nat) (t : List Nat) : JSONHex a → JSONHex b → JSONHex c → JSONHex d →
    JSONChars t → JSONChars (92 :: 117 :: a :: b :: c :: d :: t)

/-- One or more decimal digits (`1*DIGIT`). -/
def JSONDigits (s : List Nat) : Prop := s ≠ [] ∧ ∀ b ∈ s, 48 ≤ b ∧ b ≤ 57

/-- The integer part of a number (`int`): a single zero, or a digit from 1 to 9
and any digits. -/
def JSONInt (s : List Nat) : Prop :=
  s = [48] ∨ ∃ d t, s = d :: t ∧ 49 ≤ d ∧ d ≤ 57 ∧ ∀ b ∈ t, 48 ≤ b ∧ b ≤ 57

/-- The optional fraction of a number (`frac`): a point and digits. -/
def JSONFrac (s : List Nat) : Prop := s = [] ∨ ∃ ds, s = 46 :: ds ∧ JSONDigits ds

/-- The optional exponent of a number (`exp`): `e` or `E`, an optional sign and
digits. -/
def JSONExp (s : List Nat) : Prop :=
  s = [] ∨ ∃ e sign ds, s = e :: (sign ++ ds) ∧ (e = 101 ∨ e = 69)
    ∧ (sign = [] ∨ sign = [43] ∨ sign = [45]) ∧ JSONDigits ds

/-- A JSON number (`[ minus ] int [ frac ] [ exp ]`). -/
def JSONNumber (s : List Nat) : Prop :=
  ∃ m i f x, s = m ++ (i ++ (f ++ x)) ∧ (m = [] ∨ m = [45]) ∧ JSONInt i ∧ JSONFrac f ∧ JSONExp x

mutual
/-- A JSON value (RFC 8259, `value`): one of the three literal names, a number,
a string, an array or an object, with white space allowed around the brackets,
the commas and the colons. -/
inductive JSONValue : List Nat → Prop
  | litNull : JSONValue [110, 117, 108, 108]
  | litTrue : JSONValue [116, 114, 117, 101]
  | litFalse : JSONValue [102, 97, 108, 115, 101]
  | number (s : List Nat) : JSONNumber s → JSONValue s
  | string (s : List Nat) : JSONChars s → JSONValue (34 :: s)
  | emptyArray (w : List Nat) : JSONSpace w → JSONValue (91 :: (w ++ [93]))
  | array (w items : List Nat) : JSONSpace w → JSONItems items → JSONValue (91 :: (w ++ items))
  | emptyObject (w : List Nat) : JSONSpace w → JSONValue (123 :: (w ++ [125]))
  | object (w pairs : List Nat) : JSONSpace w → JSONPairs pairs →
    JSONValue (123 :: (w ++ pairs))
/-- The elements of a non-empty array and its closing bracket: values separated
by commas. -/
inductive JSONItems : List Nat → Prop
  | last (v w : List Nat) : JSONValue v → JSONSpace w → JSONItems (v ++ (w ++ [93]))
  | more (v w1 w2 rest : List Nat) : JSONValue v → JSONSpace w1 → JSONSpace w2 →
    JSONItems rest → JSONItems (v ++ (w1 ++ 44 :: (w2 ++ rest)))
/-- The members of a non-empty object and its closing brace: a string, a colon
and a value each, separated by commas. -/
inductive JSONPairs : List Nat → Prop
  | last (k w1 w2 v w3 : List Nat) : JSONChars k → JSONSpace w1 → JSONSpace w2 → JSONValue v →
    JSONSpace w3 → JSONPairs (34 :: (k ++ (w1 ++ 58 :: (w2 ++ (v ++ (w3 ++ [125]))))))
  | more (k w1 w2 v w3 w4 rest : List Nat) : JSONChars k → JSONSpace w1 → JSONSpace w2 →
    JSONValue v → JSONSpace w3 → JSONSpace w4 → JSONPairs rest →
    JSONPairs (34 :: (k ++ (w1 ++ 58 :: (w2 ++ (v ++ (w3 ++ 44 :: (w4 ++ rest)))))))
end

/-- Well-formed JSON: a JSON value with optional white space before it.  A
body is malformed from its first byte on when no prefix of it is such a
text. -/
def JSONText (s : List Nat) : Prop := ∃ w v, s = w ++ v ∧ JSONSpace w ∧ JSONValue v

/-- The bytes a JSON value can start with. -/
def JSONFirst (c : Nat) : Prop :=
  c = 110 ∨ c = 116 ∨ c = 102 ∨ c = 34 ∨ c = 91 ∨ c = 123 ∨ c = 45 ∨ (48 ≤ c ∧ c ≤ 57)

/-! # Properties -/

/-! ## Lemmas on the library functions -/

theorem NewRequest_ok (env : Env) (m u : GoString) (b : RequestBody) (r : Request) :
    NewRequest env m u b = .ok r ↔
      env.parseURL u = none ∧ r = { Method := m, URL := u, Header := [], Body := b } := by
  unfold NewRequest
  cases env.parseURL u <;> simp [eq_comm]

theorem NewRequest_error (env : Env) (m u : GoString) (b : RequestBody) (e : GoError) :
    NewRequest env m u b = .error e ↔ ∃ code, env.parseURL u = some code ∧ e = .external code := by
  unfold NewRequest
  cases env.parseURL u <;> simp [eq_comm]

theorem Open_ok (env : Env) (p : GoString) (f : Stream) :
    env.Open p = .ok f ↔ env.openFile p = .ok f := by
  unfold Env.Open
  cases env.openFile p <;> simp

theorem Open_error (env : Env) (p : GoString) (e : GoError) :
    env.Open p = .error e ↔ ∃ code, env.openFile p = .error code ∧ e = .external code := by
  unfold Env.Open
  cases env.openFile p <;> simp [eq_comm]

theorem failure_none (b : Stream) : b.failure = none ↔ b.err = none := by
  unfold Stream.failure
  cases b.err <;> simp

theorem failure_some (b : Stream) (e : GoError) :
    b.failure = some e ↔ ∃ code, b.err = some code ∧ e = .external code := by
  unfold Stream.failure
  cases b.err <;> simp [eq_comm]

theorem Do_error (h : HTTPClient) (req : Request) (e : GoError) :
    h.Do req = .error e ↔ ∃ code, h.transport req = .error code ∧ e = .external code := by
  unfold HTTPClient.Do
  cases h.transport req <;> simp [eq_comm]

theorem Do_ok (h : HTTPClient) (req : Request) (resp : Response) :
    h.Do req = .ok resp ↔ h.transport req = .ok resp := by
  unfold HTTPClient.Do
  cases h.transport req <;> simp

theorem versioned :
    str "/api/v1/documents/" = str "/api/v1" ++ str "/documents/"
    ∧ str "/api/v1/documents/collection/" = str "/api/v1" ++ str "/documents/collection/"
    ∧ str "/api/v1/collections" = str "/api/v1" ++ str "/collections"
    ∧ str "/api/v1/collections/" = str "/api/v1" ++ str "/collections/"
    ∧ str "/api/v1/collections/field-types" = str "/api/v1" ++ str "/collections/field-types"
    ∧ str "/api/v1/media/ls" = str "/api/v1" ++ str "/media/ls"
    ∧ str "/api/v1/media/upload" = str "/api/v1" ++ str "/media/upload"
    ∧ str "/api/v1/media/" = str "/api/v1" ++ str "/media/"
    ∧ str "/api/v1/webhooks" = str "/api/v1" ++ str "/webhooks"
    ∧ str "/api/v1/webhooks/" = str "/api/v1" ++ str "/webhooks/" := by
  refine ⟨?_, ?_, ?_, ?_, ?_, ?_, ?_, ?_, ?_, ?_⟩ <;> rfl

theorem Values_Set_same (r : Request) (k v : GoString) : (r.Set k v).Values k = [v] := by
  simp [Request.Set, Request.Values, List.filter_append, List.filter_filter]

theorem Values_Set_other (r : Request) (k k2 v : GoString) (h : k ≠ k2) :
    (r.Set k v).Values k2 = r.Values k2 := by
  have h2 : ∀ a : GoString × GoString, (decide (a.1 = k2) && !decide (a.1 = k)) = decide (a.1 = k2) := by
    intro a
    by_cases h3 : a.1 = k2
    · have : a.1 ≠ k := fun h4 => h (h4 ▸ h3)
      simp [h3, this]
      exact fun h4 => h h4.symm
    · simp [h3]
  simp [Request.Set, Request.Values, List.filter_append, List.filter_filter, h, h2]

theorem Values_new (m u k : GoString) (b : RequestBody) :
    Request.Values { Method := m, URL := u, Header := [], Body := b } k = [] := rfl

theorem header_names : str "Content-Type" ≠ str "Authorization" := by decide

theorem Set_Set_new (m u v1 v2 : GoString) (b : RequestBody) :
    (Request.Set (Request.Set { Method := m, URL := u, Header := [], Body := b }
      (str "Authorization") v1) (str "Content-Type") v2)
    = { Method := m, URL := u,
        Header := [(str "Authorization", v1), (str "Content-Type", v2)], Body := b } := by
  have h : str "Authorization" ≠ str "Content-Type" := by decide
  simp [Request.Set, h]

theorem failure_errors (b : Stream) (e : GoError) (h : b.failure = some e) :
    e.isErrorf = false := by
  unfold Stream.failure at h
  split at h
  · cases h; rfl
  · cases h

theorem readValue_error (b : Stream) (e : GoError) (h : readValue b = .error e) :
    e.isErrorf = false := by
  unfold readValue at h
  repeat' split at h
  all_goals first
    | (cases h; done)
    | (cases h; rfl)
    | (cases h; exact failure_errors _ _ (by assumption))

theorem storeString_errors (cur : GoString) : TypeErrors (storeString cur) := by
  intro v e h
  cases v <;> simp [storeString] at h <;> exact h.symm

theorem storeBool_errors (cur : Bool) : TypeErrors (storeBool cur) := by
  intro v e h
  cases v <;> simp [storeBool] at h <;> exact h.symm

theorem storeElems_errors {α : Type} (elem : JValue → Except GoError α) (helem : TypeErrors elem) :
    ∀ xs e, storeElems elem xs = .error e → e = .UnmarshalTypeError := by
  intro xs
  induction xs with
  | nil => intro e h; simp [storeElems] at h
  | cons x xs ih =>
    intro e h
    unfold storeElems at h
    split at h
    · rename_i e2 he
      cases h
      exact helem _ _ he
    · split at h
      · rename_i e2 he
        cases h
        exact ih _ he
      · cases h

theorem storeSlice_errors {α : Type} (elem : JValue → Except GoError α) (helem : TypeErrors elem) :
    TypeErrors (storeSlice elem) := by
  intro v e h
  unfold storeSlice at h
  split at h
  · split at h
    · rename_i e2 he
      cases h
      exact storeElems_errors elem helem _ _ he
    · cases h
  · cases h
  · cases h; rfl

theorem storeMembers_errors {α : Type} (field : α → GoString → JValue → Except GoError α)
    (hfield : ∀ cur k, TypeErrors (field cur k)) :
    ∀ ms cur e, storeMembers field cur ms = .error e → e = .UnmarshalTypeError := by
  intro ms
  induction ms with
  | nil => intro cur e h; simp [storeMembers] at h
  | cons m ms ih =>
    intro cur e h
    obtain ⟨k, v⟩ := m
    unfold storeMembers at h
    split at h
    · rename_i e2 he
      cases h
      exact hfield _ _ _ _ he
    · exact ih _ _ h

theorem storeStruct_errors {α : Type} (field : α → GoString → JValue → Except GoError α)
    (hfield : ∀ cur k, TypeErrors (field cur k)) (cur : α) : TypeErrors (storeStruct field cur) := by
  intro v e h
  unfold storeStruct at h
  split at h
  · exact storeMembers_errors field hfield _ _ _ h
  · cases h
  · cases h; rfl

mutual
theorem toInterface_errors (ok : GoString → Bool) :
    ∀ v e, toInterface ok v = .error e → e = .UnmarshalTypeError
  | .null, e, h => by simp [toInterface] at h
  | .bool _, e, h => by simp [toInterface] at h
  | .number lit, e, h => by
    unfold toInterface at h
    split at h
    · cases h
    · cases h; rfl
  | .string _, e, h => by simp [toInterface] at h
  | .array xs, e, h => by
    unfold toInterface at h
    split at h
    · rename_i e2 he
      cases h
      exact toInterfaceElems_errors ok xs _ he
    · cases h
  | .object ms, e, h => by
    unfold toInterface at h
    split at h
    · rename_i e2 he
      cases h
      exact toInterfaceMembers_errors ok ms _ _ he
    · cases h
theorem toInterfaceElems_errors (ok : GoString → Bool) :
    ∀ xs e, toInterfaceElems ok xs = .error e → e = .UnmarshalTypeError
  | [], e, h => by simp [toInterfaceElems] at h
  | x :: xs, e, h => by
    unfold toInterfaceElems at h
    split at h
    · rename_i e2 he
      cases h
      exact toInterface_errors ok x _ he
    · split at h
      · rename_i e2 he
        cases h
        exact toInterfaceElems_errors ok xs _ he
      · cases h
theorem toInterfaceMembers_errors (ok : GoString → Bool) :
    ∀ ms m e, toInterfaceMembers ok ms m = .error e → e = .UnmarshalTypeError
  | [], m, e, h => by simp [toInterfaceMembers] at h
  | (k, x) :: ms, m, e, h => by
    unfold toInterfaceMembers at h
    split at h
    · rename_i e2 he
      cases h
      exact toInterface_errors ok x _ he
    · exact toInterfaceMembers_errors ok ms _ _ h
end

theorem storeMap_errors (ok : GoString → Bool) (cur : Option GoMap) : TypeErrors (storeMap ok cur) := by
  intro v e h
  unfold storeMap at h
  split at h
  · split at h
    · rename_i e2 he
      cases h
      exact toInterfaceMembers_errors ok _ _ _ he
    · cases h
  · cases h
  · cases h; rfl

theorem Document_field_errors (ok : GoString → Bool) (cur : Document) (k : GoString) :
    TypeErrors (Document.field ok cur k) := by
  intro v e h
  unfold Document.field at h
  repeat' split at h
  all_goals first
    | (cases h; done)
    | (cases h; exact storeString_errors _ _ _ (by assumption))
    | (cases h; exact storeMap_errors _ _ _ _ (by assumption))

theorem Document_store_errors (ok : GoString → Bool) (cur : Document) :
    TypeErrors (Document.store ok cur) :=
  storeStruct_errors _ (Document_field_errors ok) cur

theorem Envelope_field_errors (ok : GoString → Bool) (cur : Option (List Document)) (k : GoString) :
    TypeErrors (Envelope.field ok cur k) := by
  intro v e h
  unfold Envelope.field at h
  split at h
  · exact storeSlice_errors _ (Document_store_errors ok _) _ _ h
  · cases h

theorem Decode_error {α : Type} (store : JValue → Except GoError α) (hstore : TypeErrors store)
    (b : Stream) (e : GoError) (h : Decode store b = .error e) : e.isErrorf = false := by
  unfold Decode at h
  split at h
  · rename_i e2 he
    cases h
    exact readValue_error _ _ he
  · rw [hstore _ _ h]; rfl



/-! ## The recursion bounds of the scanner -/

theorem skipSpace_length : ∀ s : List Nat, (skipSpace s).length ≤ s.length := by
  intro s
  induction s with
  | nil => simp [skipSpace]
  | cons c t ih =>
    unfold skipSpace
    split
    · simp only [List.length_cons]; omega
    · exact Nat.le_refl _

theorem skipSpace_cons_length (s t : List Nat) (c : Nat) (h : skipSpace s = c :: t) :
    t.length < s.length := by
  have := skipSpace_length s
  rw [h] at this
  simp only [List.length_cons] at this
  omega

theorem Parsed_map_ok {α β : Type} (f : α → β) (p : Parsed α) (v : β) (r : List Nat)
    (h : p.map f = .ok v r) : ∃ w, p = .ok w r := by
  cases p with
  | ok w r2 =>
    simp only [Parsed.map, Parsed.ok.injEq] at h
    exact ⟨w, by rw [h.2]⟩
  | invalid => simp [Parsed.map] at h
  | incomplete => simp [Parsed.map] at h

theorem Parsed_push_ok (bs : List Nat) (p : Parsed GoString) (v : GoString) (r : List Nat)
    (h : p.push bs = .ok v r) : ∃ w, p = .ok w r := by
  cases p with
  | ok w r2 =>
    simp only [Parsed.push, Parsed.ok.injEq] at h
    exact ⟨w, by rw [h.2]⟩
  | invalid => simp [Parsed.push] at h
  | incomplete => simp [Parsed.push] at h

theorem spanDigits_length : ∀ s : List Nat, (spanDigits s).2.length ≤ s.length := by
  intro s
  induction s with
  | nil => simp [spanDigits]
  | cons c t ih =>
    unfold spanDigits
    split
    · simp only [List.length_cons]; omega
    · exact Nat.le_refl _

theorem scanExponent_rest (lit s : List Nat) (v : GoString) (r : List Nat)
    (h : scanExponent lit s = .ok v r) : r.length ≤ s.length := by
  unfold scanExponent at h
  split at h
  · simp only [Parsed.ok.injEq] at h
    rw [← h.2]
  · rename_i e t
    split at h
    · split at h
      all_goals
        dsimp only at h
        split at h
        · cases h
        · rename_i d u hd
          split at h
          · simp only [Parsed.ok.injEq] at h
            rw [← h.2]
            have h1 := spanDigits_length (d :: u)
            have h2 := congrArg List.length hd
            simp only [List.length_drop, List.length_cons, List.length_nil] at h1 h2 ⊢
            omega
          · cases h
    · simp only [Parsed.ok.injEq] at h
      rw [← h.2]

theorem scanFraction_rest (lit s : List Nat) (v : GoString) (r : List Nat)
    (h : scanFraction lit s = .ok v r) : r.length ≤ s.length := by
  unfold scanFraction at h
  split at h
  · rename_i t
    split at h
    · cases h
    · rename_i d u
      split at h
      · have h1 := scanExponent_rest _ _ _ _ h
        have h2 := spanDigits_length (d :: u)
        simp only [List.length_cons] at h1 h2 ⊢
        omega
      · cases h
  · exact scanExponent_rest _ _ _ _ h

theorem scanDigits_rest (sign s : List Nat) (v : GoString) (r : List Nat)
    (h : scanDigits sign s = .ok v r) : r.length < s.length := by
  unfold scanDigits at h
  split at h
  · cases h
  · rename_i d t
    split at h
    · have := scanFraction_rest _ _ _ _ h
      simp only [List.length_cons]
      omega
    · split at h
      · have h1 := scanFraction_rest _ _ _ _ h
        have h2 := spanDigits_length t
        simp only [List.length_cons]
        omega
      · cases h

theorem scanNumber_rest (s : List Nat) (v : GoString) (r : List Nat)
    (h : scanNumber s = .ok v r) : r.length < s.length := by
  unfold scanNumber at h
  split at h
  · have := scanDigits_rest _ _ _ _ h
    simp only [List.length_cons]
    omega
  · exact scanDigits_rest _ _ _ _ h

theorem scanLiteral_rest : ∀ (es s : List Nat) (r : List Nat),
    scanLiteral es s = .ok () r → r.length ≤ s.length := by
  intro es
  induction es with
  | nil =>
    intro s r h
    simp only [scanLiteral, Parsed.ok.injEq, true_and] at h
    rw [h]
  | cons e es ih =>
    intro s r h
    cases s with
    | nil => simp [scanLiteral] at h
    | cons c t =>
      simp only [scanLiteral] at h
      split at h
      · have := ih t r h
        simp only [List.length_cons]
        omega
      · cases h

theorem scanHex4_rest (s : List Nat) (v : Nat) (r : List Nat) (h : scanHex4 s = .ok v r) :
    r.length < s.length := by
  unfold scanHex4 at h
  repeat' split at h
  all_goals first
    | (cases h; done)
    | (simp only [Parsed.ok.injEq] at h
       rw [← h.2]
       simp only [List.length_cons]
       omega)

theorem getu4_rest (s : List Nat) (v : Nat) (r : List Nat) (h : getu4 s = some (v, r)) :
    r.length < s.length := by
  unfold getu4 at h
  split at h
  · split at h
    · rename_i t _ _ hs
      simp only [Option.some.injEq, Prod.mk.injEq] at h
      have := scanHex4_rest _ _ _ hs
      rw [← h.2]
      simp only [List.length_cons]
      omega
    · cases h
  · cases h

theorem DecodeRune_size (c : Nat) (t : List Nat) : 1 ≤ (DecodeRune (c :: t)).2 := by
  simp only [DecodeRune]
  repeat' split
  all_goals simp

theorem scanStringAux_rest : ∀ (n : Nat) (s : List Nat) (v : GoString) (r : List Nat),
    scanStringAux n s = .ok v r → r.length < s.length := by
  intro n
  induction n with
  | zero => intro s v r h; simp [scanStringAux] at h
  | succ n ih =>
    intro s v r h
    cases s with
    | nil => simp [scanStringAux] at h
    | cons c t =>
      rw [scanStringAux.eq_def] at h; simp only at h
      have hd := DecodeRune_size c t
      repeat' split at h
      all_goals first
        | (cases h; done)
        | (simp only [Parsed.ok.injEq] at h
           rw [← h.2]
           simp only [List.length_cons]
           omega)
        | (obtain ⟨w, hw⟩ := Parsed_push_ok _ _ _ _ h
           have h1 := ih _ _ _ hw
           have h2 := scanHex4_rest _ _ _ ‹_›
           have h3 := getu4_rest _ _ _ ‹_›
           simp only [List.length_cons] at h1 h2 h3 ⊢
           omega)
        | (obtain ⟨w, hw⟩ := Parsed_push_ok _ _ _ _ h
           have h1 := ih _ _ _ hw
           have h2 := scanHex4_rest _ _ _ ‹_›
           simp only [List.length_cons] at h1 h2 ⊢
           omega)
        | (obtain ⟨w, hw⟩ := Parsed_push_ok _ _ _ _ h
           have h1 := ih _ _ _ hw
           simp only [List.length_cons, List.length_drop] at h1 ⊢
           omega)

theorem scanString_rest (s : List Nat) (v : GoString) (r : List Nat)
    (h : scanString s = .ok v r) : r.length < s.length :=
  scanStringAux_rest _ _ _ _ h

theorem scan_rest : ∀ n : Nat,
    (∀ d s v r, scanValue n d s = .ok v r → r.length < s.length)
    ∧ (∀ d s v r, scanElems n d s = .ok v r → r.length < s.length)
    ∧ (∀ d s v r, scanMembers n d s = .ok v r → r.length < s.length) := by
  intro n
  induction n with
  | zero =>
    refine ⟨?_, ?_, ?_⟩ <;> intro d s v r h
    · simp [scanValue] at h
    · simp [scanElems] at h
    · simp [scanMembers] at h
  | succ n ih =>
    obtain ⟨ihV, ihE, ihM⟩ := ih
    refine ⟨?_, ?_, ?_⟩ <;> intro d s v r h
    · rw [scanValue] at h
      split at h
      · cases h
      · rename_i c t hs
        have hs := skipSpace_cons_length _ _ _ hs
        repeat' split at h
        all_goals first
          | (cases h; done)
          | (simp only [Parsed.ok.injEq] at h
             have h1 := skipSpace_cons_length _ _ _ ‹skipSpace t = _›
             rw [← h.2]
             omega)
          | (obtain ⟨w, hw⟩ := Parsed_map_ok _ _ _ _ h
             have h1 := skipSpace_cons_length _ _ _ ‹skipSpace t = _›
             first
               | (have h2 := ihM _ _ _ _ hw
                  simp only [List.length_cons] at h2
                  omega)
               | (have h2 := ihE _ _ _ _ hw
                  simp only [List.length_cons] at h2
                  omega))
          | (obtain ⟨w, hw⟩ := Parsed_map_ok _ _ _ _ h
             first
               | (have h2 := scanString_rest _ _ _ hw
                  omega)
               | (have h2 := scanNumber_rest _ _ _ hw
                  simp only [List.length_cons] at h2
                  omega)
               | (have h2 := scanLiteral_rest _ _ _ hw
                  omega))
    · rw [scanElems] at h
      split at h
      · cases h
      · cases h
      · rename_i v1 r1 hv
        have h1 := ihV _ _ _ _ hv
        split at h
        · cases h
        · rename_i c t hs
          have hs := skipSpace_cons_length _ _ _ hs
          repeat' split at h
          · obtain ⟨w, hw⟩ := Parsed_map_ok _ _ _ _ h
            have h2 := ihE _ _ _ _ hw
            omega
          · simp only [Parsed.ok.injEq] at h
            rw [← h.2]
            omega
          · cases h
    · rw [scanMembers] at h
      split at h
      · cases h
      · rename_i q t hs
        have hs := skipSpace_cons_length _ _ _ hs
        split at h
        · split at h
          · cases h
          · cases h
          · rename_i key r1 hk
            have hk := scanString_rest _ _ _ hk
            split at h
            · cases h
            · rename_i c u hc
              have hc := skipSpace_cons_length _ _ _ hc
              split at h
              · split at h
                · cases h
                · cases h
                · rename_i v1 r2 hv
                  have hv := ihV _ _ _ _ hv
                  split at h
                  · cases h
                  · rename_i e w he
                    have he := skipSpace_cons_length _ _ _ he
                    repeat' split at h
                    · obtain ⟨w2, hw⟩ := Parsed_map_ok _ _ _ _ h
                      have h2 := ihM _ _ _ _ hw
                      omega
                    · simp only [Parsed.ok.injEq] at h
                      rw [← h.2]
                      omega
                    · cases h
              · cases h
        · cases h

theorem scanValue_rest (n d : Nat) (s : List Nat) (v : JValue) (r : List Nat)
    (h : scanValue n d s = .ok v r) : r.length < s.length :=
  (scan_rest n).1 d s v r h

theorem scanStringAux_stable : ∀ (n : Nat) (s : List Nat), s.length ≤ n →
    scanStringAux (n + 1) s = scanStringAux n s := by
  intro n
  induction n with
  | zero =>
    intro s hs
    cases s with
    | nil => rfl
    | cons c t => simp at hs
  | succ n ih =>
    intro s hs
    cases s with
    | nil => rfl
    | cons c t =>
      have hd := DecodeRune_size c t
      simp only [List.length_cons] at hs
      have key : ∀ x : List Nat, x.length ≤ t.length →
          scanStringAux (n + 1) x = scanStringAux n x := fun x hx => ih x (by omega)
      rw [scanStringAux.eq_def]
      conv_rhs => rw [scanStringAux.eq_def]
      simp only
      split
      · rfl
      · split
        · split
          · rfl
          · rename_i e u
            split
            · split
              · rfl
              · rfl
              · rename_i rr v hv
                have hv := scanHex4_rest _ _ _ hv
                simp only [List.length_cons] at key
                rw [key v (by omega)]
                split
                · split
                  · rename_i rr1 w hw
                    have hw := getu4_rest _ _ _ hw
                    rw [key w (by omega)]
                  · rfl
                · rfl
            · split
              · simp only [List.length_cons] at key
                rw [key u (by omega)]
              · rfl
        · split
          · rfl
          · split
            · rw [key t (Nat.le_refl _)]
            · rw [key _ (by simp only [List.length_drop, List.length_cons]; omega)]

theorem scan_stable : ∀ n : Nat,
    (∀ d s, 2 * s.length + 1 ≤ n → scanValue (n + 1) d s = scanValue n d s)
    ∧ (∀ d s, 2 * s.length + 2 ≤ n → scanElems (n + 1) d s = scanElems n d s)
    ∧ (∀ d s, 2 * s.length + 2 ≤ n → scanMembers (n + 1) d s = scanMembers n d s) := by
  intro n
  induction n with
  | zero =>
    refine ⟨?_, ?_, ?_⟩ <;> intro d s hs <;> omega
  | succ n ih =>
    obtain ⟨ihV, ihE, ihM⟩ := ih
    refine ⟨?_, ?_, ?_⟩ <;> intro d s hs
    · rw [scanValue]
      conv_rhs => rw [scanValue]
      split
      · rfl
      · rename_i c t hc
        have hc := skipSpace_cons_length _ _ _ hc
        have ht := skipSpace_length t
        split
        · split
          · rfl
          · split
            · rfl
            · rename_i k u hk
              rw [hk] at ht
              split
              · rfl
              · rw [ihM _ _ (by omega)]
        · split
          · split
            · rfl
            · split
              · rfl
              · rename_i k u hk
                rw [hk] at ht
                split
                · rfl
                · rw [ihE _ _ (by omega)]
          · rfl
    · rw [scanElems]
      conv_rhs => rw [scanElems]
      rw [ihV _ _ (by omega)]
      split
      · rfl
      · rfl
      · rename_i v r hv
        have hv := scanValue_rest _ _ _ _ _ hv
        split
        · rfl
        · rename_i c t hc
          have hc := skipSpace_cons_length _ _ _ hc
          split
          · rw [ihE _ _ (by omega)]
          · rfl
    · rw [scanMembers]
      conv_rhs => rw [scanMembers]
      split
      · rfl
      · rename_i q t hq
        have hq := skipSpace_cons_length _ _ _ hq
        split
        · split
          · rfl
          · rfl
          · rename_i key r hk
            have hk := scanString_rest _ _ _ hk
            split
            · rfl
            · rename_i c u hc
              have hc := skipSpace_cons_length _ _ _ hc
              split
              · rw [ihV _ _ (by omega)]
                split
                · rfl
                · rfl
                · rename_i v r2 hv
                  have hv := scanValue_rest _ _ _ _ _ hv
                  split
                  · rfl
                  · rename_i e w he
                    have he := skipSpace_cons_length _ _ _ he
                    split
                    · rw [ihM _ _ (by omega)]
                    · rfl
              · rfl
        · rfl

/-- More steps than twice the length of the input plus one change nothing: the
bound of `readValue` never cuts a scan short. -/
theorem scanValue_fuel (n d : Nat) (s : List Nat) (h : 2 * s.length + 1 ≤ n) :
    scanValue n d s = scanValue (2 * s.length + 1) d s := by
  induction n with
  | zero => omega
  | succ n ih =>
    by_cases hn : 2 * s.length + 1 ≤ n
    · rw [(scan_stable n).1 d s hn, ih hn]
    · have : n + 1 = 2 * s.length + 1 := by omega
      rw [this]

/-- More steps than the length of the input plus one change nothing for a
string literal. -/
theorem scanStringAux_fuel (n : Nat) (s : List Nat) (h : s.length + 1 ≤ n) :
    scanStringAux n s = scanString s := by
  unfold scanString
  induction n with
  | zero => omega
  | succ n ih =>
    by_cases hn : s.length + 1 ≤ n
    · rw [scanStringAux_stable n s (by omega), ih hn]
    · have : n + 1 = s.length + 1 := by omega
      rw [this]

/-! ## The scan of an input and of the same input with more bytes after it -/

theorem Extends_map {α β : Type} (o1 : α → Bool) (o2 : β → Bool) (f : α → β) (x : List Nat)
    (p q : Parsed α) (ho : ∀ v, o2 (f v) = o1 v) (h : Extends o1 x p q) :
    Extends o2 x (p.map f) (q.map f) := by
  cases p with
  | invalid =>
    simp only [Extends] at h
    subst h
    simp [Extends, Parsed.map]
  | incomplete =>
    simp only [Extends] at h
    simp only [Extends, Parsed.map]
    intro v r hq
    obtain ⟨w, hw⟩ := Parsed_map_ok _ _ _ _ hq
    exact h w r hw
  | ok v r =>
    simp only [Extends] at h
    simp only [Extends, Parsed.map, ho]
    refine ⟨?_, ?_⟩
    · intro hc
      rw [h.1 hc]
    · intro hr hv w r2 hq
      cases q with
      | invalid => simp [Parsed.map] at hq
      | incomplete => simp [Parsed.map] at hq
      | ok w0 r0 =>
        simp only [Parsed.map, Parsed.ok.injEq] at hq
        obtain ⟨h1, h2⟩ := h.2 hr hv w0 r0 rfl
        rw [← hq.1, ← hq.2, ho]
        refine ⟨h1, ?_⟩
        rcases h2 with h2 | ⟨h2, h3⟩
        · exact Or.inl h2
        · exact Or.inr ⟨by rw [h2], h3⟩

theorem Extends_push (bs x : List Nat) (p q : Parsed GoString)
    (h : Extends (fun _ => false) x p q) :
    Extends (fun _ => false) x (p.push bs) (q.push bs) := by
  cases p with
  | invalid =>
    simp only [Extends] at h
    subst h
    simp [Extends, Parsed.push]
  | incomplete =>
    simp only [Extends] at h
    simp only [Extends, Parsed.push]
    intro v r hq
    obtain ⟨w, hw⟩ := Parsed_push_ok _ _ _ _ hq
    exact h w r hw
  | ok v r =>
    simp only [Extends] at h
    simp only [Extends, Parsed.push]
    refine ⟨?_, ?_⟩
    · intro _
      rw [h.1 (by simp)]
    · intro _ hv
      simp at hv

theorem skipSpace_append_cons : ∀ (s x t : List Nat) (c : Nat), skipSpace s = c :: t →
    skipSpace (s ++ x) = c :: (t ++ x) := by
  intro s
  induction s with
  | nil => intro x t c h; simp [skipSpace] at h
  | cons a s ih =>
    intro x t c h
    simp only [skipSpace, List.cons_append] at h ⊢
    split
    · rename_i ha
      rw [if_pos ha] at h
      exact ih x t c h
    · rename_i ha
      rw [if_neg ha] at h
      simp only [List.cons.injEq] at h
      rw [h.1, h.2]
      rfl

theorem skipSpace_append_nil : ∀ (s x : List Nat), skipSpace s = [] →
    skipSpace (s ++ x) = skipSpace x := by
  intro s
  induction s with
  | nil => intro x _; rfl
  | cons a s ih =>
    intro x h
    simp only [skipSpace, List.cons_append] at h ⊢
    split
    · rename_i ha
      rw [if_pos ha] at h
      exact ih x h
    · rename_i ha
      rw [if_neg ha] at h
      cases h

theorem scanLiteral_extends : ∀ (es s x : List Nat),
    Extends (fun _ => false) x (scanLiteral es s) (scanLiteral es (s ++ x)) := by
  intro es
  induction es with
  | nil =>
    intro s x
    simp [scanLiteral, Extends]
  | cons e es ih =>
    intro s x
    cases s with
    | nil =>
      simp only [scanLiteral, Extends, List.nil_append]
      intro v r h
      have := scanLiteral_rest _ _ _ h
      cases x with
      | nil => simp [scanLiteral] at h
      | cons c t =>
        simp only [scanLiteral] at h
        split at h
        · have := scanLiteral_rest _ _ _ h
          simp only [List.length_cons]
          omega
        · cases h
    | cons c t =>
      simp only [scanLiteral, List.cons_append]
      split
      · exact ih t x
      · simp [Extends]

theorem scanHex4_rest4 (s : List Nat) (v : Nat) (r : List Nat) (h : scanHex4 s = .ok v r) :
    r.length + 4 = s.length := by
  unfold scanHex4 at h
  repeat' split at h
  all_goals first
    | (cases h; done)
    | (simp only [Parsed.ok.injEq] at h
       rw [← h.2]
       simp only [List.length_cons])

theorem scanHex4_append (s x : List Nat) (v : Nat) (r : List Nat) (h : scanHex4 s = .ok v r) :
    scanHex4 (s ++ x) = .ok v (r ++ x) := by
  unfold scanHex4 at h
  repeat' split at h
  all_goals first
    | (cases h; done)
    | (simp only [Parsed.ok.injEq] at h
       rw [← h.1, ← h.2]
       simp_all [scanHex4])

theorem scanHex4_append_invalid (s x : List Nat) (h : scanHex4 s = .invalid) :
    scanHex4 (s ++ x) = .invalid := by
  unfold scanHex4 at h
  repeat' split at h
  all_goals first
    | (cases h; done)
    | (simp_all [scanHex4])

theorem scanHex4_append_incomplete (s x : List Nat) (v : Nat) (r : List Nat)
    (h : scanHex4 s = .incomplete) (hq : scanHex4 (s ++ x) = .ok v r) :
    r.length < x.length := by
  have h4 := scanHex4_rest4 _ _ _ hq
  have hs : s.length < 4 := by
    unfold scanHex4 at h
    repeat' split at h
    all_goals first
      | (cases h; done)
      | (simp only [List.length_cons, List.length_nil]; omega)
  simp only [List.length_append] at h4
  omega

theorem getu4_append (v x : List Nat) (a : Nat) (w : List Nat) (h : getu4 v = some (a, w)) :
    getu4 (v ++ x) = some (a, w ++ x) := by
  unfold getu4 at h
  split at h
  · rename_i t
    split at h
    · rename_i r rest hs
      simp only [Option.some.injEq, Prod.mk.injEq] at h
      simp only [List.cons_append, getu4, scanHex4_append _ x _ _ hs, h.1, h.2]
    · cases h
  · cases h

theorem getu4_rest6 (s : List Nat) (v : Nat) (r : List Nat) (h : getu4 s = some (v, r)) :
    r.length + 6 = s.length := by
  unfold getu4 at h
  split at h
  · split at h
    · rename_i t _ _ hs
      simp only [Option.some.injEq, Prod.mk.injEq] at h
      have := scanHex4_rest4 _ _ _ hs
      rw [← h.2]
      simp only [List.length_cons]
      omega
    · cases h
  · cases h

theorem getu4_append_none (v x : List Nat) (a : Nat) (w : List Nat) (h : getu4 v = none)
    (hq : getu4 (v ++ x) = some (a, w)) :
    w.length < x.length ∧ ∀ n, scanStringAux n v = .incomplete := by
  have h6 := getu4_rest6 _ _ _ hq
  simp only [List.length_append] at h6
  rcases v with _ | ⟨c1, _ | ⟨c2, t⟩⟩
  · refine ⟨by simp only [List.length_nil] at h6; omega, ?_⟩
    intro n
    cases n <;> rfl
  · have hc : c1 = 92 := by
      unfold getu4 at hq
      split at hq
      · rename_i heq
        simp only [List.cons_append, List.nil_append, List.cons.injEq] at heq
        exact heq.1
      · cases hq
    subst hc
    refine ⟨by simp only [List.length_cons, List.length_nil] at h6; omega, ?_⟩
    intro n
    cases n
    · rfl
    · rw [scanStringAux.eq_def]
      simp
  · have hc : c1 = 92 ∧ c2 = 117 := by
      unfold getu4 at hq
      split at hq
      · rename_i heq
        simp only [List.cons_append, List.cons.injEq] at heq
        exact ⟨heq.1, heq.2.1⟩
      · cases hq
    obtain ⟨h1, h2⟩ := hc
    subst h1 h2
    simp only [getu4, List.cons_append] at h hq
    cases hs : scanHex4 t with
    | ok r rest => simp [hs] at h
    | invalid => simp [scanHex4_append_invalid _ x hs] at hq
    | incomplete =>
      cases hs2 : scanHex4 (t ++ x) with
      | ok r rest =>
        simp only [hs2, Option.some.injEq, Prod.mk.injEq] at hq
        have := scanHex4_append_incomplete _ _ _ _ hs hs2
        refine ⟨by rw [← hq.2]; exact this, ?_⟩
        intro n
        cases n
        · rfl
        · rw [scanStringAux.eq_def]
          simp [hs]
      | invalid => simp [hs2] at hq
      | incomplete => simp [hs2] at hq

theorem DecodeRune_le (s : List Nat) : (DecodeRune s).2 ≤ s.length := by
  unfold DecodeRune
  repeat' split
  all_goals simp

set_option maxHeartbeats 1000000 in
theorem DecodeRune_append (c : Nat) (t x : List Nat) :
    DecodeRune (c :: (t ++ x)) = DecodeRune (c :: t)
    ∨ ((∀ b ∈ t, 128 ≤ b ∧ b ≤ 191) ∧ (DecodeRune (c :: t)).2 = 1
        ∧ t.length + 1 < (DecodeRune (c :: (t ++ x))).2) := by
  rcases t with _ | ⟨b1, _ | ⟨b2, _ | ⟨b3, t⟩⟩⟩
  · rcases x with _ | ⟨x1, _ | ⟨x2, _ | ⟨x3, x⟩⟩⟩ <;>
      simp only [DecodeRune, List.nil_append, List.length_nil, List.not_mem_nil, false_implies,
        implies_true, true_and] <;> repeat' split
    all_goals simp
  · rcases x with _ | ⟨x1, _ | ⟨x2, x⟩⟩ <;>
      simp only [DecodeRune, List.cons_append, List.nil_append, List.length_cons,
        List.length_nil, List.mem_singleton, forall_eq] <;> repeat' split
    all_goals simp_all
    all_goals omega
  · rcases x with _ | ⟨x1, x⟩ <;>
      simp only [DecodeRune, List.cons_append, List.nil_append, List.length_cons,
        List.length_nil, List.mem_cons, List.mem_singleton, forall_eq_or_imp, forall_eq] <;>
      repeat' split
    all_goals simp_all
    all_goals omega
  · left
    simp only [DecodeRune, List.cons_append]

theorem scanStringAux_continuation : ∀ (n : Nat) (t : List Nat),
    (∀ b ∈ t, 128 ≤ b ∧ b ≤ 191) → scanStringAux n t = .incomplete := by
  intro n
  induction n with
  | zero => intro t _; rfl
  | succ n ih =>
    intro t ht
    cases t with
    | nil => rfl
    | cons b t =>
      have hb := ht b (List.mem_cons_self _ _)
      have ht2 : ∀ a ∈ t, 128 ≤ a ∧ a ≤ 191 := fun a ha => ht a (List.mem_cons_of_mem _ ha)
      have hd : DecodeRune (b :: t) = (RuneError, 1) := by
        simp only [DecodeRune]
        rw [if_neg (by omega), if_pos (by omega)]
      rw [scanStringAux.eq_def]
      simp only
      rw [if_neg (by omega), if_neg (by omega), if_neg (by omega), if_neg (by omega)]
      simp only [hd, List.drop_succ_cons, List.drop_zero, ih t ht2, Parsed.push]

theorem scanStringAux_escape_rest (n : Nat) (x v r : List Nat)
    (h : scanStringAux n (92 :: x) = .ok v r) : r.length < x.length := by
  cases n with
  | zero => simp [scanStringAux] at h
  | succ n =>
    rw [scanStringAux.eq_def] at h
    simp only [↓reduceIte, Nat.reduceEqDiff] at h
    repeat' split at h
    all_goals first
      | (exact Parsed.noConfusion h)
      | (obtain ⟨w, hw⟩ := Parsed_push_ok _ _ _ _ h
         have h1 := scanStringAux_rest _ _ _ _ hw
         have h2 := scanHex4_rest _ _ _ ‹_›
         have h3 := getu4_rest _ _ _ ‹_›
         simp only [List.length_cons] at h1 h2 h3 ⊢
         omega)
      | (obtain ⟨w, hw⟩ := Parsed_push_ok _ _ _ _ h
         have h1 := scanStringAux_rest _ _ _ _ hw
         have h2 := scanHex4_rest _ _ _ ‹_›
         simp only [List.length_cons] at h1 h2 ⊢
         omega)
      | (obtain ⟨w, hw⟩ := Parsed_push_ok _ _ _ _ h
         have h1 := scanStringAux_rest _ _ _ _ hw
         simp only [List.length_cons] at h1 ⊢
         omega)

theorem Extends_incomplete_of_rest {α : Type} (o : α → Bool) (x : List Nat) (q : Parsed α)
    (h : ∀ v r, q = .ok v r → r.length < x.length) : Extends o x .incomplete q := h

theorem scanStringAux_extends : ∀ (n : Nat) (s x : List Nat),
    Extends (fun _ => false) x (scanStringAux n s) (scanStringAux n (s ++ x)) := by
  intro n
  induction n with
  | zero =>
    intro s x
    simp [scanStringAux, Extends]
  | succ n ih =>
    intro s x
    cases s with
    | nil =>
      simp only [scanStringAux, List.nil_append, Extends]
      intro v r h
      exact scanStringAux_rest _ _ _ _ h
    | cons c t =>
      by_cases h34 : c = 34
      · subst h34
        simp [scanStringAux, Extends]
      by_cases h92 : c = 92
      · subst h92
        cases t with
        | nil =>
          have hp : scanStringAux (n + 1) [92] = .incomplete := by
            rw [scanStringAux.eq_def]; simp
          rw [hp]
          intro v r h
          exact scanStringAux_escape_rest _ _ _ _ h
        | cons e u =>
          rw [scanStringAux.eq_def]
          conv => arg 4; rw [scanStringAux.eq_def]
          simp only [List.cons_append, ↓reduceIte, Nat.reduceEqDiff]
          split
          · -- e = 117
            cases hs : scanHex4 u with
            | invalid =>
              simp only [scanHex4_append_invalid _ x hs]
              simp [Extends]
            | incomplete =>
              simp only
              apply Extends_incomplete_of_rest
              intro v r h
              split at h
              · cases h
              · cases h
              · rename_i rr v2 hs2
                have h1 := scanHex4_append_incomplete _ _ _ _ hs hs2
                repeat' split at h
                all_goals
                  obtain ⟨w, hw⟩ := Parsed_push_ok _ _ _ _ h
                  have h2 := scanStringAux_rest _ _ _ _ hw
                all_goals first
                  | (have h3 := getu4_rest _ _ _ ‹_›
                     omega)
                  | omega
            | ok rr v =>
              simp only [scanHex4_append _ x _ _ hs]
              split
              · -- surrogate
                cases hg : getu4 v with
                | some pr =>
                  obtain ⟨rr1, w⟩ := pr
                  simp only [getu4_append _ x _ _ hg]
                  split
                  · exact Extends_push _ _ _ _ (ih w x)
                  · exact Extends_push _ _ _ _ (ih v x)
                | none =>
                  simp only
                  cases hg2 : getu4 (v ++ x) with
                  | none =>
                    simp only
                    exact Extends_push _ _ _ _ (ih v x)
                  | some pr =>
                    obtain ⟨rr1, w⟩ := pr
                    obtain ⟨hw, hinc⟩ := getu4_append_none _ _ _ _ hg hg2
                    simp only [hinc n, Parsed.push]
                    apply Extends_incomplete_of_rest
                    intro v3 r h
                    split at h
                    · obtain ⟨w2, hw2⟩ := Parsed_push_ok _ _ _ _ h
                      have := scanStringAux_rest _ _ _ _ hw2
                      omega
                    · obtain ⟨w2, hw2⟩ := Parsed_push_ok _ _ _ _ h
                      have h5 := ih v x
                      rw [hinc n] at h5
                      exact h5 _ _ hw2
              · exact Extends_push _ _ _ _ (ih v x)
          · split
            · exact Extends_push _ _ _ _ (ih u x)
            · simp [Extends]
      by_cases h32 : c < 32
      · rw [scanStringAux.eq_def]
        conv => arg 4; rw [scanStringAux.eq_def]
        simp only [List.cons_append, h34, h92, h32, ↓reduceIte]
        simp [Extends]
      by_cases h128 : c < 128
      · rw [scanStringAux.eq_def]
        conv => arg 4; rw [scanStringAux.eq_def]
        simp only [List.cons_append, h34, h92, h32, h128, ↓reduceIte]
        exact Extends_push _ _ _ _ (ih t x)
      · rw [scanStringAux.eq_def]
        conv => arg 4; rw [scanStringAux.eq_def]
        simp only [List.cons_append, h34, h92, h32, h128, ↓reduceIte]
        rcases DecodeRune_append c t x with hd | ⟨hc, h1, hlen⟩
        · rw [hd]
          have hle := DecodeRune_le (c :: t)
          have hdrop : List.drop (DecodeRune (c :: t)).2 (c :: (t ++ x))
              = List.drop (DecodeRune (c :: t)).2 (c :: t) ++ x := by
            rw [← List.cons_append, List.drop_append_of_le_length hle]
          rw [hdrop]
          exact Extends_push _ _ _ _ (ih _ x)
        · have hp : scanStringAux n (List.drop (DecodeRune (c :: t)).2 (c :: t)) = .incomplete := by
            rw [h1]
            exact scanStringAux_continuation n t hc
          rw [hp]
          simp only [Parsed.push]
          apply Extends_incomplete_of_rest
          intro v r h
          obtain ⟨w, hw⟩ := Parsed_push_ok _ _ _ _ h
          have h2 := scanStringAux_rest _ _ _ _ hw
          simp only [List.length_drop, List.length_cons, List.length_append] at h2
          omega

theorem scanString_extends (s x : List Nat) :
    Extends (fun _ => false) x (scanString s) (scanString (s ++ x)) := by
  have h := scanStringAux_extends ((s ++ x).length + 1) s x
  rw [scanStringAux_fuel _ s (by simp only [List.length_append]; omega)] at h
  exact h

theorem spanDigits_shape : ∀ x : List Nat,
    spanDigits x = ([], x) ∨ (spanDigits x).2.length < x.length := by
  intro x
  cases x with
  | nil => left; rfl
  | cons c t =>
    unfold spanDigits
    split
    · right
      have := spanDigits_length t
      simp only [List.length_cons]
      omega
    · left; rfl

theorem spanDigits_digit (d : Nat) (u : List Nat) (h : isDigit d = true) :
    (spanDigits (d :: u)).2.length ≤ u.length := by
  unfold spanDigits
  rw [if_pos h]
  exact spanDigits_length u

theorem spanDigits_append : ∀ s x : List Nat,
    spanDigits (s ++ x)
      = if (spanDigits s).2 = [] then ((spanDigits s).1 ++ (spanDigits x).1, (spanDigits x).2)
        else ((spanDigits s).1, (spanDigits s).2 ++ x) := by
  intro s x
  induction s with
  | nil => simp [spanDigits]
  | cons c t ih =>
    simp only [List.cons_append]
    rw [spanDigits.eq_def]
    conv_rhs => rw [spanDigits.eq_def]
    simp only
    by_cases hc : isDigit c = true
    · simp only [hc, if_true, ih]
      split <;> simp
    · simp only [hc, if_false]
      simp

theorem afterDigits_extends (g : GoString → List Nat → Parsed GoString) (f : List Nat → GoString)
    (hext : ∀ lit s x, Extends (fun _ => true) x (g lit s) (g lit (s ++ x)))
    (hnil : ∀ lit, g lit [] = .ok lit [])
    (hshape : ∀ lit x w r, g lit x = .ok w r → (w = lit ∧ r = x) ∨ r.length < x.length)
    (s x : List Nat) :
    Extends (fun _ => true) x (g (f (spanDigits s).1) (spanDigits s).2)
      (g (f (spanDigits (s ++ x)).1) (spanDigits (s ++ x)).2) := by
  rw [spanDigits_append]
  by_cases hr : (spanDigits s).2 = []
  · simp only [hr, if_true, hnil, Extends]
    refine ⟨by simp, ?_⟩
    intro _ _ w r2 hq
    refine ⟨trivial, ?_⟩
    rcases spanDigits_shape x with h1 | h1
    · rw [h1] at hq
      simp only [List.append_nil] at hq
      rcases hshape _ _ _ _ hq with h2 | h2
      · exact Or.inr h2
      · exact Or.inl h2
    · rcases hshape _ _ _ _ hq with h2 | h2
      · left; rw [h2.2]; exact h1
      · left; omega
  · simp only [hr, if_false]
    exact hext _ _ _

theorem ok_extends (lit s x : List Nat) :
    Extends (fun _ => true) x (Parsed.ok lit s) (Parsed.ok lit (s ++ x)) := by
  simp only [Extends]
  refine ⟨fun _ => trivial, ?_⟩
  intro hs _ w r2 hq
  subst hs
  simp only [List.nil_append, Parsed.ok.injEq] at hq
  exact ⟨trivial, Or.inr ⟨hq.1.symm, hq.2.symm⟩⟩

theorem digitsTail_extends (f : List Nat → GoString) (t x : List Nat) :
    Extends (fun _ => true) x
      (match t with
        | [] => Parsed.incomplete
        | d :: u => if isDigit d then .ok (f (spanDigits (d :: u)).1) (spanDigits (d :: u)).2
          else .invalid)
      (match t ++ x with
        | [] => Parsed.incomplete
        | d :: u => if isDigit d then .ok (f (spanDigits (d :: u)).1) (spanDigits (d :: u)).2
          else .invalid) := by
  cases t with
  | nil =>
    simp only [List.nil_append]
    intro v r hq
    split at hq
    · cases hq
    · rename_i d u
      split at hq
      · rename_i hd
        simp only [Parsed.ok.injEq] at hq
        have := spanDigits_digit d u hd
        rw [← hq.2]
        simp only [List.length_cons]
        omega
      · cases hq
  | cons d u =>
    simp only [List.cons_append]
    split
    · exact afterDigits_extends (fun lit r => .ok lit r) f ok_extends (fun _ => rfl)
        (fun lit x w r h => by
          simp only [Parsed.ok.injEq] at h
          exact Or.inl ⟨h.1.symm, h.2.symm⟩) (d :: u) x
    · simp [Extends]

theorem scanExponent_shape (lit x w r : List Nat) (h : scanExponent lit x = .ok w r) :
    (w = lit ∧ r = x) ∨ r.length < x.length := by
  cases x with
  | nil =>
    simp only [scanExponent, Parsed.ok.injEq] at h
    exact Or.inl ⟨h.1.symm, h.2.symm⟩
  | cons e t =>
    by_cases he : e = 101 ∨ e = 69
    · right
      simp only [scanExponent, he, if_true] at h
      split at h
      · cases h
      · rename_i d u hd
        split at h
        · rename_i hdig
          simp only [Parsed.ok.injEq] at h
          have h1 := spanDigits_digit d u hdig
          have h2 := congrArg List.length hd
          rw [← h.2]
          simp only [List.length_drop, List.length_cons] at h2 ⊢
          omega
        · cases h
    · simp only [scanExponent, he, if_false, Parsed.ok.injEq] at h
      exact Or.inl ⟨h.1.symm, h.2.symm⟩

theorem scanExponent_nosign (lit t : List Nat) (e c : Nat) (he : e = 101 ∨ e = 69)
    (h43 : c ≠ 43) (h45 : c ≠ 45) :
    scanExponent lit (e :: c :: t)
      = if isDigit c then .ok (lit ++ [e] ++ (spanDigits (c :: t)).1) (spanDigits (c :: t)).2
        else .invalid := by
  simp only [scanExponent, he, if_true]
  split
  · rename_i heq
    split at heq
    · rename_i h1
      simp only [List.cons.injEq] at h1
      exact absurd h1.1 h43
    · rename_i h1
      simp only [List.cons.injEq] at h1
      exact absurd h1.1 h45
    · simp at heq
  · rename_i d u heq
    split at heq
    · rename_i h1
      simp only [List.cons.injEq] at h1
      exact absurd h1.1 h43
    · rename_i h1
      simp only [List.cons.injEq] at h1
      exact absurd h1.1 h45
    · simp only [List.length_nil, List.drop_zero, List.cons.injEq] at heq
      rw [← heq.1, ← heq.2]

theorem scanExponent_extends (lit s x : List Nat) :
    Extends (fun _ => true) x (scanExponent lit s) (scanExponent lit (s ++ x)) := by
  cases s with
  | nil =>
    simp only [scanExponent, List.nil_append, Extends]
    refine ⟨by simp, ?_⟩
    intro _ _ w r2 hq
    refine ⟨trivial, ?_⟩
    rcases scanExponent_shape _ _ _ _ hq with h | h
    · exact Or.inr h
    · exact Or.inl h
  | cons e t =>
    by_cases he : e = 101 ∨ e = 69
    · rcases t with _ | ⟨c, t⟩
      · have hp : scanExponent lit [e] = .incomplete := by simp [scanExponent, he]
        rw [hp]
        intro v r hq
        simp only [scanExponent, List.cons_append, List.nil_append, he, if_true] at hq
        split at hq
        · cases hq
        · rename_i d u hd
          split at hq
          · rename_i hdig
            simp only [Parsed.ok.injEq] at hq
            have h1 := spanDigits_digit d u hdig
            have h2 := congrArg List.length hd
            rw [← hq.2]
            simp only [List.length_drop, List.length_cons] at h2
            omega
          · cases hq
      · by_cases h43 : c = 43
        · subst h43
          simp only [scanExponent, he, if_true, List.cons_append, List.length_cons,
            List.length_nil, List.drop_succ_cons, List.drop_zero]
          exact digitsTail_extends _ t x
        · by_cases h45 : c = 45
          · subst h45
            simp only [scanExponent, he, if_true, List.cons_append, List.length_cons,
              List.length_nil, List.drop_succ_cons, List.drop_zero]
            exact digitsTail_extends _ t x
          · rw [List.cons_append, List.cons_append, scanExponent_nosign _ _ _ _ he h43 h45,
              scanExponent_nosign _ _ _ _ he h43 h45]
            exact digitsTail_extends (fun ds => lit ++ [e] ++ ds) (c :: t) x
    · simp [scanExponent, he, Extends]

theorem scanFraction_shape (lit x w r : List Nat) (h : scanFraction lit x = .ok w r) :
    (w = lit ∧ r = x) ∨ r.length < x.length := by
  unfold scanFraction at h
  split at h
  · right
    rename_i t
    split at h
    · cases h
    · rename_i d u
      split at h
      · rename_i hdig
        have h1 := scanExponent_rest _ _ _ _ h
        have h2 := spanDigits_digit d u hdig
        simp only [List.length_cons]
        omega
      · cases h
  · exact scanExponent_shape _ _ _ _ h

theorem scanFraction_extends (lit s x : List Nat) :
    Extends (fun _ => true) x (scanFraction lit s) (scanFraction lit (s ++ x)) := by
  cases s with
  | nil =>
    have hp : scanFraction lit [] = .ok lit [] := rfl
    rw [hp]
    simp only [List.nil_append, Extends]
    refine ⟨by simp, ?_⟩
    intro _ _ w r2 hq
    refine ⟨trivial, ?_⟩
    rcases scanFraction_shape _ _ _ _ hq with h | h
    · exact Or.inr h
    · exact Or.inl h
  | cons c t =>
    by_cases h46 : c = 46
    · subst h46
      cases t with
      | nil =>
        have hp : scanFraction lit [46] = .incomplete := rfl
        rw [hp]
        intro v r hq
        simp only [List.cons_append, List.nil_append, scanFraction] at hq
        split at hq
        · cases hq
        · rename_i d u
          split at hq
          · rename_i hdig
            have h1 := scanExponent_rest _ _ _ _ hq
            have h2 := spanDigits_digit d u hdig
            simp only [List.length_cons]
            omega
          · cases hq
      | cons d u =>
        simp only [scanFraction, List.cons_append]
        split
        · exact afterDigits_extends scanExponent (fun ds => lit ++ 46 :: ds) scanExponent_extends
            (fun _ => rfl) scanExponent_shape (d :: u) x
        · simp [Extends]
    · have h1 : ∀ y, scanFraction lit (c :: y) = scanExponent lit (c :: y) := by
        intro y
        unfold scanFraction
        split
        · rename_i heq
          simp only [List.cons.injEq] at heq
          exact absurd heq.1 h46
        · rfl
      rw [List.cons_append, h1, h1]
      exact scanExponent_extends lit (c :: t) x

theorem scanDigits_extends (sign s x : List Nat) :
    Extends (fun _ => true) x (scanDigits sign s) (scanDigits sign (s ++ x)) := by
  cases s with
  | nil =>
    have hp : scanDigits sign [] = .incomplete := rfl
    rw [hp]
    intro v r hq
    exact scanDigits_rest _ _ _ _ hq
  | cons d t =>
    simp only [scanDigits, List.cons_append]
    split
    · exact scanFraction_extends _ t x
    · split
      · exact afterDigits_extends scanFraction (fun ds => sign ++ d :: ds) scanFraction_extends
          (fun _ => rfl) scanFraction_shape t x
      · simp [Extends]

theorem scanNumber_extends (s x : List Nat) :
    Extends (fun _ => true) x (scanNumber s) (scanNumber (s ++ x)) := by
  cases s with
  | nil =>
    have hp : scanNumber [] = .incomplete := rfl
    rw [hp]
    intro v r hq
    exact scanNumber_rest _ _ _ hq
  | cons c t =>
    by_cases h45 : c = 45
    · subst h45
      simp only [scanNumber, List.cons_append]
      exact scanDigits_extends _ t x
    · have h1 : ∀ y, scanNumber (c :: y) = scanDigits [] (c :: y) := by
        intro y
        unfold scanNumber
        split
        · rename_i heq
          simp only [List.cons.injEq] at heq
          exact absurd heq.1 h45
        · rfl
      rw [List.cons_append, h1, h1]
      exact scanDigits_extends [] (c :: t) x

theorem scanValue_congr (n d : Nat) (a b : List Nat) (h : skipSpace a = skipSpace b) :
    scanValue n d a = scanValue n d b := by
  cases n with
  | zero => simp [scanValue]
  | succ n => rw [scanValue, scanValue, h]

theorem scanMembers_congr (n d : Nat) (a b : List Nat) (h : skipSpace a = skipSpace b) :
    scanMembers n d a = scanMembers n d b := by
  cases n with
  | zero => simp [scanMembers]
  | succ n => rw [scanMembers, scanMembers, h]

theorem scanElems_inv (n d : Nat) (y : List Nat) (vs : List JValue) (r : List Nat)
    (h : scanElems (n + 1) d y = .ok vs r) :
    ∃ v r1 c t, scanValue n d y = .ok v r1 ∧ skipSpace r1 = c :: t ∧ r.length ≤ t.length := by
  rw [scanElems] at h
  split at h
  · cases h
  · cases h
  · rename_i v r1 hv
    split at h
    · cases h
    · rename_i c t hs
      refine ⟨v, r1, c, t, hv, hs, ?_⟩
      repeat' split at h
      · obtain ⟨w, hw⟩ := Parsed_map_ok _ _ _ _ h
        have := (scan_rest n).2.1 _ _ _ _ hw
        omega
      · simp only [Parsed.ok.injEq] at h
        rw [← h.2]
      · cases h

theorem scanMembers_inv (n d : Nat) (y : List Nat) (ms : List (GoString × JValue)) (r : List Nat)
    (h : scanMembers (n + 1) d y = .ok ms r) :
    ∃ t key r1 u v r2 e w, skipSpace y = 34 :: t ∧ scanString t = .ok key r1
      ∧ skipSpace r1 = 58 :: u ∧ scanValue n d u = .ok v r2 ∧ skipSpace r2 = e :: w
      ∧ r.length ≤ w.length := by
  rw [scanMembers] at h
  split at h
  · cases h
  · rename_i q t hs
    split at h
    · rename_i hq
      subst hq
      split at h
      · cases h
      · cases h
      · rename_i key r1 hk
        split at h
        · cases h
        · rename_i c u hc
          split at h
          · rename_i h58
            subst h58
            split at h
            · cases h
            · cases h
            · rename_i v r2 hv
              split at h
              · cases h
              · rename_i e w he
                refine ⟨t, key, r1, u, v, r2, e, w, hs, hk, hc, hv, he, ?_⟩
                repeat' split at h
                · obtain ⟨w2, hw⟩ := Parsed_map_ok _ _ _ _ h
                  have := (scan_rest n).2.2 _ _ _ _ hw
                  omega
                · simp only [Parsed.ok.injEq] at h
                  rw [← h.2]
                · cases h
          · cases h
    · cases h

theorem scanValue_open (n d : Nat) (y : List Nat) (v : JValue) (r : List Nat) (c : Nat)
    (t : List Nat) (h : scanValue (n + 1) d y = .ok v r) (hs : skipSpace y = c :: t)
    (hc : c = 123 ∨ c = 91) :
    ∃ k u, skipSpace t = k :: u ∧ r.length ≤ u.length := by
  rw [scanValue] at h
  simp only [hs] at h
  rcases hc with hc | hc
  · subst hc
    simp only [↓reduceIte] at h
    split at h
    · cases h
    · split at h
      · cases h
      · rename_i k u hk
        refine ⟨k, u, hk, ?_⟩
        split at h
        · simp only [Parsed.ok.injEq] at h
          rw [← h.2]
        · obtain ⟨w, hw⟩ := Parsed_map_ok _ _ _ _ h
          have := (scan_rest n).2.2 _ _ _ _ hw
          simp only [List.length_cons] at this
          omega
  · subst hc
    simp only [↓reduceIte, Nat.reduceEqDiff] at h
    split at h
    · cases h
    · split at h
      · cases h
      · rename_i k u hk
        refine ⟨k, u, hk, ?_⟩
        split at h
        · simp only [Parsed.ok.injEq] at h
          rw [← h.2]
        · obtain ⟨w, hw⟩ := Parsed_map_ok _ _ _ _ h
          have := (scan_rest n).2.1 _ _ _ _ hw
          simp only [List.length_cons] at this
          omega

theorem scanValue_extends_succ (n : Nat)
    (ihE : ∀ d s x, Extends (fun _ => false) x (scanElems n d s) (scanElems n d (s ++ x)))
    (ihM : ∀ d s x, Extends (fun _ => false) x (scanMembers n d s) (scanMembers n d (s ++ x)))
    (d : Nat) (s x : List Nat) :
    Extends JValue.isNumber x (scanValue (n + 1) d s) (scanValue (n + 1) d (s ++ x)) := by
  cases hs : skipSpace s with
  | nil =>
    rw [scanValue]
    simp only [hs]
    intro v r hq
    rw [scanValue_congr _ _ _ _ (skipSpace_append_nil s x hs)] at hq
    exact scanValue_rest _ _ _ _ _ hq
  | cons c t =>
    have hs2 := skipSpace_append_cons s x t c hs
    by_cases h123 : c = 123
    · subst h123
      cases hk : skipSpace t with
      | nil =>
        have hp : scanValue (n + 1) d s = .incomplete ∨ scanValue (n + 1) d s = .invalid := by
          rw [scanValue]
          simp only [hs, hk, ↓reduceIte]
          split <;> simp
        rcases hp with hp | hp
        · rw [hp]
          intro v r hq
          obtain ⟨k, u, h1, h2⟩ := scanValue_open _ _ _ _ _ _ _ hq hs2 (Or.inl rfl)
          rw [skipSpace_append_nil t x hk] at h1
          have := skipSpace_cons_length _ _ _ h1
          omega
        · rw [hp]
          have hq : scanValue (n + 1) d (s ++ x) = .invalid := by
            rw [scanValue] at hp ⊢
            simp only [hs, hs2, hk, ↓reduceIte] at hp ⊢
            split at hp
            · rename_i hd
              simp only [hd, ↓reduceIte]
            · cases hp
          rw [hq]
          rfl
      | cons k u =>
        have hk2 := skipSpace_append_cons t x u k hk
        rw [scanValue]
        conv => arg 4; rw [scanValue]
        simp only [hs, hs2, hk, hk2, ↓reduceIte]
        split
        · rfl
        · split
          · simp [Extends, JValue.isNumber]
          · exact Extends_map _ _ _ _ _ _ (fun _ => rfl) (ihM (d + 1) (k :: u) x)
    by_cases h91 : c = 91
    · subst h91
      cases hk : skipSpace t with
      | nil =>
        have hp : scanValue (n + 1) d s = .incomplete ∨ scanValue (n + 1) d s = .invalid := by
          rw [scanValue]
          simp only [hs, hk, ↓reduceIte, Nat.reduceEqDiff]
          split <;> simp
        rcases hp with hp | hp
        · rw [hp]
          intro v r hq
          obtain ⟨k, u, h1, h2⟩ := scanValue_open _ _ _ _ _ _ _ hq hs2 (Or.inr rfl)
          rw [skipSpace_append_nil t x hk] at h1
          have := skipSpace_cons_length _ _ _ h1
          omega
        · rw [hp]
          have hq : scanValue (n + 1) d (s ++ x) = .invalid := by
            rw [scanValue] at hp ⊢
            simp only [hs, hs2, hk, ↓reduceIte, Nat.reduceEqDiff] at hp ⊢
            split at hp
            · rename_i hd
              simp only [hd, ↓reduceIte]
            · cases hp
          rw [hq]
          rfl
      | cons k u =>
        have hk2 := skipSpace_append_cons t x u k hk
        rw [scanValue]
        conv => arg 4; rw [scanValue]
        simp only [hs, hs2, hk, hk2, ↓reduceIte, Nat.reduceEqDiff]
        split
        · rfl
        · split
          · simp [Extends, JValue.isNumber]
          · exact Extends_map _ _ _ _ _ _ (fun _ => rfl) (ihE (d + 1) (k :: u) x)
    rw [scanValue]
    conv => arg 4; rw [scanValue]
    simp only [hs, hs2, h123, h91, ↓reduceIte]
    split
    · exact Extends_map _ _ _ _ _ _ (fun _ => rfl) (scanString_extends t x)
    · split
      · exact Extends_map _ _ _ _ _ _ (fun _ => rfl) (scanNumber_extends (c :: t) x)
      · split
        · exact Extends_map _ _ _ _ _ _ (fun _ => rfl) (scanLiteral_extends _ t x)
        · split
          · exact Extends_map _ _ _ _ _ _ (fun _ => rfl) (scanLiteral_extends _ t x)
          · split
            · exact Extends_map _ _ _ _ _ _ (fun _ => rfl) (scanLiteral_extends _ t x)
            · rfl

theorem scanElems_extends_succ (n : Nat)
    (ihV : ∀ d s x, Extends JValue.isNumber x (scanValue n d s) (scanValue n d (s ++ x)))
    (ihE : ∀ d s x, Extends (fun _ => false) x (scanElems n d s) (scanElems n d (s ++ x)))
    (d : Nat) (s x : List Nat) :
    Extends (fun _ => false) x (scanElems (n + 1) d s) (scanElems (n + 1) d (s ++ x)) := by
  have ih := ihV d s x
  cases hp : scanValue n d s with
  | invalid =>
    rw [hp] at ih
    simp only [Extends] at ih
    rw [scanElems, scanElems]
    simp only [hp, ih]
    rfl
  | incomplete =>
    rw [hp] at ih
    simp only [Extends] at ih
    rw [scanElems]
    simp only [hp]
    intro vs r hq
    obtain ⟨v, r1, c, t, h1, h2, h3⟩ := scanElems_inv _ _ _ _ _ hq
    have := ih _ _ h1
    have := skipSpace_cons_length _ _ _ h2
    omega
  | ok v r1 =>
    rw [hp] at ih
    simp only [Extends] at ih
    by_cases hopen : r1 = [] ∧ v.isNumber = true
    · obtain ⟨h1, h2⟩ := hopen
      subst h1
      rw [scanElems]
      simp only [hp, skipSpace]
      intro vs r hq
      obtain ⟨w, r2, c, t, h3, h4, h5⟩ := scanElems_inv _ _ _ _ _ hq
      have h6 := (ih.2 rfl h2 _ _ h3).2
      have := skipSpace_cons_length _ _ _ h4
      rcases h6 with h6 | h6
      · omega
      · rw [h6.2] at this
        omega
    · have hq : scanValue n d (s ++ x) = .ok v (r1 ++ x) := by
        apply ih.1
        by_cases hr : r1 = []
        · right
          simp only [hr, true_and, Bool.not_eq_true] at hopen
          exact hopen
        · left; exact hr
      cases hk : skipSpace r1 with
      | nil =>
        rw [scanElems]
        simp only [hp, hk]
        intro vs r hq2
        obtain ⟨w, r2, c, t, h3, h4, h5⟩ := scanElems_inv _ _ _ _ _ hq2
        rw [hq] at h3
        simp only [Parsed.ok.injEq] at h3
        rw [← h3.2, skipSpace_append_nil _ _ hk] at h4
        have := skipSpace_cons_length _ _ _ h4
        omega
      | cons c t =>
        have hk2 := skipSpace_append_cons r1 x t c hk
        rw [scanElems, scanElems]
        simp only [hp, hq, hk, hk2]
        split
        · exact Extends_map _ _ _ _ _ _ (fun _ => rfl) (ihE d t x)
        · split
          · simp [Extends]
          · rfl

theorem scanMembers_extends_succ (n : Nat)
    (ihV : ∀ d s x, Extends JValue.isNumber x (scanValue n d s) (scanValue n d (s ++ x)))
    (ihM : ∀ d s x, Extends (fun _ => false) x (scanMembers n d s) (scanMembers n d (s ++ x)))
    (d : Nat) (s x : List Nat) :
    Extends (fun _ => false) x (scanMembers (n + 1) d s) (scanMembers (n + 1) d (s ++ x)) := by
  cases hs : skipSpace s with
  | nil =>
    rw [scanMembers]
    simp only [hs]
    intro v r hq
    rw [scanMembers_congr _ _ _ _ (skipSpace_append_nil s x hs)] at hq
    exact (scan_rest _).2.2 _ _ _ _ hq
  | cons q t =>
    have hs2 := skipSpace_append_cons s x t q hs
    by_cases hq34 : q = 34
    · subst hq34
      have ihS := scanString_extends t x
      cases hstr : scanString t with
      | invalid =>
        rw [hstr] at ihS
        simp only [Extends] at ihS
        rw [scanMembers, scanMembers]
        simp only [hs, hs2, hstr, ihS, ↓reduceIte]
        rfl
      | incomplete =>
        rw [hstr] at ihS
        simp only [Extends] at ihS
        rw [scanMembers]
        simp only [hs, hstr, ↓reduceIte]
        intro ms r hq
        obtain ⟨t2, key, r1, u, v, r2, e, w, h1, h2, h3, h4, h5, h6⟩ :=
          scanMembers_inv _ _ _ _ _ hq
        rw [hs2] at h1
        simp only [List.cons.injEq, true_and] at h1
        rw [← h1] at h2
        have := ihS _ _ h2
        have := skipSpace_cons_length _ _ _ h3
        have := scanValue_rest _ _ _ _ _ h4
        have := skipSpace_cons_length _ _ _ h5
        omega
      | ok key r1 =>
        rw [hstr] at ihS
        simp only [Extends] at ihS
        have hstr2 : scanString (t ++ x) = .ok key (r1 ++ x) := ihS.1 (Or.inr trivial)
        cases hk : skipSpace r1 with
        | nil =>
          rw [scanMembers]
          simp only [hs, hstr, hk, ↓reduceIte]
          intro ms r hq
          obtain ⟨t2, key2, r12, u, v, r2, e, w, h1, h2, h3, h4, h5, h6⟩ :=
            scanMembers_inv _ _ _ _ _ hq
          rw [hs2] at h1
          simp only [List.cons.injEq, true_and] at h1
          rw [← h1, hstr2] at h2
          simp only [Parsed.ok.injEq] at h2
          rw [← h2.2, skipSpace_append_nil _ _ hk] at h3
          have := skipSpace_cons_length _ _ _ h3
          have := scanValue_rest _ _ _ _ _ h4
          have := skipSpace_cons_length _ _ _ h5
          omega
        | cons c u =>
          have hk2 := skipSpace_append_cons r1 x u c hk
          by_cases h58 : c = 58
          · subst h58
            have ih := ihV d u x
            cases hp : scanValue n d u with
            | invalid =>
              rw [hp] at ih
              simp only [Extends] at ih
              rw [scanMembers, scanMembers]
              simp only [hs, hs2, hstr, hstr2, hk, hk2, hp, ih, ↓reduceIte]
              rfl
            | incomplete =>
              rw [hp] at ih
              simp only [Extends] at ih
              rw [scanMembers]
              simp only [hs, hstr, hk, hp, ↓reduceIte]
              intro ms r hq
              obtain ⟨t2, key2, r12, u2, v, r2, e, w, h1, h2, h3, h4, h5, h6⟩ :=
                scanMembers_inv _ _ _ _ _ hq
              rw [hs2] at h1
              simp only [List.cons.injEq, true_and] at h1
              rw [← h1, hstr2] at h2
              simp only [Parsed.ok.injEq] at h2
              rw [← h2.2, hk2] at h3
              simp only [List.cons.injEq, true_and] at h3
              rw [← h3] at h4
              have := ih _ _ h4
              have := skipSpace_cons_length _ _ _ h5
              omega
            | ok v r2 =>
              rw [hp] at ih
              simp only [Extends] at ih
              by_cases hopen : r2 = [] ∧ v.isNumber = true
              · obtain ⟨ho1, ho2⟩ := hopen
                subst ho1
                rw [scanMembers]
                simp only [hs, hstr, hk, hp, skipSpace, ↓reduceIte]
                intro ms r hq
                obtain ⟨t2, key2, r12, u2, v2, r22, e, w, h1, h2, h3, h4, h5, h6⟩ :=
                  scanMembers_inv _ _ _ _ _ hq
                rw [hs2] at h1
                simp only [List.cons.injEq, true_and] at h1
                rw [← h1, hstr2] at h2
                simp only [Parsed.ok.injEq] at h2
                rw [← h2.2, hk2] at h3
                simp only [List.cons.injEq, true_and] at h3
                rw [← h3] at h4
                have h7 := (ih.2 rfl ho2 _ _ h4).2
                have := skipSpace_cons_length _ _ _ h5
                rcases h7 with h7 | h7
                · omega
                · rw [h7.2] at this
                  omega
              · have hv2 : scanValue n d (u ++ x) = .ok v (r2 ++ x) := by
                  apply ih.1
                  by_cases hr : r2 = []
                  · right
                    simp only [hr, true_and, Bool.not_eq_true] at hopen
                    exact hopen
                  · left; exact hr
                cases hk3 : skipSpace r2 with
                | nil =>
                  rw [scanMembers]
                  simp only [hs, hstr, hk, hp, hk3, ↓reduceIte]
                  intro ms r hq
                  obtain ⟨t2, key2, r12, u2, v2, r22, e, w, h1, h2, h3, h4, h5, h6⟩ :=
                    scanMembers_inv _ _ _ _ _ hq
                  rw [hs2] at h1
                  simp only [List.cons.injEq, true_and] at h1
                  rw [← h1, hstr2] at h2
                  simp only [Parsed.ok.injEq] at h2
                  rw [← h2.2, hk2] at h3
                  simp only [List.cons.injEq, true_and] at h3
                  rw [← h3, hv2] at h4
                  simp only [Parsed.ok.injEq] at h4
                  rw [← h4.2, skipSpace_append_nil _ _ hk3] at h5
                  have := skipSpace_cons_length _ _ _ h5
                  omega
                | cons e w =>
                  have hk4 := skipSpace_append_cons r2 x w e hk3
                  rw [scanMembers, scanMembers]
                  simp only [hs, hs2, hstr, hstr2, hk, hk2, hp, hv2, hk3, hk4, ↓reduceIte]
                  split
                  · exact Extends_map _ _ _ _ _ _ (fun _ => rfl) (ihM d w x)
                  · split
                    · simp [Extends]
                    · rfl
          · rw [scanMembers, scanMembers]
            simp only [hs, hs2, hstr, hstr2, hk, hk2, h58, ↓reduceIte]
            rfl
    · rw [scanMembers, scanMembers]
      simp only [hs, hs2, hq34, ↓reduceIte]
      rfl

theorem scan_extends : ∀ n : Nat,
    (∀ d s x, Extends JValue.isNumber x (scanValue n d s) (scanValue n d (s ++ x)))
    ∧ (∀ d s x, Extends (fun _ => false) x (scanElems n d s) (scanElems n d (s ++ x)))
    ∧ (∀ d s x, Extends (fun _ => false) x (scanMembers n d s) (scanMembers n d (s ++ x))) := by
  intro n
  induction n with
  | zero =>
    refine ⟨?_, ?_, ?_⟩ <;> intro d s x
    · simp [scanValue, Extends]
    · simp [scanElems, Extends]
    · simp [scanMembers, Extends]
  | succ n ih =>
    obtain ⟨ihV, ihE, ihM⟩ := ih
    exact ⟨scanValue_extends_succ n ihE ihM, scanElems_extends_succ n ihV ihE,
      scanMembers_extends_succ n ihV ihM⟩


/-! ## What the scanner accepts is well-formed JSON -/

theorem skipSpace_split : ∀ s : List Nat, ∃ w, s = w ++ skipSpace s ∧ JSONSpace w := by
  intro s
  induction s with
  | nil => exact ⟨[], rfl, fun b hb => by cases hb⟩
  | cons c t ih =>
    obtain ⟨w, hw, hs⟩ := ih
    simp only [skipSpace]
    split
    · rename_i hc
      refine ⟨c :: w, by rw [List.cons_append, ← hw], ?_⟩
      intro b hb
      rcases List.mem_cons.1 hb with h | h
      · subst h
        simp only [isSpace, Bool.or_eq_true, decide_eq_true_eq] at hc
        omega
      · exact hs b h
    · exact ⟨[], rfl, fun b hb => by cases hb⟩

theorem scanLiteral_split : ∀ (es s r : List Nat), scanLiteral es s = .ok () r → s = es ++ r := by
  intro es
  induction es with
  | nil =>
    intro s r h
    simp only [scanLiteral, Parsed.ok.injEq, true_and] at h
    rw [h]; rfl
  | cons e es ih =>
    intro s r h
    cases s with
    | nil => simp [scanLiteral] at h
    | cons c t =>
      simp only [scanLiteral] at h
      split at h
      · rename_i hc
        rw [hc, ih t r h]; rfl
      · cases h

theorem hexVal_hex (c x : Nat) (h : hexVal c = some x) : JSONHex c := by
  unfold hexVal at h
  unfold JSONHex
  split at h
  · left; assumption
  · split at h
    · right; right; assumption
    · split at h
      · right; left; assumption
      · cases h

theorem scanHex4_split (s : List Nat) (v : Nat) (r : List Nat) (h : scanHex4 s = .ok v r) :
    ∃ a b c d, s = a :: b :: c :: d :: r ∧ JSONHex a ∧ JSONHex b ∧ JSONHex c ∧ JSONHex d := by
  unfold scanHex4 at h
  repeat' split at h
  all_goals first
    | (exact Parsed.noConfusion h)
    | (simp only [Parsed.ok.injEq] at h
       rw [← h.2]
       exact ⟨_, _, _, _, rfl, hexVal_hex _ _ ‹_›, hexVal_hex _ _ ‹_›, hexVal_hex _ _ ‹_›,
         hexVal_hex _ _ ‹_›⟩)

theorem getu4_split (s : List Nat) (v : Nat) (r : List Nat) (h : getu4 s = some (v, r)) :
    ∃ a b c d, s = 92 :: 117 :: a :: b :: c :: d :: r
      ∧ JSONHex a ∧ JSONHex b ∧ JSONHex c ∧ JSONHex d := by
  unfold getu4 at h
  split at h
  · split at h
    · rename_i t _ _ hs
      simp only [Option.some.injEq, Prod.mk.injEq] at h
      obtain ⟨a, b, c, d, h1, h2⟩ := scanHex4_split _ _ _ hs
      rw [← h.2, h1]
      exact ⟨a, b, c, d, rfl, h2⟩
    · cases h
  · cases h

theorem JSONChars_high : ∀ (a t : List Nat), (∀ b ∈ a, 128 ≤ b) → JSONChars t →
    JSONChars (a ++ t) := by
  intro a
  induction a with
  | nil => intro t _ h; exact h
  | cons c a ih =>
    intro t ha h
    have hc := ha c (List.mem_cons_self _ _)
    exact JSONChars.unescaped c (a ++ t) (by omega) (by omega) (by omega)
      (ih t (fun b hb => ha b (List.mem_cons_of_mem _ hb)) h)

set_option maxHeartbeats 1000000 in
theorem DecodeRune_high (c : Nat) (t : List Nat) (hc : 128 ≤ c) :
    ∀ b ∈ (c :: t).take (DecodeRune (c :: t)).2, 128 ≤ b := by
  simp only [DecodeRune]
  repeat' split
  all_goals simp_all
  all_goals omega

theorem unescape_mem (e b : Nat) (h : unescape e = some b) :
    e ∈ [34, 92, 47, 98, 102, 110, 114, 116] := by
  unfold unescape at h
  simp only [List.mem_cons, List.mem_singleton, List.not_mem_nil, or_false]
  repeat' split at h
  all_goals first
    | (exact Option.noConfusion h)
    | omega

theorem scanStringAux_split : ∀ (n : Nat) (s : List Nat) (v : GoString) (r : List Nat),
    scanStringAux n s = .ok v r → ∃ pre, s = pre ++ r ∧ JSONChars pre := by
  intro n
  induction n with
  | zero => intro s v r h; simp [scanStringAux] at h
  | succ n ih =>
    intro s v r h
    cases s with
    | nil => simp [scanStringAux] at h
    | cons c t =>
      rw [scanStringAux.eq_def] at h
      simp only at h
      split at h
      · rename_i hc
        simp only [Parsed.ok.injEq] at h
        rw [hc, ← h.2]
        exact ⟨[34], rfl, JSONChars.close⟩
      · rename_i h34
        split at h
        · rename_i h92
          subst h92
          split at h
          · cases h
          · rename_i e u
            split at h
            · rename_i he
              subst he
              split at h
              · cases h
              · cases h
              · rename_i rr v2 hs
                obtain ⟨a, b, c2, d, h1, ha, hb, hc2, hd⟩ := scanHex4_split _ _ _ hs
                split at h
                · split at h
                  · rename_i rr1 w hg
                    obtain ⟨a2, b2, c3, d2, h2, ha2, hb2, hc3, hd2⟩ := getu4_split _ _ _ hg
                    split at h
                    · obtain ⟨w2, hw⟩ := Parsed_push_ok _ _ _ _ h
                      obtain ⟨pre, hp, hch⟩ := ih _ _ _ hw
                      refine ⟨92 :: 117 :: a :: b :: c2 :: d :: 92 :: 117 :: a2 :: b2 :: c3 :: d2
                        :: pre, ?_, ?_⟩
                      · rw [h1, h2, hp]; rfl
                      · exact JSONChars.unicode _ _ _ _ _ ha hb hc2 hd
                          (JSONChars.unicode _ _ _ _ _ ha2 hb2 hc3 hd2 hch)
                    · obtain ⟨w2, hw⟩ := Parsed_push_ok _ _ _ _ h
                      obtain ⟨pre, hp, hch⟩ := ih _ _ _ hw
                      refine ⟨92 :: 117 :: a :: b :: c2 :: d :: pre, ?_, ?_⟩
                      · rw [h1, hp]; rfl
                      · exact JSONChars.unicode _ _ _ _ _ ha hb hc2 hd hch
                  · obtain ⟨w2, hw⟩ := Parsed_push_ok _ _ _ _ h
                    obtain ⟨pre, hp, hch⟩ := ih _ _ _ hw
                    refine ⟨92 :: 117 :: a :: b :: c2 :: d :: pre, ?_, ?_⟩
                    · rw [h1, hp]; rfl
                    · exact JSONChars.unicode _ _ _ _ _ ha hb hc2 hd hch
                · obtain ⟨w2, hw⟩ := Parsed_push_ok _ _ _ _ h
                  obtain ⟨pre, hp, hch⟩ := ih _ _ _ hw
                  refine ⟨92 :: 117 :: a :: b :: c2 :: d :: pre, ?_, ?_⟩
                  · rw [h1, hp]; rfl
                  · exact JSONChars.unicode _ _ _ _ _ ha hb hc2 hd hch
            · split at h
              · rename_i b hb
                obtain ⟨w2, hw⟩ := Parsed_push_ok _ _ _ _ h
                obtain ⟨pre, hp, hch⟩ := ih _ _ _ hw
                refine ⟨92 :: e :: pre, by rw [hp]; rfl, ?_⟩
                exact JSONChars.escape e pre (unescape_mem e b hb) hch
              · cases h
        · rename_i h92
          split at h
          · cases h
          · rename_i h32
            split at h
            · obtain ⟨w2, hw⟩ := Parsed_push_ok _ _ _ _ h
              obtain ⟨pre, hp, hch⟩ := ih _ _ _ hw
              refine ⟨c :: pre, by rw [hp]; rfl, ?_⟩
              exact JSONChars.unescaped c pre (by omega) h34 h92 hch
            · rename_i h128
              obtain ⟨w2, hw⟩ := Parsed_push_ok _ _ _ _ h
              obtain ⟨pre, hp, hch⟩ := ih _ _ _ hw
              refine ⟨(c :: t).take (DecodeRune (c :: t)).2 ++ pre, ?_, ?_⟩
              · rw [List.append_assoc, ← hp, List.take_append_drop]
              · exact JSONChars_high _ _ (DecodeRune_high c t (by omega)) hch

theorem scanString_split (s : List Nat) (v : GoString) (r : List Nat)
    (h : scanString s = .ok v r) : ∃ pre, s = pre ++ r ∧ JSONChars pre :=
  scanStringAux_split _ _ _ _ h

theorem spanDigits_split : ∀ s : List Nat,
    s = (spanDigits s).1 ++ (spanDigits s).2 ∧ ∀ b ∈ (spanDigits s).1, 48 ≤ b ∧ b ≤ 57 := by
  intro s
  induction s with
  | nil => exact ⟨rfl, fun b hb => by cases hb⟩
  | cons c t ih =>
    simp only [spanDigits]
    split
    · rename_i hc
      refine ⟨by rw [List.cons_append, ← ih.1], ?_⟩
      intro b hb
      rcases List.mem_cons.1 hb with h | h
      · subst h
        simp only [isDigit, Bool.and_eq_true, decide_eq_true_eq] at hc
        exact hc
      · exact ih.2 b h
    · exact ⟨rfl, fun b hb => by cases hb⟩

theorem digits_run (d : Nat) (u : List Nat) (hd : isDigit d = true) :
    d :: u = (spanDigits (d :: u)).1 ++ (spanDigits (d :: u)).2
    ∧ JSONDigits (spanDigits (d :: u)).1 := by
  have h := spanDigits_split (d :: u)
  refine ⟨h.1, ?_, h.2⟩
  simp only [spanDigits, hd, if_true]
  exact List.cons_ne_nil _ _

theorem scanExponent_split (lit s v r : List Nat) (h : scanExponent lit s = .ok v r) :
    ∃ x, s = x ++ r ∧ JSONExp x := by
  cases s with
  | nil =>
    simp only [scanExponent, Parsed.ok.injEq] at h
    rw [← h.2]
    exact ⟨[], rfl, Or.inl rfl⟩
  | cons e t =>
    by_cases he : e = 101 ∨ e = 69
    · rcases t with _ | ⟨c, t⟩
      · simp [scanExponent, he] at h
      · by_cases h43 : c = 43
        · subst h43
          simp only [scanExponent, he, if_true, List.length_cons, List.length_nil,
            List.drop_succ_cons, List.drop_zero] at h
          split at h
          · cases h
          · rename_i d u
            split at h
            · rename_i hd
              simp only [Parsed.ok.injEq] at h
              obtain ⟨h1, h2⟩ := digits_run d u hd
              refine ⟨e :: ([43] ++ (spanDigits (d :: u)).1), ?_, Or.inr ⟨e, [43], _, rfl, he,
                Or.inr (Or.inl rfl), h2⟩⟩
              rw [← h.2]
              simp only [List.cons_append, List.nil_append, List.cons.injEq, true_and]
              exact h1
            · cases h
        · by_cases h45 : c = 45
          · subst h45
            simp only [scanExponent, he, if_true, List.length_cons, List.length_nil,
              List.drop_succ_cons, List.drop_zero] at h
            split at h
            · cases h
            · rename_i d u
              split at h
              · rename_i hd
                simp only [Parsed.ok.injEq] at h
                obtain ⟨h1, h2⟩ := digits_run d u hd
                refine ⟨e :: ([45] ++ (spanDigits (d :: u)).1), ?_, Or.inr ⟨e, [45], _, rfl, he,
                  Or.inr (Or.inr rfl), h2⟩⟩
                rw [← h.2]
                simp only [List.cons_append, List.nil_append, List.cons.injEq, true_and]
                exact h1
              · cases h
          · rw [scanExponent_nosign _ _ _ _ he h43 h45] at h
            split at h
            · rename_i hd
              simp only [Parsed.ok.injEq] at h
              obtain ⟨h1, h2⟩ := digits_run c t hd
              refine ⟨e :: ([] ++ (spanDigits (c :: t)).1), ?_, Or.inr ⟨e, [], _, rfl, he,
                Or.inl rfl, h2⟩⟩
              rw [← h.2]
              simp only [List.cons_append, List.nil_append, List.cons.injEq, true_and]
              exact h1
            · cases h
    · simp only [scanExponent, he, if_false, Parsed.ok.injEq] at h
      rw [← h.2]
      exact ⟨[], rfl, Or.inl rfl⟩

theorem scanFraction_split (lit s v r : List Nat) (h : scanFraction lit s = .ok v r) :
    ∃ f x, s = f ++ (x ++ r) ∧ JSONFrac f ∧ JSONExp x := by
  cases s with
  | nil =>
    obtain ⟨x, h1, h2⟩ := scanExponent_split lit [] v r h
    exact ⟨[], x, h1, Or.inl rfl, h2⟩
  | cons c t =>
    by_cases h46 : c = 46
    · subst h46
      simp only [scanFraction] at h
      split at h
      · cases h
      · rename_i d u
        split at h
        · rename_i hd
          obtain ⟨h1, h2⟩ := digits_run d u hd
          obtain ⟨x, h3, h4⟩ := scanExponent_split _ _ _ _ h
          refine ⟨46 :: (spanDigits (d :: u)).1, x, ?_, Or.inr ⟨_, rfl, h2⟩, h4⟩
          rw [List.cons_append, ← h3, ← h1]
        · cases h
    · have h1 : scanFraction lit (c :: t) = scanExponent lit (c :: t) := by
        unfold scanFraction
        split
        · rename_i heq
          simp only [List.cons.injEq] at heq
          exact absurd heq.1 h46
        · rfl
      rw [h1] at h
      obtain ⟨x, h2, h3⟩ := scanExponent_split _ _ _ _ h
      exact ⟨[], x, h2, Or.inl rfl, h3⟩

theorem scanDigits_split (sign s v r : List Nat) (h : scanDigits sign s = .ok v r) :
    ∃ i f x, s = i ++ (f ++ (x ++ r)) ∧ JSONInt i ∧ JSONFrac f ∧ JSONExp x := by
  cases s with
  | nil => simp [scanDigits] at h
  | cons d t =>
    simp only [scanDigits] at h
    split at h
    · rename_i hd
      obtain ⟨f, x, h1, h2, h3⟩ := scanFraction_split _ _ _ _ h
      exact ⟨[48], f, x, by rw [hd, h1]; rfl, Or.inl rfl, h2, h3⟩
    · rename_i hd
      split at h
      · rename_i hdig
        obtain ⟨f, x, h1, h2, h3⟩ := scanFraction_split _ _ _ _ h
        have hs := spanDigits_split t
        refine ⟨d :: (spanDigits t).1, f, x, ?_, Or.inr ⟨d, _, rfl, ?_, ?_, hs.2⟩, h2, h3⟩
        · rw [List.cons_append, ← h1, ← hs.1]
        · simp only [isDigit, Bool.and_eq_true, decide_eq_true_eq] at hdig
          omega
        · simp only [isDigit, Bool.and_eq_true, decide_eq_true_eq] at hdig
          omega
      · cases h

theorem scanNumber_split (s v r : List Nat) (h : scanNumber s = .ok v r) :
    ∃ num, s = num ++ r ∧ JSONNumber num := by
  cases s with
  | nil => simp [scanNumber, scanDigits] at h
  | cons c t =>
    by_cases h45 : c = 45
    · subst h45
      simp only [scanNumber] at h
      obtain ⟨i, f, x, h1, h2, h3, h4⟩ := scanDigits_split _ _ _ _ h
      refine ⟨[45] ++ (i ++ (f ++ x)), ?_, ⟨[45], i, f, x, rfl, Or.inr rfl, h2, h3, h4⟩⟩
      rw [h1]
      simp
    · have h1 : scanNumber (c :: t) = scanDigits [] (c :: t) := by
        unfold scanNumber
        split
        · rename_i heq
          simp only [List.cons.injEq] at heq
          exact absurd heq.1 h45
        · rfl
      rw [h1] at h
      obtain ⟨i, f, x, h2, h3, h4, h5⟩ := scanDigits_split _ _ _ _ h
      refine ⟨[] ++ (i ++ (f ++ x)), ?_, ⟨[], i, f, x, rfl, Or.inl rfl, h3, h4, h5⟩⟩
      rw [h2]
      simp

theorem JSONSpace_append (a b : List Nat) (ha : JSONSpace a) (hb : JSONSpace b) :
    JSONSpace (a ++ b) := by
  intro c hc
  rcases List.mem_append.1 hc with h | h
  · exact ha c h
  · exact hb c h

theorem skipSpace_split_cons (s t : List Nat) (c : Nat) (h : skipSpace s = c :: t) :
    ∃ w, s = w ++ c :: t ∧ JSONSpace w := by
  obtain ⟨w, hw, hs⟩ := skipSpace_split s
  rw [h] at hw
  exact ⟨w, hw, hs⟩

theorem scan_sound : ∀ n : Nat,
    (∀ d s v r, scanValue n d s = .ok v r →
      ∃ w val, s = w ++ (val ++ r) ∧ JSONSpace w ∧ JSONValue val)
    ∧ (∀ d s v r, scanElems n d s = .ok v r →
      ∃ w items, s = w ++ (items ++ r) ∧ JSONSpace w ∧ JSONItems items)
    ∧ (∀ d s v r, scanMembers n d s = .ok v r →
      ∃ w pairs, s = w ++ (pairs ++ r) ∧ JSONSpace w ∧ JSONPairs pairs) := by
  intro n
  induction n with
  | zero =>
    refine ⟨?_, ?_, ?_⟩ <;> intro d s v r h
    · simp [scanValue] at h
    · simp [scanElems] at h
    · simp [scanMembers] at h
  | succ n ih =>
    obtain ⟨ihV, ihE, ihM⟩ := ih
    refine ⟨?_, ?_, ?_⟩ <;> intro d s v r h
    · rw [scanValue] at h
      split at h
      · cases h
      · rename_i c t hs
        obtain ⟨w, hw, hsp⟩ := skipSpace_split_cons _ _ _ hs
        split at h
        · rename_i hc
          subst hc
          split at h
          · cases h
          · split at h
            · cases h
            · rename_i k u hk
              obtain ⟨w2, hw2, hsp2⟩ := skipSpace_split_cons _ _ _ hk
              split at h
              · rename_i h125
                simp only [Parsed.ok.injEq] at h
                refine ⟨w, 123 :: (w2 ++ [125]), ?_, hsp, JSONValue.emptyObject w2 hsp2⟩
                rw [hw, hw2, h125, ← h.2]
                simp
              · obtain ⟨ms, hm⟩ := Parsed_map_ok _ _ _ _ h
                obtain ⟨w3, pairs, h1, h2, h3⟩ := ihM _ _ _ _ hm
                refine ⟨w, 123 :: ((w2 ++ w3) ++ pairs), ?_, hsp,
                  JSONValue.object _ _ (JSONSpace_append _ _ hsp2 h2) h3⟩
                rw [hw, hw2, h1]
                simp
        · split at h
          · rename_i hc
            subst hc
            split at h
            · cases h
            · split at h
              · cases h
              · rename_i k u hk
                obtain ⟨w2, hw2, hsp2⟩ := skipSpace_split_cons _ _ _ hk
                split at h
                · rename_i h93
                  simp only [Parsed.ok.injEq] at h
                  refine ⟨w, 91 :: (w2 ++ [93]), ?_, hsp, JSONValue.emptyArray w2 hsp2⟩
                  rw [hw, hw2, h93, ← h.2]
                  simp
                · obtain ⟨ms, hm⟩ := Parsed_map_ok _ _ _ _ h
                  obtain ⟨w3, items, h1, h2, h3⟩ := ihE _ _ _ _ hm
                  refine ⟨w, 91 :: ((w2 ++ w3) ++ items), ?_, hsp,
                    JSONValue.array _ _ (JSONSpace_append _ _ hsp2 h2) h3⟩
                  rw [hw, hw2, h1]
                  simp
          · split at h
            · rename_i hc
              subst hc
              obtain ⟨x, hx⟩ := Parsed_map_ok _ _ _ _ h
              obtain ⟨pre, h1, h2⟩ := scanString_split _ _ _ hx
              refine ⟨w, 34 :: pre, ?_, hsp, JSONValue.string pre h2⟩
              rw [hw, h1]
              simp
            · split at h
              · obtain ⟨x, hx⟩ := Parsed_map_ok _ _ _ _ h
                obtain ⟨num, h1, h2⟩ := scanNumber_split _ _ _ hx
                refine ⟨w, num, ?_, hsp, JSONValue.number num h2⟩
                rw [hw, h1]
              · split at h
                · rename_i hc
                  subst hc
                  obtain ⟨x, hx⟩ := Parsed_map_ok _ _ _ _ h
                  have h1 := scanLiteral_split _ _ _ hx
                  refine ⟨w, [116, 114, 117, 101], ?_, hsp, JSONValue.litTrue⟩
                  rw [hw, h1]
                  simp
                · split at h
                  · rename_i hc
                    subst hc
                    obtain ⟨x, hx⟩ := Parsed_map_ok _ _ _ _ h
                    have h1 := scanLiteral_split _ _ _ hx
                    refine ⟨w, [102, 97, 108, 115, 101], ?_, hsp, JSONValue.litFalse⟩
                    rw [hw, h1]
                    simp
                  · split at h
                    · rename_i hc
                      subst hc
                      obtain ⟨x, hx⟩ := Parsed_map_ok _ _ _ _ h
                      have h1 := scanLiteral_split _ _ _ hx
                      refine ⟨w, [110, 117, 108, 108], ?_, hsp, JSONValue.litNull⟩
                      rw [hw, h1]
                      simp
                    · cases h
    · rw [scanElems] at h
      split at h
      · cases h
      · cases h
      · rename_i v1 r1 hv
        obtain ⟨w, val, h1, h2, h3⟩ := ihV _ _ _ _ hv
        split at h
        · cases h
        · rename_i c t hs
          obtain ⟨w2, hw2, hsp2⟩ := skipSpace_split_cons _ _ _ hs
          split at h
          · rename_i hc
            obtain ⟨vs, hvs⟩ := Parsed_map_ok _ _ _ _ h
            obtain ⟨w3, items, h4, h5, h6⟩ := ihE _ _ _ _ hvs
            refine ⟨w, val ++ (w2 ++ 44 :: (w3 ++ items)), ?_, h2,
              JSONItems.more val w2 w3 items h3 hsp2 h5 h6⟩
            rw [h1, hw2, hc, h4]
            simp
          · split at h
            · rename_i hc
              simp only [Parsed.ok.injEq] at h
              refine ⟨w, val ++ (w2 ++ [93]), ?_, h2, JSONItems.last val w2 h3 hsp2⟩
              rw [h1, hw2, hc, ← h.2]
              simp
            · cases h
    · rw [scanMembers] at h
      split at h
      · cases h
      · rename_i q t hs
        obtain ⟨w, hw, hsp⟩ := skipSpace_split_cons _ _ _ hs
        split at h
        · rename_i hq
          subst hq
          split at h
          · cases h
          · cases h
          · rename_i key r1 hk
            obtain ⟨k, hk1, hk2⟩ := scanString_split _ _ _ hk
            split at h
            · cases h
            · rename_i c u hc
              obtain ⟨w1, hw1, hsp1⟩ := skipSpace_split_cons _ _ _ hc
              split at h
              · rename_i h58
                subst h58
                split at h
                · cases h
                · cases h
                · rename_i v1 r2 hv
                  obtain ⟨w2, val, h1, h2, h3⟩ := ihV _ _ _ _ hv
                  split at h
                  · cases h
                  · rename_i e x he
                    obtain ⟨w3, hw3, hsp3⟩ := skipSpace_split_cons _ _ _ he
                    split at h
                    · rename_i h44
                      obtain ⟨ms, hms⟩ := Parsed_map_ok _ _ _ _ h
                      obtain ⟨w4, pairs, h4, h5, h6⟩ := ihM _ _ _ _ hms
                      refine ⟨w, 34 :: (k ++ (w1 ++ 58 :: (w2 ++ (val ++ (w3 ++ 44 ::
                        (w4 ++ pairs)))))), ?_, hsp,
                        JSONPairs.more k w1 w2 val w3 w4 pairs hk2 hsp1 h2 h3 hsp3 h5 h6⟩
                      rw [hw, hk1, hw1, h1, hw3, h44, h4]
                      simp
                    · split at h
                      · rename_i h125
                        simp only [Parsed.ok.injEq] at h
                        refine ⟨w, 34 :: (k ++ (w1 ++ 58 :: (w2 ++ (val ++ (w3 ++ [125]))))),
                          ?_, hsp, JSONPairs.last k w1 w2 val w3 hk2 hsp1 h2 h3 hsp3⟩
                        rw [hw, hk1, hw1, h1, hw3, h125, ← h.2]
                        simp
                      · cases h
              · cases h
        · cases h

theorem scanValue_sound (n d : Nat) (s : List Nat) (v : JValue) (r : List Nat)
    (h : scanValue n d s = .ok v r) :
    ∃ k, k ≤ s.length ∧ JSONText (s.take k) := by
  obtain ⟨w, val, h1, h2, h3⟩ := (scan_sound n).1 d s v r h
  refine ⟨(w ++ val).length, ?_, ?_⟩
  · rw [h1]
    simp only [List.length_append]
    omega
  · refine ⟨w, val, ?_, h2, h3⟩
    rw [h1, ← List.append_assoc, List.take_left]


/-! ## The claims on requests, status codes and files -/

/-- C1: every authenticated method called on a client whose APIToken is empty
returns the error "API token required for this endpoint" and performs no effect
at all: no request reaches the transport and no file is opened or created. -/
theorem C1_empty_token_rejected (env : Env) (c : Client) (call : Call)
    (hauth : call.isPublic = false) (htoken : c.APIToken = []) :
    call.run env c = (.error (.errorf (str "API token required for this endpoint")), [])
    ∧ requests (call.run env c).2 = [] ∧ files (call.run env c).2 = [] := by
  have h : call.run env c
      = (.error (.errorf (str "API token required for this endpoint")), []) := by
    cases call <;> first
      | (simp [Call.isPublic] at hauth; done)
      | simp [Call.run, Outcome.as, GetDocuments, CreateDocument, UpdateDocument, DeleteDocument,
          GetCollections, GetCollection, CreateCollection, UpdateCollection, DeleteCollection,
          ListMedia, UploadMedia, GetMedia, UpdateMedia, DeleteMedia, DownloadMedia, ListWebhooks,
          CreateWebhook, UpdateWebhook, DeleteWebhook, GetCollectionSchema, GetCollectionFields,
          GetFieldTypes, htoken]
  rw [h]
  exact ⟨rfl, rfl, rfl⟩

/-- Witness of C1: DownloadMedia on a client without credential. -/
theorem C1_empty_token_rejected_witness :
    (Call.DownloadMedia (str "m1") (str "/tmp/out.bin")).isPublic = false
    ∧ (NewClient (fun _ => .error 1) []).APIToken = []
    ∧ (Call.DownloadMedia (str "m1") (str "/tmp/out.bin")).run demoEnv
        (NewClient (fun _ => .error 1) [])
      = (.error (.errorf (str "API token required for this endpoint")), []) :=
  ⟨rfl, rfl, (C1_empty_token_rejected demoEnv (NewClient (fun _ => .error 1) [])
    (Call.DownloadMedia (str "m1") (str "/tmp/out.bin")) rfl rfl).1⟩

/-- C2: when the transport delivers a response to a method other than the four
deletes, and the status code is not 200 (for the creating methods: neither 200
nor 201), the method returns the error "unexpected status: " followed by the
status line, hence no value, and it creates and writes no file: the body is
neither decoded nor stored. -/
theorem C2_unexpected_status (env : Env) (c : Client) (call : Call) (req : Request)
    (resp : Response)
    (hsent : Effect.Do req ∈ (call.run env c).2)
    (hresp : c.HTTPClient.Do req = .ok resp)
    (hkind : call.isDelete = false)
    (hstatus : if call.isCreate then resp.StatusCode ≠ 200 ∧ resp.StatusCode ≠ 201
      else resp.StatusCode ≠ 200) :
    (call.run env c).1 = .error (.errorf (str "unexpected status: " ++ resp.Status))
    ∧ ∀ p, Effect.Create p ∉ (call.run env c).2 ∧ ∀ d, Effect.Write p d ∉ (call.run env c).2 := by
  cases call <;> first
    | (simp [Call.isDelete] at hkind; done)
    | (simp only [Call.run, Outcome.as, GetDocuments, CreateDocument, UpdateDocument,
        DeleteDocument, GetCollections, GetCollection, CreateCollection, UpdateCollection,
        DeleteCollection, ListMedia, UploadMedia, GetMedia, UpdateMedia, DeleteMedia,
        DownloadMedia, ListWebhooks, CreateWebhook, UpdateWebhook, DeleteWebhook,
        GetCollectionSchema, GetCollectionFields, GetFieldTypes, GetPublicDocuments,
        GetPublicDocument, Call.isCreate] at hsent hstatus ⊢
       repeat' split at hsent
       all_goals simp_all)

/-- Witness of C2: CreateWebhook answered with 204 No Content. -/
theorem C2_unexpected_status_witness :
    ((Call.CreateWebhook none).run demoEnv (demoClient (demoResponse 204 "204 No Content" ""))).1
      = .error (.errorf (str "unexpected status: 204 No Content")) :=
  (C2_unexpected_status demoEnv (demoClient (demoResponse 204 "204 No Content" ""))
    (Call.CreateWebhook none)
    ⟨str "POST", str "https://api.contentzen.io/api/v1/webhooks",
      [(str "Authorization", str "Bearer secret"), (str "Content-Type", str "application/json")],
      .bytes (str "null")⟩
    (demoResponse 204 "204 No Content" "") (by decide) (by rfl) rfl (by decide)).1

/-- C3: for a delete method called with a non-empty credential, when the
transport delivers a response the method returns a nil error exactly when the
status code is 200 or 204, whatever the body; for any other code it returns the
error built from the status line. -/
theorem C3_delete_status (env : Env) (c : Client) (call : Call) (req : Request)
    (resp : Response)
    (hkind : call.isDelete = true)
    (htoken : c.APIToken ≠ [])
    (hsent : Effect.Do req ∈ (call.run env c).2)
    (hresp : c.HTTPClient.Do req = .ok resp) :
    ((call.run env c).1 = .ok .done ↔ resp.StatusCode = 200 ∨ resp.StatusCode = 204)
    ∧ (¬ (resp.StatusCode = 200 ∨ resp.StatusCode = 204) →
        (call.run env c).1 = .error (.errorf (str "unexpected status: " ++ resp.Status))) := by
  by_cases h200 : resp.StatusCode = 200 <;> by_cases h204 : resp.StatusCode = 204 <;>
  cases call <;> first
    | (simp [Call.isDelete] at hkind; done)
    | (simp only [Call.run, Outcome.as, DeleteDocument, DeleteCollection, DeleteMedia,
        DeleteWebhook] at hsent ⊢
       repeat' split at hsent
       all_goals simp_all)

/-- Witness of C3: DeleteMedia answered with 404 Not Found and a JSON body. -/
theorem C3_delete_status_witness :
    (demoClient (demoResponse 404 "404 Not Found" "\x7b\"error\":\"gone\"\x7d")).APIToken ≠ []
    ∧ ((Call.DeleteMedia (str "m1")).run demoEnv
        (demoClient (demoResponse 404 "404 Not Found" "\x7b\"error\":\"gone\"\x7d"))).1
      = .error (.errorf (str "unexpected status: 404 Not Found")) :=
  ⟨by decide,
   (C3_delete_status demoEnv (demoClient (demoResponse 404 "404 Not Found" "\x7b\"error\":\"gone\"\x7d"))
    (Call.DeleteMedia (str "m1"))
    ⟨str "DELETE", str "https://api.contentzen.io/api/v1/media/m1",
      [(str "Authorization", str "Bearer secret")], .none⟩
    (demoResponse 404 "404 Not Found" "\x7b\"error\":\"gone\"\x7d") rfl (by decide) (by decide)
    (by rfl)).2 (by decide)⟩

set_option maxHeartbeats 1000000 in
/-- C4: every request a method hands to the transport has the method of the
wire-protocol table and the URL made of BaseURL, "/api/v1" and the path of the
table with the identifiers inserted unchanged; and the request is handed over
whenever the credential is there (or the method is public), the steps before
`http.NewRequest` succeed and `http.NewRequest` accepts that URL. -/
theorem C4_method_and_url (env : Env) (c : Client) (call : Call) :
    (∀ req, Effect.Do req ∈ (call.run env c).2 →
      req.Method = call.method ∧ req.URL = c.BaseURL ++ str "/api/v1" ++ call.path)
    ∧ ((call.isPublic = true ∨ c.APIToken ≠ []) → call.prepared env = true →
        env.parseURL (c.BaseURL ++ str "/api/v1" ++ call.path) = none →
        ∃ req, requests (call.run env c).2 = [req]) := by
  constructor
  · intro req hsent
    cases call <;>
      (simp only [Call.run, Outcome.as, GetDocuments, CreateDocument, UpdateDocument,
        DeleteDocument, GetCollections, GetCollection, CreateCollection, UpdateCollection,
        DeleteCollection, ListMedia, UploadMedia, GetMedia, UpdateMedia, DeleteMedia,
        DownloadMedia, ListWebhooks, CreateWebhook, UpdateWebhook, DeleteWebhook,
        GetCollectionSchema, GetCollectionFields, GetFieldTypes, GetPublicDocuments,
        GetPublicDocument, Call.method, Call.path, List.append_assoc] at hsent ⊢
       repeat' split at hsent
       all_goals simp_all [Request.Set, NewRequest_ok]
       all_goals (subst_vars; rfl))
  · intro h1 h2 h3
    cases call <;>
      (simp only [Call.run, Outcome.as, GetDocuments, CreateDocument, UpdateDocument,
        DeleteDocument, GetCollections, GetCollection, CreateCollection, UpdateCollection,
        DeleteCollection, ListMedia, UploadMedia, GetMedia, UpdateMedia, DeleteMedia,
        DownloadMedia, ListWebhooks, CreateWebhook, UpdateWebhook, DeleteWebhook,
        GetCollectionSchema, GetCollectionFields, GetFieldTypes, GetPublicDocuments,
        GetPublicDocument, Call.method, Call.path,
        versioned.1, versioned.2.1, versioned.2.2.1, versioned.2.2.2.1, versioned.2.2.2.2.1,
        versioned.2.2.2.2.2.1, versioned.2.2.2.2.2.2.1, versioned.2.2.2.2.2.2.2.1,
        versioned.2.2.2.2.2.2.2.2.1, versioned.2.2.2.2.2.2.2.2.2,
        List.append_assoc, Call.isPublic, Call.prepared] at h1 h2 h3 ⊢
       repeat' split
       all_goals simp_all [NewRequest_ok, NewRequest_error, requests, Except.toBool])

/-- Witness of C4: the three requests named in the claim, with identifiers that
contain a slash and a question mark. -/
theorem C4_method_and_url_witness :
    requests ((Call.UpdateDocument (str "c/1") (str "d?2") none).run demoEnv
        (demoClient (demoResponse 200 "200 OK" "\x7b\x7d"))).2
      = [⟨str "PUT", str "https://api.contentzen.io/api/v1/documents/c/1/d?2",
          [(str "Authorization", str "Bearer secret"),
           (str "Content-Type", str "application/json")], .bytes (str "null")⟩]
    ∧ (∀ req, Effect.Do req ∈ ((Call.DownloadMedia (str "m") (str "/tmp/out")).run demoEnv
          (demoClient (demoResponse 200 "200 OK" ""))).2 →
        req.Method = str "GET"
        ∧ req.URL = str "https://api.contentzen.io" ++ str "/api/v1"
            ++ (str "/media/" ++ str "m" ++ str "/download"))
    ∧ (∀ req, Effect.Do req ∈ ((Call.GetPublicDocuments (str "c")).run demoEnv
          (demoClient (demoResponse 200 "200 OK" "\x7b\x7d"))).2 →
        req.Method = str "GET"
        ∧ req.URL = str "https://api.contentzen.io" ++ str "/api/v1"
            ++ (str "/documents/collection/" ++ str "c" ++ str "?state=published")) :=
  ⟨by decide,
   (C4_method_and_url demoEnv (demoClient (demoResponse 200 "200 OK" ""))
      (Call.DownloadMedia (str "m") (str "/tmp/out"))).1,
   (C4_method_and_url demoEnv (demoClient (demoResponse 200 "200 OK" "\x7b\x7d"))
      (Call.GetPublicDocuments (str "c"))).1⟩

set_option maxHeartbeats 1000000 in
/-- C5: for an authenticated method called with a non-empty credential, every
request handed to the transport has exactly one Authorization value, "Bearer "
followed by the credential unchanged, and at most one request is handed over. -/
theorem C5_bearer_header (env : Env) (c : Client) (call : Call)
    (hauth : call.isPublic = false) (htoken : c.APIToken ≠ []) :
    (∀ req, Effect.Do req ∈ (call.run env c).2 →
      req.Values (str "Authorization") = [str "Bearer " ++ c.APIToken])
    ∧ (requests (call.run env c).2).length ≤ 1 := by
  cases call <;> first
    | (simp [Call.isPublic] at hauth; done)
    | (simp only [Call.run, Outcome.as, GetDocuments, CreateDocument, UpdateDocument,
        DeleteDocument, GetCollections, GetCollection, CreateCollection, UpdateCollection,
        DeleteCollection, ListMedia, UploadMedia, GetMedia, UpdateMedia, DeleteMedia,
        DownloadMedia, ListWebhooks, CreateWebhook, UpdateWebhook, DeleteWebhook,
        GetCollectionSchema, GetCollectionFields, GetFieldTypes]
       repeat' split
       all_goals simp_all [Values_Set_same, Values_Set_other _ _ _ _ header_names, requests])

/-- Witness of C5: UpdateMedia with the credential `secret`. -/
theorem C5_bearer_header_witness :
    (Call.UpdateMedia (str "m1") none).isPublic = false
    ∧ (demoClient (demoResponse 200 "200 OK" "\x7b\x7d")).APIToken ≠ []
    ∧ requests ((Call.UpdateMedia (str "m1") none).run demoEnv
        (demoClient (demoResponse 200 "200 OK" "\x7b\x7d"))).2
      = [⟨str "PUT", str "https://api.contentzen.io/api/v1/media/m1",
          [(str "Authorization", str "Bearer secret"),
           (str "Content-Type", str "application/json")], .bytes (str "null")⟩]
    ∧ (requests ((Call.UpdateMedia (str "m1") none).run demoEnv
        (demoClient (demoResponse 200 "200 OK" "\x7b\x7d"))).2).length ≤ 1 :=
  ⟨rfl, by decide, by decide,
   (C5_bearer_header demoEnv (demoClient (demoResponse 200 "200 OK" "\x7b\x7d"))
    (Call.UpdateMedia (str "m1") none) rfl (by decide)).2⟩

theorem status_ne_token (s : GoString) :
    GoError.errorf (str "unexpected status: " ++ s)
      ≠ GoError.errorf (str "API token required for this endpoint") := by
  intro h
  have h2 := congrArg List.head? (GoError.errorf.inj h)
  have h3 : (str "unexpected status: " ++ s).head? = some 117 := rfl
  have h4 : (str "API token required for this endpoint").head? = some 65 := rfl
  rw [h3, h4] at h2
  exact absurd (Option.some.inj h2) (by decide)

theorem not_token_of_kind (e : GoError) (h : e.isErrorf = false) :
    e ≠ .errorf (str "API token required for this endpoint") := by
  intro h2
  rw [h2] at h
  cases h

theorem GetPublicDocuments_error (env : Env) (c : Client) (a : GoString) (e : GoError)
    (h : (GetPublicDocuments env c a).1 = .error e) :
    e ≠ .errorf (str "API token required for this endpoint") := by
  simp only [GetPublicDocuments] at h
  repeat' split at h
  all_goals simp only [Except.error.injEq, reduceCtorEq] at h
  all_goals subst h
  · rename_i h1
    obtain ⟨code, _, rfl⟩ := (NewRequest_error _ _ _ _ _).1 h1
    exact not_token_of_kind _ rfl
  · rename_i h1
    obtain ⟨code, _, rfl⟩ := (Do_error _ _ _).1 h1
    exact not_token_of_kind _ rfl
  · exact status_ne_token _
  · rename_i h1
    exact not_token_of_kind _ (Decode_error _
      (storeStruct_errors _ (Envelope_field_errors _) _) _ _ h1)

theorem GetPublicDocument_error (env : Env) (c : Client) (a b : GoString) (e : GoError)
    (h : (GetPublicDocument env c a b).1 = .error e) :
    e ≠ .errorf (str "API token required for this endpoint") := by
  simp only [GetPublicDocument] at h
  repeat' split at h
  all_goals simp only [Except.error.injEq, reduceCtorEq] at h
  all_goals subst h
  · rename_i h1
    obtain ⟨code, _, rfl⟩ := (NewRequest_error _ _ _ _ _).1 h1
    exact not_token_of_kind _ rfl
  · rename_i h1
    obtain ⟨code, _, rfl⟩ := (Do_error _ _ _).1 h1
    exact not_token_of_kind _ rfl
  · exact status_ne_token _
  · rename_i h1
    exact not_token_of_kind _ (Decode_error _ (Document_store_errors _ _) _ _ h1)

/-- C6: the two public methods ignore the credential: two clients that differ
only in APIToken give the same outcome (the same request and the same result);
the request is a GET without Authorization header; and the result is never the
error "API token required for this endpoint". -/
theorem C6_public_ignores_token (env : Env) (c : Client) (call : Call) (t1 t2 : GoString)
    (hpub : call.isPublic = true) :
    call.run env { c with APIToken := t1 } = call.run env { c with APIToken := t2 }
    ∧ (∀ req, Effect.Do req ∈ (call.run env { c with APIToken := t1 }).2 →
        req.Method = str "GET" ∧ req.Values (str "Authorization") = [])
    ∧ (call.run env { c with APIToken := t1 }).1
        ≠ .error (.errorf (str "API token required for this endpoint")) := by
  cases call <;> first
    | (simp [Call.isPublic] at hpub; done)
    | (refine ⟨rfl, ?_, ?_⟩
       · intro req
         simp only [Call.run, Outcome.as, GetPublicDocuments, GetPublicDocument]
         repeat' split
         all_goals simp_all [Request.Values, NewRequest_ok]
       · intro h
         simp only [Call.run, Outcome.as] at h
         split at h
         · rename_i e he
           first
             | exact GetPublicDocuments_error _ _ _ _ he (Except.error.inj h)
             | exact GetPublicDocument_error _ _ _ _ _ he (Except.error.inj h)
         · cases h)

/-- Witness of C6: GetPublicDocument with and without credential. -/
theorem C6_public_ignores_token_witness :
    (Call.GetPublicDocument (str "c1") (str "d1")).isPublic = true
    ∧ (Call.GetPublicDocument (str "c1") (str "d1")).run demoEnv
        { demoClient (demoResponse 200 "200 OK" "\x7b\"uuid\":\"d1\"\x7d") with APIToken := [] }
      = (Call.GetPublicDocument (str "c1") (str "d1")).run demoEnv
        { demoClient (demoResponse 200 "200 OK" "\x7b\"uuid\":\"d1\"\x7d") with
          APIToken := str "secret" } :=
  ⟨rfl, (C6_public_ignores_token demoEnv (demoClient (demoResponse 200 "200 OK" "\x7b\"uuid\":\"d1\"\x7d"))
    (Call.GetPublicDocument (str "c1") (str "d1")) [] (str "secret") rfl).1⟩

/-! ## The claims on JSON: the public listing -/

theorem fieldMatch_iff (name key : GoString) :
    fieldMatch name key = true ↔ foldName key = foldName name := by
  unfold fieldMatch
  constructor
  · intro h
    simp only [Bool.or_eq_true, decide_eq_true_eq] at h
    rcases h with h | h
    · rw [h]
    · exact h
  · intro h
    simp [h]

theorem membersFor_cons (name : GoString) (k : GoString) (v : JValue)
    (ms : List (GoString × JValue)) :
    membersFor name ((k, v) :: ms)
      = if fieldMatch name k = true then (k, v) :: membersFor name ms else membersFor name ms := by
  simp only [membersFor, List.filter_cons]

theorem Document_names_distinct (k : GoString) :
    (fieldMatch (str "uuid") k = true → fieldMatch (str "payload") k = false
      ∧ fieldMatch (str "lang") k = false ∧ fieldMatch (str "state") k = false)
    ∧ (fieldMatch (str "payload") k = true →
      fieldMatch (str "lang") k = false ∧ fieldMatch (str "state") k = false)
    ∧ (fieldMatch (str "lang") k = true → fieldMatch (str "state") k = false) := by
  have hne : ∀ a b : GoString, foldName a ≠ foldName b →
      fieldMatch a k = true → fieldMatch b k = false := by
    intro a b hab ha
    rw [fieldMatch_iff] at ha
    cases hb : fieldMatch b k
    · rfl
    · rw [fieldMatch_iff] at hb
      exact absurd (ha.symm.trans hb) hab
  refine ⟨fun h => ⟨hne _ _ (by decide) h, hne _ _ (by decide) h, hne _ _ (by decide) h⟩,
    fun h => ⟨hne _ _ (by decide) h, hne _ _ (by decide) h⟩, fun h => hne _ _ (by decide) h⟩

theorem Document_members (ok : GoString → Bool) (d : Document) :
    ∀ (ms : List (GoString × JValue)) (cur : Document),
      (membersFor (str "uuid") ms = [] ∧ cur.UUID = d.UUID
        ∨ ∃ k, membersFor (str "uuid") ms = [(k, .string d.UUID)]) →
      (membersFor (str "lang") ms = [] ∧ cur.Lang = d.Lang
        ∨ ∃ k, membersFor (str "lang") ms = [(k, .string d.Lang)]) →
      (membersFor (str "state") ms = [] ∧ cur.State = d.State
        ∨ ∃ k, membersFor (str "state") ms = [(k, .string d.State)]) →
      (membersFor (str "payload") ms = [] ∧ cur.Payload = d.Payload
        ∨ ∃ k pm m, membersFor (str "payload") ms = [(k, .object pm)] ∧ cur.Payload = none
            ∧ toInterfaceMembers ok pm [] = .ok m ∧ d.Payload = some m) →
      storeMembers (Document.field ok) cur ms = .ok d := by
  intro ms
  induction ms with
  | nil =>
    intro cur hu hl hs hp
    cases cur
    cases d
    simp_all [membersFor, storeMembers]
  | cons m ms ih =>
    intro cur hu hl hs hp
    obtain ⟨k0, v0⟩ := m
    obtain ⟨d1, d2, d3⟩ := Document_names_distinct k0
    rw [membersFor_cons] at hu hl hs hp
    unfold storeMembers Document.field
    by_cases h1 : fieldMatch (str "uuid") k0 = true
    · obtain ⟨e1, e2, e3⟩ := d1 h1
      simp only [h1, e1, e2, e3, if_true, if_false, Bool.false_eq_true] at hu hl hs hp ⊢
      rcases hu with hu | ⟨k, hu⟩
      · simp at hu
      · simp only [List.cons.injEq, Prod.mk.injEq] at hu
        obtain ⟨⟨_, rfl⟩, hu⟩ := hu
        simp only [storeString]
        exact ih _ (Or.inl ⟨hu, rfl⟩) hl hs hp
    · by_cases h2 : fieldMatch (str "payload") k0 = true
      · obtain ⟨e2, e3⟩ := d2 h2
        simp only [h1, h2, e2, e3, if_true, if_false, Bool.false_eq_true] at hu hl hs hp ⊢
        rcases hp with hp | ⟨k, pm, m, hp, hc, hm, hd⟩
        · simp at hp
        · simp only [List.cons.injEq, Prod.mk.injEq] at hp
          obtain ⟨⟨_, rfl⟩, hp⟩ := hp
          simp only [storeMap, hc, Option.getD_none, hm]
          exact ih _ hu hl hs (Or.inl ⟨hp, hd.symm⟩)
      · by_cases h3 : fieldMatch (str "lang") k0 = true
        · have e3 := d3 h3
          simp only [h1, h2, h3, e3, if_true, if_false, Bool.false_eq_true] at hu hl hs hp ⊢
          rcases hl with hl | ⟨k, hl⟩
          · simp at hl
          · simp only [List.cons.injEq, Prod.mk.injEq] at hl
            obtain ⟨⟨_, rfl⟩, hl⟩ := hl
            simp only [storeString]
            exact ih _ hu (Or.inl ⟨hl, rfl⟩) hs hp
        · by_cases h4 : fieldMatch (str "state") k0 = true
          · simp only [h1, h2, h3, h4, if_true, if_false, Bool.false_eq_true] at hu hl hs hp ⊢
            rcases hs with hs | ⟨k, hs⟩
            · simp at hs
            · simp only [List.cons.injEq, Prod.mk.injEq] at hs
              obtain ⟨⟨_, rfl⟩, hs⟩ := hs
              simp only [storeString]
              exact ih _ hu hl (Or.inl ⟨hs, rfl⟩) hp
          · simp only [h1, h2, h3, h4, if_true, if_false, Bool.false_eq_true] at hu hl hs hp ⊢
            exact ih _ hu hl hs hp

theorem Document_store_object (ok : GoString → Bool) (v : JValue) (d : Document)
    (h : DocumentObject ok v d) : Document.store ok Document.zero v = .ok d := by
  obtain ⟨ms, ku, kl, ks, kp, pm, m, rfl, hu, hl, hs, hp, hm, hd⟩ := h
  unfold Document.store storeStruct
  exact Document_members ok d ms Document.zero (Or.inr ⟨ku, hu⟩) (Or.inr ⟨kl, hl⟩)
    (Or.inr ⟨ks, hs⟩) (Or.inr ⟨kp, pm, m, hp, rfl, hm, hd⟩)

theorem storeElems_documents (ok : GoString → Bool) (ds : List JValue) (docs : List Document)
    (h : List.Forall₂ (DocumentObject ok) ds docs) :
    storeElems (Document.store ok Document.zero) ds = .ok docs := by
  induction h with
  | nil => rfl
  | cons hd _ ih =>
    unfold storeElems
    rw [Document_store_object ok _ _ hd, ih]

theorem Envelope_rest (ok : GoString → Bool) :
    ∀ (ms : List (GoString × JValue)) (cur : Option (List Document)),
      membersFor (str "data") ms = [] →
      storeMembers (Envelope.field ok) cur ms = .ok cur := by
  intro ms
  induction ms with
  | nil => intro cur _; rfl
  | cons m ms ih =>
    intro cur h
    obtain ⟨k0, v0⟩ := m
    rw [membersFor_cons] at h
    by_cases h1 : fieldMatch (str "data") k0 = true
    · simp [h1] at h
    · simp only [h1, if_false, Bool.false_eq_true] at h
      unfold storeMembers Envelope.field
      simp only [h1, if_false, Bool.false_eq_true]
      exact ih cur h

theorem Envelope_data (ok : GoString → Bool) (k : GoString) (ds : List JValue)
    (docs : List Document) (hdocs : storeElems (Document.store ok Document.zero) ds = .ok docs) :
    ∀ (ms : List (GoString × JValue)) (cur : Option (List Document)),
      membersFor (str "data") ms = [(k, .array ds)] →
      storeMembers (Envelope.field ok) cur ms = .ok (some docs) := by
  intro ms
  induction ms with
  | nil => intro cur h; simp [membersFor] at h
  | cons m ms ih =>
    intro cur h
    obtain ⟨k0, v0⟩ := m
    rw [membersFor_cons] at h
    by_cases h1 : fieldMatch (str "data") k0 = true
    · simp only [h1, if_true, List.cons.injEq, Prod.mk.injEq] at h
      obtain ⟨⟨_, rfl⟩, h⟩ := h
      unfold storeMembers Envelope.field
      simp only [h1, if_true, storeSlice, hdocs]
      exact Envelope_rest ok ms _ h
    · simp only [h1, if_false, Bool.false_eq_true] at h
      unfold storeMembers Envelope.field
      simp only [h1, if_false, Bool.false_eq_true]
      exact ih cur h


/-- C7 (as amended): GetPublicDocuments unwraps the envelope and
GetPublicDocument does not.  When the answer has status 200 and its body starts
with a JSON object in which exactly one member selects the field `data` (its
key is "data" up to the case of letters) and that member holds an array of
document objects, GetPublicDocuments returns the documents of the array, in
order and as many.  When the body of the answer to GetPublicDocument starts
with a document object, that document is returned. -/
theorem C7_public_documents (env : Env) (c : Client) (collectionUUID documentUUID : GoString) :
    (∀ (resp : Response) (ms : List (GoString × JValue)) (k : GoString) (ds : List JValue)
        (docs : List Document),
      env.parseURL (c.BaseURL ++ str "/api/v1/documents/collection/" ++ collectionUUID
        ++ str "?state=published") = none →
      c.HTTPClient.transport ⟨str "GET", c.BaseURL ++ str "/api/v1/documents/collection/"
        ++ collectionUUID ++ str "?state=published", [], .none⟩ = .ok resp →
      resp.StatusCode = 200 →
      readValue resp.Body = .ok (.object ms) →
      membersFor (str "data") ms = [(k, .array ds)] →
      List.Forall₂ (DocumentObject env.floatOK) ds docs →
      (GetPublicDocuments env c collectionUUID).1 = .ok (some docs)
      ∧ docs.length = ds.length)
    ∧ (∀ (resp : Response) (v : JValue) (doc : Document),
      env.parseURL (c.BaseURL ++ str "/api/v1/documents/collection/" ++ collectionUUID
        ++ str "/" ++ documentUUID) = none →
      c.HTTPClient.transport ⟨str "GET", c.BaseURL ++ str "/api/v1/documents/collection/"
        ++ collectionUUID ++ str "/" ++ documentUUID, [], .none⟩ = .ok resp →
      resp.StatusCode = 200 →
      readValue resp.Body = .ok v →
      DocumentObject env.floatOK v doc →
      (GetPublicDocument env c collectionUUID documentUUID).1 = .ok doc) := by
  constructor
  · intro resp ms k ds docs hurl hresp hstatus hbody hdata hdocs
    refine ⟨?_, (List.Forall₂.length_eq hdocs).symm⟩
    have h1 := Envelope_data env.floatOK k ds docs (storeElems_documents _ _ _ hdocs) ms none hdata
    simp only [GetPublicDocuments, NewRequest, hurl, HTTPClient.Do, hresp, hstatus, Decode, hbody,
      storeStruct, h1]
    simp
  · intro resp v doc hurl hresp hstatus hbody hdoc
    have h1 := Document_store_object env.floatOK v doc hdoc
    simp only [GetPublicDocument, NewRequest, hurl, HTTPClient.Do, hresp, hstatus, Decode, hbody,
      h1]
    simp

/-- Witness of C7 (as amended): the example of the specification. -/
theorem C7_public_documents_witness :
    (GetPublicDocuments demoEnv
      (demoClient (demoResponse 200 "200 OK"
        "\x7b\"data\":[\x7b\"uuid\":\"a1\",\"lang\":\"en\",\"state\":\"published\",\"payload\":\x7b\"title\":\"x\"\x7d\x7d]\x7d"))
      (str "c1")).1 = .ok (some [demoDocument])
    ∧ [demoDocument].length = 1 :=
  (C7_public_documents demoEnv
    (demoClient (demoResponse 200 "200 OK"
      "\x7b\"data\":[\x7b\"uuid\":\"a1\",\"lang\":\"en\",\"state\":\"published\",\"payload\":\x7b\"title\":\"x\"\x7d\x7d]\x7d"))
    (str "c1") (str "d1")).1 _
    [(str "data", .array [.object [(str "uuid", .string (str "a1")), (str "lang", .string (str "en")),
      (str "state", .string (str "published")),
      (str "payload", .object [(str "title", .string (str "x"))])]])]
    (str "data")
    [.object [(str "uuid", .string (str "a1")), (str "lang", .string (str "en")),
      (str "state", .string (str "published")),
      (str "payload", .object [(str "title", .string (str "x"))])]]
    [demoDocument] rfl rfl rfl rfl rfl
    (List.Forall₂.cons
      ⟨_, str "uuid", str "lang", str "state", str "payload", _, _, rfl, rfl, rfl, rfl, rfl, rfl,
        rfl⟩ List.Forall₂.nil)

/-- Counterexample to C7 as stated: the body has a member "data" holding an
array of one document object, and after it a member "Data" holding an empty
array; GetPublicDocuments returns no document. -/
theorem C7_counterexample :
    readValue (demoResponse 200 "200 OK"
        "\x7b\"data\":[\x7b\"uuid\":\"a1\",\"lang\":\"en\",\"state\":\"published\",\"payload\":\x7b\"title\":\"x\"\x7d\x7d],\"Data\":[]\x7d").Body
      = .ok (.object [(str "data", .array [.object [(str "uuid", .string (str "a1")),
          (str "lang", .string (str "en")), (str "state", .string (str "published")),
          (str "payload", .object [(str "title", .string (str "x"))])]]),
        (str "Data", .array [])])
    ∧ Document.store demoEnv.floatOK Document.zero (.object [(str "uuid", .string (str "a1")),
          (str "lang", .string (str "en")), (str "state", .string (str "published")),
          (str "payload", .object [(str "title", .string (str "x"))])]) = .ok demoDocument
    ∧ (GetPublicDocuments demoEnv
        (demoClient (demoResponse 200 "200 OK"
          "\x7b\"data\":[\x7b\"uuid\":\"a1\",\"lang\":\"en\",\"state\":\"published\",\"payload\":\x7b\"title\":\"x\"\x7d\x7d],\"Data\":[]\x7d"))
        (str "c1")).1 = .ok (some [])
    ∧ (GetPublicDocuments demoEnv
        (demoClient (demoResponse 200 "200 OK"
          "\x7b\"data\":[\x7b\"uuid\":\"a1\",\"lang\":\"en\",\"state\":\"published\",\"payload\":\x7b\"title\":\"x\"\x7d\x7d],\"Data\":[]\x7d"))
        (str "c1")).1 ≠ .ok (some [demoDocument]) := by
  refine ⟨rfl, rfl, rfl, ?_⟩
  intro h
  have h2 : (GetPublicDocuments demoEnv
      (demoClient (demoResponse 200 "200 OK"
        "\x7b\"data\":[\x7b\"uuid\":\"a1\",\"lang\":\"en\",\"state\":\"published\",\"payload\":\x7b\"title\":\"x\"\x7d\x7d],\"Data\":[]\x7d"))
      (str "c1")).1 = .ok (some []) := rfl
  rw [h2] at h
  simp at h


/-! ## The claims on JSON: the round trip of a collection -/

theorem DecodeRune_take4 (p : List Nat) : DecodeRune (p.take 4) = DecodeRune p := by
  match p with
  | [] => rfl
  | [_] => rfl
  | [_, _] => rfl
  | [_, _, _] => rfl
  | _ :: _ :: _ :: _ :: _ => rfl

theorem DecodeRune_valid (b : Nat) (t : List Nat) (hb : 128 ≤ b)
    (hv : ¬ ((DecodeRune (b :: t)).1 = RuneError ∧ (DecodeRune (b :: t)).2 = 1)) :
    EncodeRune (DecodeRune (b :: t)).1 = (b :: t).take (DecodeRune (b :: t)).2
    ∧ 2 ≤ (DecodeRune (b :: t)).2
    ∧ (DecodeRune (b :: t)).2 ≤ (b :: t).length
    ∧ 128 ≤ (DecodeRune (b :: t)).1
    ∧ ¬ (55296 ≤ (DecodeRune (b :: t)).1 ∧ (DecodeRune (b :: t)).1 < 57344)
    ∧ ∀ q, DecodeRune ((b :: t).take (DecodeRune (b :: t)).2 ++ q) = DecodeRune (b :: t) := by
  unfold DecodeRune at hv ⊢
  have h128 : ¬ b < 128 := by omega
  simp only [h128, if_false] at hv ⊢
  by_cases h1 : b < 194 ∨ 244 < b
  · simp [h1] at hv
  · simp only [h1, if_false] at hv ⊢
    by_cases h2 : b < 224
    · simp only [h2, if_true] at hv ⊢
      match t, hv with
      | [], hv => simp at hv
      | b1 :: t1, hv =>
        by_cases h3 : 128 ≤ b1 ∧ b1 ≤ 191
        · simp only [h3, and_self, if_true] at hv ⊢
          refine ⟨?_, by omega, by simp, by omega, by omega, ?_⟩
          · unfold EncodeRune
            have : ¬ (b % 32 * 64 + b1 % 64 < 128) := by omega
            have : b % 32 * 64 + b1 % 64 < 2048 := by omega
            simp only [*, if_true, if_false, List.take, List.cons.injEq, and_true]
            omega
          · intro q
            simp [DecodeRune, h128, h1, h2, h3]
        · simp [h3] at hv
    · simp only [h2, if_false] at hv ⊢
      by_cases h4 : b < 240
      · simp only [h4, if_true] at hv ⊢
        match t, hv with
        | [], hv => simp at hv
        | [_], hv => simp at hv
        | b1 :: b2 :: t2, hv =>
          by_cases h3 : (if b = 224 then 160 else 128) ≤ b1 ∧ b1 ≤ (if b = 237 then 159 else 191)
              ∧ 128 ≤ b2 ∧ b2 ≤ 191
          · simp only [h3, and_self, if_true] at hv ⊢
            obtain ⟨h5, h6, h7, h8⟩ := h3
            have h9 : 128 ≤ b1 ∧ b1 ≤ 191 ∧ (b = 224 → 160 ≤ b1) ∧ (b = 237 → b1 ≤ 159) := by
              refine ⟨?_, ?_, ?_, ?_⟩
              · split at h5 <;> omega
              · split at h6 <;> omega
              · intro hb2; simp only [hb2, if_true] at h5; exact h5
              · intro hb2; simp only [hb2, if_true] at h6; exact h6
            clear h5 h6
            obtain ⟨h5, h6, h10, h11⟩ := h9
            refine ⟨?_, by omega, by simp, by omega, by omega, ?_⟩
            · unfold EncodeRune
              have e1 : ¬ (b % 16 * 4096 + b1 % 64 * 64 + b2 % 64 < 128) := by omega
              have e2 : ¬ (b % 16 * 4096 + b1 % 64 * 64 + b2 % 64 < 2048) := by omega
              have e3 : ¬ (1114111 < b % 16 * 4096 + b1 % 64 * 64 + b2 % 64
                  ∨ (55296 ≤ b % 16 * 4096 + b1 % 64 * 64 + b2 % 64
                    ∧ b % 16 * 4096 + b1 % 64 * 64 + b2 % 64 < 57344)) := by omega
              have e4 : b % 16 * 4096 + b1 % 64 * 64 + b2 % 64 < 65536 := by omega
              simp only [e1, e2, e3, e4, if_true, if_false, List.take, List.cons.injEq, and_true]
              omega
            · intro q
              have h3b : (if b = 224 then 160 else 128) ≤ b1 ∧ b1 ≤ (if b = 237 then 159 else 191)
                  ∧ 128 ≤ b2 ∧ b2 ≤ 191 := by
                refine ⟨?_, ?_, h7, h8⟩
                · split <;> omega
                · split <;> omega
              simp [DecodeRune, h128, h1, h2, h4, h3b]
          · simp [h3] at hv
      · simp only [h4, if_false] at hv ⊢
        match t, hv with
        | [], hv => simp at hv
        | [_], hv => simp at hv
        | [_, _], hv => simp at hv
        | b1 :: b2 :: b3 :: t3, hv =>
          by_cases h3 : (if b = 240 then 144 else 128) ≤ b1 ∧ b1 ≤ (if b = 244 then 143 else 191)
              ∧ 128 ≤ b2 ∧ b2 ≤ 191 ∧ 128 ≤ b3 ∧ b3 ≤ 191
          · simp only [h3, and_self, if_true] at hv ⊢
            obtain ⟨h5, h6, h7, h8, h12, h13⟩ := h3
            have h9 : 128 ≤ b1 ∧ b1 ≤ 191 ∧ (b = 240 → 144 ≤ b1) ∧ (b = 244 → b1 ≤ 143) := by
              refine ⟨?_, ?_, ?_, ?_⟩
              · split at h5 <;> omega
              · split at h6 <;> omega
              · intro hb2; simp only [hb2, if_true] at h5; exact h5
              · intro hb2; simp only [hb2, if_true] at h6; exact h6
            clear h5 h6
            obtain ⟨h5, h6, h10, h11⟩ := h9
            refine ⟨?_, by omega, by simp, by omega, by omega, ?_⟩
            · unfold EncodeRune
              have e1 : ¬ (b % 8 * 262144 + b1 % 64 * 4096 + b2 % 64 * 64 + b3 % 64 < 128) := by
                omega
              have e2 : ¬ (b % 8 * 262144 + b1 % 64 * 4096 + b2 % 64 * 64 + b3 % 64 < 2048) := by
                omega
              have e3 : ¬ (1114111 < b % 8 * 262144 + b1 % 64 * 4096 + b2 % 64 * 64 + b3 % 64
                  ∨ (55296 ≤ b % 8 * 262144 + b1 % 64 * 4096 + b2 % 64 * 64 + b3 % 64
                    ∧ b % 8 * 262144 + b1 % 64 * 4096 + b2 % 64 * 64 + b3 % 64 < 57344)) := by
                omega
              have e4 : ¬ (b % 8 * 262144 + b1 % 64 * 4096 + b2 % 64 * 64 + b3 % 64 < 65536) := by
                omega
              simp only [e1, e2, e3, e4, if_true, if_false, List.take, List.cons.injEq, and_true]
              omega
            · intro q
              have h3b : (if b = 240 then 144 else 128) ≤ b1 ∧ b1 ≤ (if b = 244 then 143 else 191)
                  ∧ 128 ≤ b2 ∧ b2 ≤ 191 ∧ 128 ≤ b3 ∧ b3 ≤ 191 := by
                refine ⟨?_, ?_, h7, h8, h12, h13⟩
                · split <;> omega
                · split <;> omega
              simp [DecodeRune, h128, h1, h2, h4, h3b]
          · simp [h3] at hv


theorem push_ok (bs v rest : List Nat) : (Parsed.ok v rest).push bs = .ok (bs ++ v) rest := rfl

theorem scan_escape (b : Nat) (hb : b < 128) (hs : htmlSafe b = false) (X : List Nat) (f : Nat) :
    scanStringAux (f + 1) (escapeByte b ++ X) = (scanStringAux f X).push [b] := by
  interval_cases b <;> first
    | exact absurd hs (by decide)
    | rfl

theorem scan_safe (b : Nat) (hb : b < 128) (hs : htmlSafe b = true) (X : List Nat) (f : Nat) :
    scanStringAux (f + 1) (b :: X) = (scanStringAux f X).push [b] := by
  interval_cases b <;> first
    | exact absurd hs (by decide)
    | rfl

theorem escapeByte_length (b : Nat) : 1 ≤ (escapeByte b).length := by
  unfold escapeByte
  repeat' split
  all_goals simp

theorem scan_line_separator (r : Nat) (hr : r = 8232 ∨ r = 8233) (X : List Nat) (f : Nat) :
    scanStringAux (f + 1) ([92, 117, 50, 48, 50, hexDigit (r % 16)] ++ X)
      = (scanStringAux f X).push (EncodeRune r) := by
  rcases hr with rfl | rfl <;> rfl

theorem scan_rune (b : Nat) (t Z : List Nat) (f : Nat) (hb : 128 ≤ b)
    (hv : ¬ ((DecodeRune (b :: t)).1 = RuneError ∧ (DecodeRune (b :: t)).2 = 1)) :
    scanStringAux (f + 1) ((b :: t).take (DecodeRune (b :: t)).2 ++ Z)
      = (scanStringAux f Z).push ((b :: t).take (DecodeRune (b :: t)).2) := by
  obtain ⟨h1, h2, h3, _, _, h6⟩ := DecodeRune_valid b t hb hv
  have h7 := h6 Z
  obtain ⟨k, hk⟩ : ∃ k, (DecodeRune (b :: t)).2 = k + 1 := ⟨(DecodeRune (b :: t)).2 - 1, by omega⟩
  have h8 : (b :: t).take (DecodeRune (b :: t)).2 ++ Z = b :: (t.take k ++ Z) := by
    rw [hk]; rfl
  rw [h8] at h7 ⊢
  have h9 : (b :: (t.take k ++ Z)).drop (DecodeRune (b :: t)).2 = Z := by
    rw [← h8]
    apply List.drop_left'
    rw [List.length_take]
    omega
  rw [scanStringAux.eq_def]
  have e1 : ¬ b = 34 := by omega
  have e2 : ¬ b = 92 := by omega
  have e3 : ¬ b < 32 := by omega
  have e4 : ¬ b < 128 := by omega
  simp only [e1, e2, e3, e4, if_false, h7, h9, h1]

theorem scanString_appendString (n : Nat) : ∀ (s rest : List Nat) (fuel : Nat),
    validAux n s = true → (appendStringAux n s ++ 34 :: rest).length < fuel →
    scanStringAux fuel (appendStringAux n s ++ 34 :: rest) = .ok s rest := by
  induction n with
  | zero =>
    intro s rest fuel hv hf
    cases s with
    | nil =>
      obtain ⟨f, rfl⟩ : ∃ f, fuel = f + 1 := ⟨fuel - 1, by omega⟩
      rfl
    | cons b t => simp [validAux] at hv
  | succ n ih =>
    intro s rest fuel hv hf
    obtain ⟨f, rfl⟩ : ∃ f, fuel = f + 1 := ⟨fuel - 1, by omega⟩
    cases s with
    | nil => rfl
    | cons b t =>
      unfold validAux at hv
      unfold appendStringAux at hf ⊢
      by_cases hb : b < 128
      · simp only [hb, if_true] at hv hf ⊢
        by_cases hs : htmlSafe b = true
        · simp only [hs, if_true, List.append_assoc, List.singleton_append, List.length_cons,
            List.cons_append, List.nil_append] at hf ⊢
          rw [scan_safe b hb hs, ih t rest f hv (by omega)]
          rfl
        · have hs2 : htmlSafe b = false := by simpa using hs
          have hl := escapeByte_length b
          simp only [hs2, Bool.false_eq_true, if_false, List.append_assoc, List.length_append]
            at hf ⊢
          rw [scan_escape b hb hs2, ih t rest f hv (by simp only [List.length_append]; omega)]
          rfl
      · simp only [hb, if_false, DecodeRune_take4] at hv hf ⊢
        by_cases hi : (DecodeRune (b :: t)).1 = RuneError ∧ (DecodeRune (b :: t)).2 = 1
        · simp [hi] at hv
        · simp only [hi, if_false, Bool.false_eq_true] at hv hf ⊢
          obtain ⟨h1, h2, h3, _, _, _⟩ := DecodeRune_valid b t (by omega) hi
          by_cases hl : (DecodeRune (b :: t)).1 = 8232 ∨ (DecodeRune (b :: t)).1 = 8233
          · simp only [hl, if_true, List.append_assoc, List.length_append] at hf ⊢
            rw [scan_line_separator _ hl, ih _ rest f hv (by
              simp only [List.length_append, List.length_cons, List.length_nil] at hf ⊢; omega),
              push_ok, h1, List.take_append_drop]
          · simp only [hl, if_false, List.append_assoc, List.length_append] at hf ⊢
            have hlen : 1 ≤ ((b :: t).take (DecodeRune (b :: t)).2).length := by
              rw [List.length_take]
              simp only [List.length_cons] at h3 ⊢
              omega
            rw [scan_rune b t _ f (by omega) hi, ih _ rest f hv (by
              simp only [List.length_append] at hf ⊢; omega),
              push_ok, List.take_append_drop]

theorem scanString_quoted (s rest : List Nat) (hv : Valid s = true) :
    scanString (appendStringAux s.length s ++ 34 :: rest) = .ok s rest :=
  scanString_appendString s.length s rest _ hv (Nat.lt_succ_self _)


theorem scanValue_string (n d : Nat) (s rest : List Nat) (hv : Valid s = true) :
    scanValue (n + 1) d (appendString s ++ rest) = .ok (.string s) rest := by
  unfold appendString
  simp only [List.append_assoc, List.singleton_append, List.cons_append, List.nil_append]
  rw [scanValue]
  simp [skipSpace, isSpace, scanString_quoted _ _ hv, Parsed.map]

theorem scanValue_bool (n d : Nat) (b : Bool) (rest : List Nat) :
    scanValue (n + 1) d (appendBool b ++ rest) = .ok (.bool b) rest := by
  cases b <;> rfl

theorem scanValue_null (n d : Nat) (rest : List Nat) :
    scanValue (n + 1) d (str "null" ++ rest) = .ok .null rest := rfl

theorem scanValue_object (n d : Nat) (k X : List Nat) (hd : d < 10000) :
    scanValue (n + 1) d (123 :: (appendString k ++ X))
      = (scanMembers n (d + 1) (appendString k ++ X)).map JValue.object := by
  unfold appendString
  simp only [List.append_assoc, List.singleton_append, List.cons_append, List.nil_append]
  rw [scanValue]
  have h : ¬ maxNestingDepth ≤ d := by unfold maxNestingDepth; omega
  simp [skipSpace, isSpace, h]

theorem scanValue_array (n d : Nat) (X : List Nat) (hd : d < 10000) :
    scanValue (n + 1) d (91 :: 123 :: X)
      = (scanElems n (d + 1) (123 :: X)).map JValue.array := by
  rw [scanValue]
  have h : ¬ maxNestingDepth ≤ d := by unfold maxNestingDepth; omega
  simp [skipSpace, isSpace, h]

theorem scanValue_empty_array (n d : Nat) (X : List Nat) (hd : d < 10000) :
    scanValue (n + 1) d (91 :: 93 :: X) = .ok (.array []) X := by
  rw [scanValue]
  have h : ¬ maxNestingDepth ≤ d := by unfold maxNestingDepth; omega
  simp [skipSpace, isSpace, h]

theorem scanMembers_key (n d : Nat) (k X : List Nat) (hk : Valid k = true) :
    scanMembers (n + 1) d (appendString k ++ 58 :: X)
      = match scanValue n d X with
        | .invalid => .invalid
        | .incomplete => .incomplete
        | .ok v r2 =>
          match skipSpace r2 with
          | [] => .incomplete
          | c :: w =>
            if c = 44 then (scanMembers n d w).map (fun ms => (k, v) :: ms)
            else if c = 125 then .ok [(k, v)] w
            else .invalid := by
  unfold appendString
  simp only [List.append_assoc, List.singleton_append, List.cons_append, List.nil_append]
  rw [scanMembers]
  simp [skipSpace, isSpace, scanString_quoted _ _ hk]

theorem skipSpace_comma (X : List Nat) : skipSpace (44 :: X) = 44 :: X := rfl

theorem skipSpace_brace (X : List Nat) : skipSpace (125 :: X) = 125 :: X := rfl

theorem skipSpace_bracket (X : List Nat) : skipSpace (93 :: X) = 93 :: X := rfl

theorem marshal_literals :
    str "\x7b\"name\":" = 123 :: (appendString (str "name") ++ [58])
    ∧ str ",\"type\":" = 44 :: (appendString (str "type") ++ [58])
    ∧ str ",\"display_name\":" = 44 :: (appendString (str "display_name") ++ [58])
    ∧ str ",\"required\":" = 44 :: (appendString (str "required") ++ [58])
    ∧ str ",\"unique\":true" = 44 :: (appendString (str "unique") ++ 58 :: appendBool true)
    ∧ str "\x7d" = [125]
    ∧ str "\x7b\"uuid\":" = 123 :: (appendString (str "uuid") ++ [58])
    ∧ str ",\"name\":" = 44 :: (appendString (str "name") ++ [58])
    ∧ str ",\"description\":" = 44 :: (appendString (str "description") ++ [58])
    ∧ str ",\"is_public\":" = 44 :: (appendString (str "is_public") ++ [58])
    ∧ str ",\"fields\":" = 44 :: (appendString (str "fields") ++ [58]) := by
  refine ⟨?_, ?_, ?_, ?_, ?_, ?_, ?_, ?_, ?_, ?_, ?_⟩ <;> decide

theorem valid_keys :
    Valid (str "name") = true ∧ Valid (str "type") = true ∧ Valid (str "display_name") = true
    ∧ Valid (str "required") = true ∧ Valid (str "unique") = true ∧ Valid (str "uuid") = true
    ∧ Valid (str "description") = true ∧ Valid (str "is_public") = true
    ∧ Valid (str "fields") = true := by
  refine ⟨?_, ?_, ?_, ?_, ?_, ?_, ?_, ?_, ?_⟩ <;> decide

theorem CollectionField_scan (f : CollectionField) (rest : List Nat) (n d : Nat)
    (hv : f.valid = true) (hd : d < 10000) :
    scanValue (n + 8) d (f.marshal ++ rest) = .ok f.toJSON rest := by
  obtain ⟨l1, l2, l3, l4, l5, l6, _⟩ := marshal_literals
  obtain ⟨v1, v2, v3, v4, v5, _⟩ := valid_keys
  unfold CollectionField.valid at hv
  simp only [Bool.and_eq_true] at hv
  obtain ⟨⟨h1, h2⟩, h3⟩ := hv
  unfold CollectionField.marshal CollectionField.toJSON
  rw [l1, l2, l3, l4, l6]
  cases f.Unique
  · simp only [Bool.false_eq_true, if_false, List.append_assoc, List.singleton_append,
      List.cons_append, List.nil_append, List.append_nil]
    rw [scanValue_object _ _ _ _ hd]
    simp only [scanMembers_key, scanValue_string, scanValue_bool, v1, v2, v3, v4, h1, h2, h3,
      skipSpace_comma, skipSpace_brace, if_true, Parsed.map]
    simp
  · rw [l5]
    simp only [if_true, List.append_assoc, List.singleton_append,
      List.cons_append, List.nil_append, List.append_nil]
    rw [scanValue_object _ _ _ _ hd]
    simp only [scanMembers_key, scanValue_string, scanValue_bool, v1, v2, v3, v4, v5, h1, h2, h3,
      skipSpace_comma, skipSpace_brace, if_true, Parsed.map]
    simp


theorem CollectionField_marshal_head (f : CollectionField) :
    ∃ T, f.marshal = 123 :: T ∧ 1 ≤ f.marshal.length := by
  obtain ⟨l1, _⟩ := marshal_literals
  unfold CollectionField.marshal
  rw [l1]
  simp only [List.append_assoc, List.cons_append]
  exact ⟨_, rfl, by simp⟩

theorem joinComma_head (f : CollectionField) (fs : List CollectionField) :
    ∃ T, joinComma ((f :: fs).map CollectionField.marshal) = 123 :: T := by
  obtain ⟨T, hT, _⟩ := CollectionField_marshal_head f
  cases fs with
  | nil => exact ⟨T, by simp [joinComma, hT]⟩
  | cons g gs =>
    refine ⟨T ++ ([44] ++ joinComma (List.map CollectionField.marshal (g :: gs))), ?_⟩
    simp [joinComma, hT]

theorem joinComma_length : ∀ (fs : List CollectionField),
    fs.length ≤ (joinComma (fs.map CollectionField.marshal)).length := by
  intro fs
  induction fs with
  | nil => simp [joinComma]
  | cons f fs ih =>
    obtain ⟨_, _, h⟩ := CollectionField_marshal_head f
    cases fs with
    | nil => simpa [joinComma] using h
    | cons g gs =>
      simp only [List.map_cons, joinComma, List.length_append, List.length_cons] at ih ⊢
      simp only [List.length_nil]
      omega

theorem fields_scan : ∀ (fs : List CollectionField) (f : CollectionField) (rest : List Nat)
    (n d : Nat), (f :: fs).all CollectionField.valid = true → d < 10000 →
    scanElems (n + fs.length + 9) d
        (joinComma ((f :: fs).map CollectionField.marshal) ++ 93 :: rest)
      = .ok ((f :: fs).map CollectionField.toJSON) rest := by
  intro fs
  induction fs with
  | nil =>
    intro f rest n d hv hd
    simp only [List.all_cons, List.all_nil, Bool.and_true] at hv
    simp only [List.length_nil, Nat.add_zero, List.map_cons, List.map_nil, joinComma]
    rw [scanElems, CollectionField_scan f _ n d hv hd]
    simp [skipSpace_bracket]
  | cons g gs ih =>
    intro f rest n d hv hd
    rw [List.all_cons, Bool.and_eq_true] at hv
    have e : n + (g :: gs).length + 9 = (n + gs.length + 1 + 8) + 1 := by
      simp only [List.length_cons]; omega
    rw [e]
    simp only [List.map_cons, joinComma, List.append_assoc, List.singleton_append]
    rw [scanElems, CollectionField_scan f _ _ d hv.1 hd]
    have e2 : n + gs.length + 1 + 8 = n + gs.length + 9 := by omega
    simp only [List.cons_append, skipSpace_comma, if_true, e2]
    have h := ih g rest n d hv.2 hd
    simp only [List.map_cons] at h
    rw [h]
    rfl

theorem fields_value_scan (fields : Option (List CollectionField)) (Y : List Nat) (N d : Nat)
    (hv : (fields.getD []).all CollectionField.valid = true)
    (hd : d < 9999)
    (hN : (fields.getD []).length + 10 ≤ N) :
    scanValue N d (appendSlice CollectionField.marshal fields ++ Y)
      = .ok (fieldsToJSON fields) Y := by
  cases fields with
  | none =>
    obtain ⟨n, rfl⟩ : ∃ n, N = n + 1 := ⟨N - 1, by omega⟩
    exact scanValue_null n d Y
  | some fs =>
    simp only [Option.getD_some] at hN hv
    cases fs with
    | nil =>
      obtain ⟨n, rfl⟩ : ∃ n, N = n + 1 := ⟨N - 1, by omega⟩
      exact scanValue_empty_array n d Y (by omega)
    | cons f gs =>
      obtain ⟨n, rfl⟩ : ∃ n, N = (n + gs.length + 9) + 1 :=
        ⟨N - gs.length - 10, by simp only [List.length_cons] at hN; omega⟩
      obtain ⟨T, hT⟩ := joinComma_head f gs
      have h := fields_scan gs f Y n (d + 1) hv (by omega)
      unfold appendSlice
      simp only [List.append_assoc, List.singleton_append, List.cons_append, List.nil_append]
      rw [hT] at h ⊢
      simp only [List.cons_append] at h ⊢
      rw [scanValue_array _ _ _ (by omega), h]
      rfl

theorem Collection_scan (c : Collection) (rest : List Nat) (N : Nat)
    (hv : c.valid = true)
    (hN : (c.Fields.getD []).length + 20 ≤ N) :
    scanValue N 0 (Collection.marshal (some c) ++ rest) = .ok c.toJSON rest := by
  obtain ⟨_, _, l3, _, _, l6, l7, l8, l9, l10, l11⟩ := marshal_literals
  obtain ⟨v1, _, v3, _, _, v6, v7, v8, v9⟩ := valid_keys
  unfold Collection.valid at hv
  simp only [Bool.and_eq_true] at hv
  obtain ⟨⟨⟨⟨h1, h2⟩, h3⟩, h4⟩, h5⟩ := hv
  obtain ⟨n, rfl⟩ : ∃ n, N = n + 8 := ⟨N - 8, by omega⟩
  unfold Collection.marshal Collection.toJSON
  rw [l3, l6, l7, l8, l9, l10, l11]
  simp only [List.append_assoc, List.singleton_append, List.cons_append, List.nil_append,
    List.append_nil]
  rw [scanValue_object _ _ _ _ (by omega)]
  simp only [scanMembers_key, scanValue_string, scanValue_bool, v1, v3, v6, v7, v8, v9,
    h1, h2, h3, h4, skipSpace_comma, skipSpace_brace, if_true, Parsed.map]
  rw [fields_value_scan c.Fields _ _ _ h5 (by omega) (by omega)]
  simp [skipSpace_brace, Parsed.map]

theorem CollectionField_store_toJSON (f : CollectionField) :
    CollectionField.store CollectionField.zero f.toJSON = .ok f := by
  obtain ⟨a, b, c, d, e⟩ := f
  cases e <;> rfl

theorem CollectionField_storeElems : ∀ (fs : List CollectionField),
    storeElems (CollectionField.store CollectionField.zero) (fs.map CollectionField.toJSON)
      = .ok fs := by
  intro fs
  induction fs with
  | nil => rfl
  | cons f fs ih =>
    simp only [List.map_cons, storeElems, CollectionField_store_toJSON, ih]

theorem Collection_field_fields (cur : Collection) (v : JValue)
    (x : Option (List CollectionField))
    (h : storeSlice (CollectionField.store CollectionField.zero) v = .ok x) :
    Collection.field cur (str "fields") v = .ok { cur with Fields := x } := by
  have e1 : fieldMatch (str "uuid") (str "fields") = false := by decide
  have e2 : fieldMatch (str "name") (str "fields") = false := by decide
  have e3 : fieldMatch (str "display_name") (str "fields") = false := by decide
  have e4 : fieldMatch (str "description") (str "fields") = false := by decide
  have e5 : fieldMatch (str "is_public") (str "fields") = false := by decide
  have e6 : fieldMatch (str "fields") (str "fields") = true := by decide
  unfold Collection.field
  simp only [e1, e2, e3, e4, e5, e6, if_true, if_false, Bool.false_eq_true, h]

theorem Collection_store_toJSON (c : Collection) :
    Collection.store Collection.zero c.toJSON = .ok c := by
  obtain ⟨a, b, c2, d, e, fields⟩ := c
  have h1 : ∀ (cur : Collection) (x : GoString),
      Collection.field cur (str "uuid") (.string x) = .ok { cur with UUID := x } :=
    fun _ _ => rfl
  have h2 : ∀ (cur : Collection) (x : GoString),
      Collection.field cur (str "name") (.string x) = .ok { cur with Name := x } :=
    fun _ _ => rfl
  have h3 : ∀ (cur : Collection) (x : GoString),
      Collection.field cur (str "display_name") (.string x)
        = .ok { cur with DisplayName := x } :=
    fun _ _ => rfl
  have h4 : ∀ (cur : Collection) (x : GoString),
      Collection.field cur (str "description") (.string x)
        = .ok { cur with Description := x } :=
    fun _ _ => rfl
  have h5 : ∀ (cur : Collection) (x : Bool),
      Collection.field cur (str "is_public") (.bool x) = .ok { cur with IsPublic := x } :=
    fun _ _ => rfl
  have h6 : storeSlice (CollectionField.store CollectionField.zero) (fieldsToJSON fields)
      = .ok fields := by
    cases fields with
    | none => rfl
    | some fs => simp only [fieldsToJSON, storeSlice, CollectionField_storeElems]
  simp only [Collection.store, storeStruct, Collection.toJSON, storeMembers, h1, h2, h3, h4, h5,
    Collection_field_fields _ _ _ h6, Collection.zero]

theorem Collection_marshal_length (c : Collection) :
    (c.Fields.getD []).length + 20 ≤ (Collection.marshal (some c)).length + 1 := by
  have h : (c.Fields.getD []).length ≤ (appendSlice CollectionField.marshal c.Fields).length := by
    cases c.Fields with
    | none => simp
    | some fs =>
      have := joinComma_length fs
      simp only [Option.getD_some, appendSlice, List.length_append, List.length_cons,
        List.length_nil]
      omega
  have l1 : (str "\x7b\"uuid\":").length = 8 := by decide
  have l2 : (str ",\"name\":").length = 8 := by decide
  have l3 : (str ",\"display_name\":").length = 16 := by decide
  unfold Collection.marshal
  simp only [List.length_append, l1, l2, l3]
  omega

theorem Collection_roundtrip (c : Collection) (err : Option Nat) (hv : c.valid = true) :
    Decode (Collection.store Collection.zero) ⟨Collection.marshal (some c), err⟩ = .ok c := by
  have h := Collection_scan c [] (2 * (Collection.marshal (some c)).length + 1) hv
    (by have := Collection_marshal_length c; omega)
  rw [List.append_nil] at h
  unfold Decode readValue
  simp only [h]
  unfold Collection.toJSON
  simp only
  exact Collection_store_toJSON c


/-- C8 (as amended): round trip through CreateCollection for a Collection whose
strings are valid UTF-8.  If CreateCollection hands the request `req` to the
transport, the answer has status 200 or 201 and its body is equal to the body
of `req`, then CreateCollection returns a Collection equal to the one passed in:
every string, the public flag, and the list of fields in the same order, with
the unique flag of each field restored although it is left out of the JSON when
false. -/
theorem C8_create_collection_roundtrip (env : Env) (c : Client) (col : Collection)
    (req : Request) (resp : Response)
    (hvalid : col.valid = true)
    (hsent : requests (CreateCollection env c (some col)).2 = [req])
    (hresp : c.HTTPClient.transport req = .ok resp)
    (hstatus : resp.StatusCode = 200 ∨ resp.StatusCode = 201)
    (hecho : RequestBody.bytes resp.Body.data = req.Body) :
    (CreateCollection env c (some col)).1 = .ok col := by
  have hround := Collection_roundtrip col resp.Body.err hvalid
  have hs : ¬ (resp.StatusCode ≠ 200 ∧ resp.StatusCode ≠ 201) := by omega
  simp only [CreateCollection] at hsent ⊢
  by_cases ht : c.APIToken = []
  · simp [ht, requests] at hsent
  · simp only [ht, if_false] at hsent ⊢
    cases hn : NewRequest env (str "POST") (c.BaseURL ++ str "/api/v1/collections")
        (.bytes (Collection.marshal (some col))) with
    | error e => simp [hn, requests] at hsent
    | ok r =>
      obtain ⟨_, rfl⟩ := (NewRequest_ok _ _ _ _ _).1 hn
      simp only [hn] at hsent ⊢
      have hreq : req = (Request.Set (Request.Set
          { Method := str "POST", URL := c.BaseURL ++ str "/api/v1/collections", Header := [],
            Body := .bytes (Collection.marshal (some col)) }
          (str "Authorization") (str "Bearer " ++ c.APIToken))
          (str "Content-Type") (str "application/json")) := by
        repeat' split at hsent
        all_goals simp only [requests, List.cons.injEq, and_true] at hsent
        all_goals exact hsent.symm
      rw [← hreq]
      have hbody : resp.Body = ⟨Collection.marshal (some col), resp.Body.err⟩ := by
        rw [hreq] at hecho
        simp only [Request.Set, RequestBody.bytes.injEq] at hecho
        cases hb : resp.Body
        simp only [hb] at hecho
        simp [hecho]
      simp only [HTTPClient.Do, hresp, hs, if_false]
      rw [hbody, hround]

set_option maxRecDepth 100000 in
/-- Witness of C8 (as amended): the case of the specification, a Collection
with the single field (name "title", type "text", required), echoed by the
server. -/
theorem C8_create_collection_roundtrip_witness :
    demoCollection.valid = true
    ∧ Collection.marshal (some demoCollection)
      = str "\x7b\"uuid\":\"\",\"name\":\"articles\",\"display_name\":\"Articles\",\"description\":\"\",\"is_public\":false,\"fields\":[\x7b\"name\":\"title\",\"type\":\"text\",\"display_name\":\"\",\"required\":true\x7d]\x7d"
    ∧ (CreateCollection demoEnv echoClient (some demoCollection)).1 = .ok demoCollection :=
  ⟨by decide, by decide,
   C8_create_collection_roundtrip demoEnv echoClient demoCollection
    ⟨str "POST", str "https://api.contentzen.io/api/v1/collections",
      [(str "Authorization", str "Bearer secret"), (str "Content-Type", str "application/json")],
      .bytes (Collection.marshal (some demoCollection))⟩
    ⟨str "201 Created", 201, ⟨Collection.marshal (some demoCollection), none⟩⟩
    (by decide) (by decide) rfl (Or.inr rfl) rfl⟩

set_option maxRecDepth 100000 in
/-- Counterexample to C8 as stated: a Collection whose name is the byte 0xFF.
`json.Marshal` writes the name as the escape of U+FFFD, the server echoes the
body, and the Collection returned has the three-byte name EF BF BD. -/
theorem C8_counterexample :
    requests (CreateCollection demoEnv echoClient (some latin1Collection)).2
      = [⟨str "POST", str "https://api.contentzen.io/api/v1/collections",
          [(str "Authorization", str "Bearer secret"),
           (str "Content-Type", str "application/json")],
          .bytes (str "\x7b\"uuid\":\"\",\"name\":\"\\ufffd\",\"display_name\":\"\",\"description\":\"\",\"is_public\":false,\"fields\":null\x7d")⟩]
    ∧ (CreateCollection demoEnv echoClient (some latin1Collection)).1
      = .ok { latin1Collection with Name := [239, 191, 189] }
    ∧ (CreateCollection demoEnv echoClient (some latin1Collection)).1
      ≠ .ok latin1Collection := by
  refine ⟨by decide, rfl, ?_⟩
  intro h
  have h2 : (CreateCollection demoEnv echoClient (some latin1Collection)).1
      = .ok { latin1Collection with Name := [239, 191, 189] } := rfl
  rw [h2] at h
  exact absurd (Except.ok.inj h) (by decide)


/-! ## The claims on the upload -/

/-- What UploadMedia hands the transport for a client with a credential and a
file that opens and reads to its end: one POST whose body is a closed multipart
form with exactly one part, named "file", whose content is exactly the bytes of
the file and whose file name is the path as it was passed to the method. -/
theorem UploadMedia_form (env : Env) (c : Client) (p data : GoString)
    (htoken : c.APIToken ≠ [])
    (hfile : env.openFile p = .ok ⟨data, none⟩)
    (hurl : env.parseURL (c.BaseURL ++ str "/api/v1/media/upload") = none) :
    (UploadMedia env c p).2 = [.Open p,
      .Do { Method := str "POST"
            URL := c.BaseURL ++ str "/api/v1/media/upload"
            Header := [(str "Authorization", str "Bearer " ++ c.APIToken),
              (str "Content-Type", str "multipart/form-data; boundary=" ++ env.boundary)]
            Body := .form ⟨env.boundary, [⟨str "file", p, data⟩], true⟩ }] := by
  simp only [UploadMedia, htoken, if_false, Env.Open, hfile, Stream.failure, NewRequest, hurl,
    Set_Set_new]
  repeat' split
  all_goals rfl

/-- C9, a defect of the code: UploadMedia names the part with `file.Name()`,
which is the path the file was opened with, where the base name is meant.  For
the readable path `/tmp/images/cat.png` the form that is posted has exactly one
part, named "file", with the bytes of the file, but its file name is
`/tmp/images/cat.png` and not the base name `cat.png`. -/
theorem C9_upload_sends_full_path :
    (UploadMedia demoEnv (demoClient (demoResponse 201 "201 Created" "\x7b\x7d"))
        (str "/tmp/images/cat.png")).2
      = [.Open (str "/tmp/images/cat.png"),
         .Do ⟨str "POST", str "https://api.contentzen.io/api/v1/media/upload",
           [(str "Authorization", str "Bearer secret"),
            (str "Content-Type", str "multipart/form-data; boundary=b0")],
           .form ⟨str "b0", [⟨str "file", str "/tmp/images/cat.png", [1, 2, 3]⟩], true⟩⟩]
    ∧ baseName (str "/tmp/images/cat.png") = str "cat.png"
    ∧ str "/tmp/images/cat.png" ≠ baseName (str "/tmp/images/cat.png") := by
  refine ⟨?_, ?_, ?_⟩ <;> decide

/-- C10: for a client with a credential and a path that cannot be opened,
UploadMedia returns the error of `os.Open` unchanged, returns no Media, and
hands no request to the transport: its only effect is the attempt to open. -/
theorem C10_upload_open_error (env : Env) (c : Client) (p : GoString) (code : Nat)
    (htoken : c.APIToken ≠ [])
    (hfile : env.openFile p = .error code) :
    UploadMedia env c p = (.error (.external code), [.Open p])
    ∧ requests (UploadMedia env c p).2 = [] := by
  simp [UploadMedia, htoken, Env.Open, hfile, requests]

/-- Witness of C10: the upload of a file that does not exist. -/
theorem C10_upload_open_error_witness :
    (demoClient (demoResponse 201 "201 Created" "\x7b\x7d")).APIToken ≠ []
    ∧ demoEnv.openFile (str "/no/such/file") = .error 2
    ∧ UploadMedia demoEnv (demoClient (demoResponse 201 "201 Created" "\x7b\x7d"))
        (str "/no/such/file") = (.error (.external 2), [.Open (str "/no/such/file")]) :=
  ⟨by decide, rfl,
   (C10_upload_open_error demoEnv (demoClient (demoResponse 201 "201 Created" "\x7b\x7d"))
    (str "/no/such/file") 2 (by decide) rfl).1⟩

/-! ## The claim on the download -/

/-- C11 (as amended): for a client with a credential, a response with status
200 and a destination path that can be created.  When the body is read to its
end as the bytes B and B can be written to the file in full, DownloadMedia
returns success and afterwards the file at the path holds exactly B, whatever
it held before.  When the write of B fails after n bytes, DownloadMedia returns
the error of the write and the file holds the first n bytes of B.  In every
case each other file is as it was. -/
theorem C11_download_writes_body (env : Env) (c : Client) (m p : GoString) (req : Request)
    (resp : Response) (fs : Files)
    (htoken : c.APIToken ≠ [])
    (hsent : Effect.Do req ∈ (DownloadMedia env c m p).2)
    (hresp : c.HTTPClient.transport req = .ok resp)
    (hstatus : resp.StatusCode = 200)
    (hcreate : env.createFile p = none) :
    (resp.Body.err = none → (resp.Body.data ≠ [] → env.writeFile p resp.Body.data = none) →
      (DownloadMedia env c m p).1 = .ok ()
      ∧ env.after fs (DownloadMedia env c m p).2 p = some resp.Body.data)
    ∧ (∀ n code, resp.Body.data ≠ [] → env.writeFile p resp.Body.data = some (n, code) →
      (DownloadMedia env c m p).1 = .error (.external code)
      ∧ env.after fs (DownloadMedia env c m p).2 p = some (resp.Body.data.take n))
    ∧ ∀ q, q ≠ p → env.after fs (DownloadMedia env c m p).2 q = fs q := by
  have hc : env.Create p = none := by simp [Env.Create, hcreate]
  simp only [DownloadMedia, htoken, if_false, List.append_assoc] at hsent ⊢
  cases hn : NewRequest env (str "GET")
      (c.BaseURL ++ (str "/api/v1/media/" ++ (m ++ str "/download"))) .none with
  | error e => simp [hn] at hsent
  | ok r =>
    simp only [hn] at hsent ⊢
    have hreq : req = r.Set (str "Authorization") (str "Bearer " ++ c.APIToken) := by
      repeat' split at hsent
      all_goals simp at hsent
      all_goals exact hsent
    rw [← hreq]
    have hdo : c.HTTPClient.Do req = .ok resp := (Do_ok _ _ _).2 hresp
    simp only [hdo, hstatus, ne_eq, not_true_eq_false, if_false, hc]
    refine ⟨?_, ?_, ?_⟩
    · intro hbody hwrite
      have hw : (if resp.Body.data = [] then none else env.Write p resp.Body.data) = none := by
        by_cases hd : resp.Body.data = []
        · simp [hd]
        · simp [hd, Env.Write, hwrite hd]
      have hf : resp.Body.failure = none := (failure_none _).2 hbody
      simp only [hw, hf]
      refine ⟨trivial, ?_⟩
      simp [Env.after, Env.step, hcreate]
    · intro n code hd hwrite
      have hw : (if resp.Body.data = [] then none else env.Write p resp.Body.data)
          = some (n, .external code) := by
        simp [hd, Env.Write, hwrite]
      simp only [hw]
      refine ⟨trivial, ?_⟩
      simp [Env.after, Env.step, hcreate]
    · intro q hq
      repeat' split
      all_goals simp [Env.after, Env.step, hcreate, hq]

/-- Witness of C11 (as amended): a download of five bytes over an existing
file, once with room for them and once on a disk that is full after two
bytes. -/
theorem C11_download_writes_body_witness :
    ((DownloadMedia demoEnv (demoClient (demoResponse 200 "200 OK" "hello")) (str "m1")
        (str "/tmp/out")).1 = .ok ()
      ∧ demoEnv.after (fun q => if q = str "/tmp/out" then some (str "old content") else none)
        (DownloadMedia demoEnv (demoClient (demoResponse 200 "200 OK" "hello")) (str "m1")
          (str "/tmp/out")).2 (str "/tmp/out") = some (str "hello"))
    ∧ ((DownloadMedia fullDiskEnv (demoClient (demoResponse 200 "200 OK" "hello")) (str "m1")
        (str "/tmp/out")).1 = .error (.external 28)
      ∧ fullDiskEnv.after
        (fun q => if q = str "/tmp/out" then some (str "old content") else none)
        (DownloadMedia fullDiskEnv (demoClient (demoResponse 200 "200 OK" "hello")) (str "m1")
          (str "/tmp/out")).2 (str "/tmp/out") = some ((str "hello").take 2)) :=
  ⟨(C11_download_writes_body demoEnv (demoClient (demoResponse 200 "200 OK" "hello"))
      (str "m1") (str "/tmp/out")
      ⟨str "GET", str "https://api.contentzen.io/api/v1/media/m1/download",
        [(str "Authorization", str "Bearer secret")], .none⟩
      (demoResponse 200 "200 OK" "hello")
      (fun q => if q = str "/tmp/out" then some (str "old content") else none)
      (by decide) (by decide) rfl rfl rfl).1 rfl (fun _ => rfl),
   (C11_download_writes_body fullDiskEnv (demoClient (demoResponse 200 "200 OK" "hello"))
      (str "m1") (str "/tmp/out")
      ⟨str "GET", str "https://api.contentzen.io/api/v1/media/m1/download",
        [(str "Authorization", str "Bearer secret")], .none⟩
      (demoResponse 200 "200 OK" "hello")
      (fun q => if q = str "/tmp/out" then some (str "old content") else none)
      (by decide) (by decide) rfl rfl rfl).2.1 2 28 (by decide) rfl⟩

/-- Counterexample to C11 as stated: the destination can be created, but the
disk is full after two bytes.  DownloadMedia returns the error of the write and
the file holds two bytes of the five. -/
theorem C11_counterexample :
    fullDiskEnv.createFile (str "/tmp/out") = none
    ∧ DownloadMedia fullDiskEnv (demoClient (demoResponse 200 "200 OK" "hello")) (str "m1")
        (str "/tmp/out")
      = (.error (.external 28),
        [.Do ⟨str "GET", str "https://api.contentzen.io/api/v1/media/m1/download",
            [(str "Authorization", str "Bearer secret")], .none⟩,
         .Create (str "/tmp/out"), .Write (str "/tmp/out") (str "he")])
    ∧ fullDiskEnv.after (fun _ => none)
        (DownloadMedia fullDiskEnv (demoClient (demoResponse 200 "200 OK" "hello")) (str "m1")
          (str "/tmp/out")).2 (str "/tmp/out") = some (str "he")
    ∧ str "he" ≠ str "hello" := by
  refine ⟨rfl, rfl, rfl, by decide⟩


/-! ## The claim on malformed bodies -/

theorem Decode_tag {α : Type} (f : α → Value) (store : JValue → Except GoError α) (b : Stream) :
    (match Decode store b with
      | .error e => (Except.error e : Except GoError Value)
      | .ok v => .ok (f v))
    = match readValue b with
      | .error e => .error e
      | .ok v => tag f (store v) := by
  unfold Decode tag
  cases readValue b with
  | error e => rfl
  | ok v => cases store v <;> rfl

set_option maxHeartbeats 2000000 in
theorem run_decode (env : Env) (c : Client) (call : Call) (req : Request) (resp : Response)
    (hdec : call.decodes = true)
    (hsent : Effect.Do req ∈ (call.run env c).2)
    (hresp : c.HTTPClient.Do req = .ok resp)
    (hstatus : call.accepts resp.StatusCode = true) :
    (call.run env c).1
      = match readValue resp.Body with
        | .error e => .error e
        | .ok v => call.store env v := by
  cases call <;> first
    | (simp [Call.decodes] at hdec; done)
    | (simp only [Call.accepts, Call.isCreate, Call.isDelete, Bool.false_eq_true, if_false,
        if_true, Bool.or_eq_true, decide_eq_true_eq] at hstatus
       simp only [Call.store, ← Decode_tag]
       simp only [Call.run, Outcome.as, GetDocuments, CreateDocument, UpdateDocument,
        GetCollections, GetCollection, CreateCollection, UpdateCollection, ListMedia,
        UploadMedia, GetMedia, UpdateMedia, ListWebhooks, CreateWebhook, UpdateWebhook,
        GetCollectionSchema, GetCollectionFields, GetFieldTypes, GetPublicDocuments,
        GetPublicDocument] at hsent ⊢
       repeat' split at hsent
       all_goals simp_all
       all_goals (rcases hstatus with h | h <;> simp_all))


theorem store_wrongKind (env : Env) (call : Call) (v : JValue) (hdec : call.decodes = true)
    (hv : wrongKind call v = true) : call.store env v = .error .UnmarshalTypeError := by
  cases call <;> first
    | (simp [Call.decodes] at hdec; done)
    | (cases v <;> first
        | (simp [wrongKind, Call.wantsArray] at hv; done)
        | rfl)

theorem readValue_invalid (b : Stream)
    (h : scanValue (2 * b.data.length + 1) 0 b.data = .invalid) :
    readValue b = .error .SyntaxError := by
  unfold readValue
  rw [h]

theorem readValue_incomplete (b : Stream)
    (h : scanValue (2 * b.data.length + 1) 0 b.data = .incomplete) (herr : b.err = none) :
    readValue b = .error (if skipSpace b.data = [] then .EOF else .ErrUnexpectedEOF) := by
  unfold readValue
  rw [h]
  simp only [(failure_none b).2 herr]
  split <;> rfl

theorem store_null (env : Env) (call : Call) : call.store env .null = .ok call.zero := by
  cases call <;> rfl

theorem scanValue_append (n d : Nat) (s x : List Nat) (v : JValue) (r : List Nat)
    (h : scanValue n d s = .ok v r) (hv : v.isNumber = false) :
    scanValue n d (s ++ x) = .ok v (r ++ x) := by
  have ih := (scan_extends n).1 d s x
  rw [h] at ih
  exact ih.1 (Or.inr hv)

theorem scanValue_truncate (n d : Nat) (s x : List Nat) (v : JValue) (r : List Nat)
    (h : scanValue n d (s ++ x) = .ok v r) (hr : r.length < x.length)
    (hv : v.isNumber = false) : scanValue n d s = .incomplete := by
  have ih := (scan_extends n).1 d s x
  cases hp : scanValue n d s with
  | invalid =>
    rw [hp] at ih
    simp only [Extends] at ih
    rw [ih] at h
    cases h
  | incomplete => rfl
  | ok w r1 =>
    rw [hp] at ih
    simp only [Extends] at ih
    by_cases hopen : r1 = [] ∧ w.isNumber = true
    · have := (ih.2 hopen.1 hopen.2 _ _ h).1
      rw [hv] at this
      cases this
    · have hq : scanValue n d (s ++ x) = .ok w (r1 ++ x) := by
        apply ih.1
        by_cases hr1 : r1 = []
        · right
          simp only [hr1, true_and, Bool.not_eq_true] at hopen
          exact hopen
        · left; exact hr1
      rw [hq] at h
      simp only [Parsed.ok.injEq] at h
      rw [← h.2] at hr
      simp only [List.length_append] at hr
      omega

theorem scanValue_shrink (n d : Nat) (s x : List Nat) (v : JValue) (r : List Nat)
    (h : scanValue n d (s ++ x) = .ok v r) (hr : r.length = x.length)
    (hv : v.isNumber = false) : scanValue n d s = .ok v [] ∧ r = x := by
  have ih := (scan_extends n).1 d s x
  cases hp : scanValue n d s with
  | invalid =>
    rw [hp] at ih
    simp only [Extends] at ih
    rw [ih] at h
    cases h
  | incomplete =>
    rw [hp] at ih
    simp only [Extends] at ih
    have := ih _ _ h
    omega
  | ok w r1 =>
    rw [hp] at ih
    simp only [Extends] at ih
    by_cases hopen : r1 = [] ∧ w.isNumber = true
    · have := (ih.2 hopen.1 hopen.2 _ _ h).1
      rw [hv] at this
      cases this
    · have hq : scanValue n d (s ++ x) = .ok w (r1 ++ x) := by
        apply ih.1
        by_cases hr1 : r1 = []
        · right
          simp only [hr1, true_and, Bool.not_eq_true] at hopen
          exact hopen
        · left; exact hr1
      rw [hq] at h
      simp only [Parsed.ok.injEq] at h
      have h3 := congrArg List.length h.2
      simp only [List.length_append] at h3
      have h4 : r1 = [] := List.length_eq_zero.1 (by omega)
      subst h4
      rw [← h.1, ← h.2]
      exact ⟨rfl, rfl⟩

theorem skipSpace_spaces : ∀ s : List Nat, (∀ b ∈ s, isSpace b = true) → skipSpace s = [] := by
  intro s
  induction s with
  | nil => intro _; rfl
  | cons c t ih =>
    intro h
    simp only [skipSpace, h c (List.mem_cons_self _ _), if_true]
    exact ih (fun b hb => h b (List.mem_cons_of_mem _ hb))

theorem skipSpace_nil_iff (s : List Nat) : skipSpace s = [] ↔ ∀ b ∈ s, isSpace b = true := by
  refine ⟨?_, skipSpace_spaces s⟩
  induction s with
  | nil => intro _ b hb; cases hb
  | cons c t ih =>
    intro h b hb
    simp only [skipSpace] at h
    split at h
    · rename_i hc
      rcases List.mem_cons.1 hb with h1 | h1
      · rw [h1]; exact hc
      · exact ih h b h1
    · cases h

theorem skipSpace_leading (ws t : List Nat) (b : Nat) (hws : ∀ a ∈ ws, isSpace a = true)
    (hb : isSpace b = false) : skipSpace (ws ++ b :: t) = b :: t := by
  rw [skipSpace_append_nil _ _ (skipSpace_spaces ws hws)]
  simp [skipSpace, hb]

theorem scanValue_first (n d : Nat) (s : List Nat) (v : JValue) (r : List Nat) (b : Nat)
    (t : List Nat) (h : scanValue n d s = .ok v r) (hs : skipSpace s = b :: t) :
    (v = .null → b = 110) ∧ (∀ xs, v = .array xs → b = 91) ∧ (∀ ms, v = .object ms → b = 123) := by
  cases n with
  | zero => simp [scanValue] at h
  | succ n =>
    rw [scanValue] at h
    simp only [hs] at h
    repeat' split at h
    all_goals first
      | (exact Parsed.noConfusion h)
      | (simp only [Parsed.ok.injEq] at h
         obtain ⟨h1, h2⟩ := h
         subst h1
         simp_all)
      | (obtain ⟨w, hw⟩ := Parsed_map_ok _ _ _ _ h
         rw [hw] at h
         simp only [Parsed.map, Parsed.ok.injEq] at h
         obtain ⟨h1, h2⟩ := h
         subst h1
         simp_all)

theorem readValue_spaces (b : Stream) (hall : ∀ a ∈ b.data, isSpace a = true)
    (herr : b.err = none) : readValue b = .error .EOF := by
  have hs := skipSpace_spaces _ hall
  have h : scanValue (2 * b.data.length + 1) 0 b.data = .incomplete := by
    rw [scanValue]
    simp only [hs]
  rw [readValue_incomplete b h herr, if_pos hs]

theorem readValue_of_scan (b : Stream) (v : JValue) (r : List Nat)
    (h : scanValue (2 * b.data.length + 1) 0 b.data = .ok v r) (herr : b.err = none) :
    readValue b = .ok v := by
  unfold readValue
  rw [h]
  simp only [(failure_none b).2 herr]
  cases v <;> cases r <;> rfl

theorem readValue_ok_scan (b : Stream) (v : JValue) (h : readValue b = .ok v) :
    ∃ r, scanValue (2 * b.data.length + 1) 0 b.data = .ok v r := by
  unfold readValue at h
  split at h
  · cases h
  · split at h
    · cases h
    · split at h <;> cases h
  · rename_i w rest hs
    refine ⟨rest, ?_⟩
    split at h
    all_goals first
      | (exact Except.noConfusion h)
      | (simp only [Except.ok.injEq] at h
         rw [← h, hs])

theorem store_ok_kind (env : Env) (call : Call) (v : JValue) (x : Value)
    (hdec : call.decodes = true) (h : call.store env v = .ok x) : v.isNumber = false := by
  cases hw : wrongKind call v with
  | true =>
    rw [store_wrongKind env call v hdec hw] at h
    cases h
  | false =>
    cases v <;> first
      | rfl
      | (simp [wrongKind] at hw)

theorem wrongKind_first (call : Call) (n d : Nat) (s : List Nat) (v : JValue) (r : List Nat)
    (c : Nat) (t : List Nat) (h : scanValue n d s = .ok v r) (hs : skipSpace s = c :: t)
    (hn : c ≠ 110) (hk : c ≠ (if call.wantsArray = true then 91 else 123)) :
    wrongKind call v = true := by
  obtain ⟨h1, h2, h3⟩ := scanValue_first n d s v r c t h hs
  cases v with
  | null => exact absurd (h1 rfl) hn
  | array xs =>
    have := h2 xs rfl
    subst this
    cases hw : call.wantsArray
    · simp [wrongKind, hw]
    · simp [hw] at hk
  | object ms =>
    have := h3 ms rfl
    subst this
    cases hw : call.wantsArray
    · simp [hw] at hk
    · simp [wrongKind, hw]
  | bool _ => rfl
  | number _ => rfl
  | string _ => rfl

theorem Decode_first (env : Env) (call : Call) (b : Stream) (c : Nat) (t : List Nat)
    (hdec : call.decodes = true) (herr : b.err = none) (hs : skipSpace b.data = c :: t)
    (hn : c ≠ 110) (hk : c ≠ (if call.wantsArray = true then 91 else 123)) :
    ∃ e, Decode (call.store env) b = .error e
      ∧ e ∈ [GoError.SyntaxError, GoError.ErrUnexpectedEOF, GoError.UnmarshalTypeError] := by
  unfold Decode
  cases hp : scanValue (2 * b.data.length + 1) 0 b.data with
  | invalid =>
    rw [readValue_invalid b hp]
    exact ⟨.SyntaxError, rfl, by simp⟩
  | incomplete =>
    rw [readValue_incomplete b hp herr, if_neg (by rw [hs]; simp)]
    exact ⟨.ErrUnexpectedEOF, rfl, by simp⟩
  | ok v r =>
    rw [readValue_of_scan b v r hp herr]
    simp only
    rw [store_wrongKind env call v hdec (wrongKind_first call _ _ _ _ _ _ _ hp hs hn hk)]
    exact ⟨.UnmarshalTypeError, rfl, by simp⟩

theorem readValue_null (b : Stream) (ws t : List Nat) (hws : ∀ a ∈ ws, isSpace a = true)
    (hdata : b.data = ws ++ str "null" ++ t) (herr : b.err = none) :
    readValue b = .ok .null := by
  have hs : skipSpace b.data = 110 :: 117 :: 108 :: 108 :: t := by
    rw [hdata, List.append_assoc, skipSpace_append_nil _ _ (skipSpace_spaces ws hws)]
    rfl
  apply readValue_of_scan b .null t _ herr
  rw [scanValue]
  simp only [hs]
  rfl

theorem run_Decode (env : Env) (c : Client) (call : Call) (req : Request) (resp : Response)
    (hdec : call.decodes = true)
    (hsent : Effect.Do req ∈ (call.run env c).2)
    (hresp : c.HTTPClient.Do req = .ok resp)
    (hstatus : call.accepts resp.StatusCode = true) :
    (call.run env c).1 = Decode (call.store env) resp.Body := by
  rw [run_decode env c call req resp hdec hsent hresp hstatus]
  unfold Decode
  cases readValue resp.Body <;> rfl

theorem scanValue_text (n d : Nat) (s : List Nat) (v : JValue) (r : List Nat)
    (h : scanValue n d s = .ok v r) : JSONText (s.take (s.length - r.length)) := by
  obtain ⟨w, val, h1, h2, h3⟩ := (scan_sound n).1 d s v r h
  refine ⟨w, val, ?_, h2, h3⟩
  have hl : s.length - r.length = (w ++ val).length := by
    rw [h1]
    simp only [List.length_append]
    omega
  rw [hl]
  conv_lhs => rw [h1, ← List.append_assoc]
  rw [List.take_left]

theorem Decode_ok_scan (env : Env) (call : Call) (b : Stream) (x : Value)
    (hdec : call.decodes = true) (h : Decode (call.store env) b = .ok x) :
    ∃ v r, scanValue (2 * b.data.length + 1) 0 b.data = .ok v r ∧ call.store env v = .ok x
      ∧ v.isNumber = false := by
  unfold Decode at h
  cases hr : readValue b with
  | error e => rw [hr] at h; cases h
  | ok v =>
    rw [hr] at h
    simp only at h
    obtain ⟨r, hs⟩ := readValue_ok_scan b v hr
    exact ⟨v, r, hs, h, store_ok_kind env call v x hdec h⟩

theorem Decode_truncated (env : Env) (call : Call) (b : Stream) (v : JValue) (r : List Nat)
    (hs : scanValue (2 * b.data.length + 1) 0 b.data = .ok v r) (hv : v.isNumber = false)
    (b2 : Stream) (j : Nat) (hj : j < b.data.length - r.length) (hdata : b2.data = b.data.take j)
    (herr : b2.err = none) :
    Decode (call.store env) b2
      = .error (if ∀ a ∈ b2.data, isSpace a = true then .EOF else .ErrUnexpectedEOF) := by
  have hsplit : b.data = b.data.take j ++ b.data.drop j := (List.take_append_drop j b.data).symm
  have hlen : r.length < (b.data.drop j).length := by
    rw [List.length_drop]
    omega
  have h1 : scanValue (2 * b.data.length + 1) 0 (b.data.take j ++ b.data.drop j) = .ok v r := by
    rw [← hsplit]; exact hs
  have h2 := scanValue_truncate _ _ _ _ _ _ h1 hlen hv
  have h3 : scanValue (2 * b2.data.length + 1) 0 b2.data = .incomplete := by
    rw [hdata, ← scanValue_fuel (2 * b.data.length + 1) 0 (b.data.take j)
      (by rw [List.length_take]; omega)]
    exact h2
  unfold Decode
  rw [readValue_incomplete b2 h3 herr]
  by_cases hsp : ∀ a ∈ b2.data, isSpace a = true
  · rw [if_pos hsp, if_pos ((skipSpace_nil_iff _).2 hsp)]
  · rw [if_neg hsp, if_neg (fun h => hsp ((skipSpace_nil_iff _).1 h))]

theorem Decode_same_value (env : Env) (call : Call) (b : Stream) (v : JValue) (r : List Nat)
    (hs : scanValue (2 * b.data.length + 1) 0 b.data = .ok v r) (hv : v.isNumber = false)
    (b2 : Stream)
    (hdata : b2.data.take (b.data.length - r.length) = b.data.take (b.data.length - r.length))
    (herr : b2.err = none) :
    Decode (call.store env) b2 = call.store env v := by
  have hr := scanValue_rest _ _ _ _ _ hs
  have hsplit : b.data = b.data.take (b.data.length - r.length)
      ++ b.data.drop (b.data.length - r.length) := (List.take_append_drop _ b.data).symm
  have h1 : scanValue (2 * b.data.length + 1) 0 (b.data.take (b.data.length - r.length)
      ++ b.data.drop (b.data.length - r.length)) = .ok v r := by
    rw [← hsplit]; exact hs
  have h2 := (scanValue_shrink _ _ _ _ _ _ h1 (by rw [List.length_drop]; omega) hv).1
  have hlen := congrArg List.length hdata
  simp only [List.length_take] at hlen
  have h3 : scanValue (2 * b2.data.length + 1) 0 (b.data.take (b.data.length - r.length))
      = .ok v [] := by
    rw [scanValue_fuel (2 * b2.data.length + 1) 0 _ (by rw [List.length_take]; omega),
      ← scanValue_fuel (2 * b.data.length + 1) 0 _ (by rw [List.length_take]; omega)]
    exact h2
  have h4 := scanValue_append _ _ _ (b2.data.drop (b.data.length - r.length)) _ _ h3 hv
  rw [← hdata, List.take_append_drop, List.nil_append] at h4
  unfold Decode
  rw [readValue_of_scan b2 v _ h4 herr]

theorem JSONValue_head (v : List Nat) (h : JSONValue v) : ∃ c t, v = c :: t ∧ JSONFirst c := by
  cases h with
  | litNull => exact ⟨_, _, rfl, by simp [JSONFirst]⟩
  | litTrue => exact ⟨_, _, rfl, by simp [JSONFirst]⟩
  | litFalse => exact ⟨_, _, rfl, by simp [JSONFirst]⟩
  | number _ hn =>
    obtain ⟨m, i, f, x, h1, h2, h3, _, _⟩ := hn
    rcases h2 with h2 | h2
    · rcases h3 with h3 | ⟨d, t, h3, h4, h5, _⟩
      · subst h1 h2 h3
        exact ⟨48, _, rfl, by simp [JSONFirst]⟩
      · subst h1 h2 h3
        exact ⟨d, _, rfl, by simp only [JSONFirst]; omega⟩
    · subst h1 h2
      exact ⟨45, _, rfl, by simp [JSONFirst]⟩
  | string _ _ => exact ⟨_, _, rfl, by simp [JSONFirst]⟩
  | emptyArray _ _ => exact ⟨_, _, rfl, by simp [JSONFirst]⟩
  | array _ _ _ _ => exact ⟨_, _, rfl, by simp [JSONFirst]⟩
  | emptyObject _ _ => exact ⟨_, _, rfl, by simp [JSONFirst]⟩
  | object _ _ _ _ => exact ⟨_, _, rfl, by simp [JSONFirst]⟩

theorem JSONText_head (s : List Nat) (h : JSONText s) : ∃ c, c ∈ s ∧ JSONFirst c := by
  obtain ⟨w, v, h1, _, h3⟩ := h
  obtain ⟨c, t, h4, h5⟩ := JSONValue_head v h3
  refine ⟨c, ?_, h5⟩
  rw [h1, h4]
  simp

theorem Decode_malformed (env : Env) (call : Call) (b : Stream) (herr : b.err = none)
    (h : ∀ k, ¬ JSONText (b.data.take k)) :
    ∃ e, Decode (call.store env) b = .error e
      ∧ e ∈ [GoError.SyntaxError, GoError.EOF, GoError.ErrUnexpectedEOF] := by
  unfold Decode
  cases hp : scanValue (2 * b.data.length + 1) 0 b.data with
  | invalid =>
    rw [readValue_invalid b hp]
    exact ⟨.SyntaxError, rfl, by simp⟩
  | incomplete =>
    rw [readValue_incomplete b hp herr]
    by_cases hs : skipSpace b.data = []
    · rw [if_pos hs]
      exact ⟨.EOF, rfl, by simp⟩
    · rw [if_neg hs]
      exact ⟨.ErrUnexpectedEOF, rfl, by simp⟩
  | ok v r =>
    obtain ⟨k, _, hk⟩ := scanValue_sound _ _ _ _ _ hp
    exact absurd hk (h k)

theorem JSONText_nil : ¬ JSONText [] := by
  intro h
  obtain ⟨c, hc, _⟩ := JSONText_head [] h
  cases hc

theorem JSONText_first (b : Nat) (s : List Nat) (h : JSONText (b :: s)) :
    JSONFirst b ∨ b = 32 ∨ b = 9 ∨ b = 10 ∨ b = 13 := by
  obtain ⟨w, v, h1, h2, h3⟩ := h
  obtain ⟨c, t, h4, h5⟩ := JSONValue_head v h3
  cases w with
  | nil =>
    rw [h4] at h1
    simp only [List.nil_append, List.cons.injEq] at h1
    left
    rw [h1.1]
    exact h5
  | cons a w =>
    simp only [List.cons_append, List.cons.injEq] at h1
    right
    rw [h1.1]
    exact h2 a (List.mem_cons_self _ _)

theorem not_JSONText (b : Nat) (s : List Nat) (hb : ¬ JSONFirst b)
    (hs : ¬ (b = 32 ∨ b = 9 ∨ b = 10 ∨ b = 13)) (k : Nat) : ¬ JSONText ((b :: s).take k) := by
  cases k with
  | zero => exact JSONText_nil
  | succ k =>
    intro h
    rcases JSONText_first b _ h with h1 | h1
    · exact hb h1
    · exact hs h1

/-- C12 (as amended): for a method that decodes a result and a response with an
accepted status code whose body is read to its end.  The method returns a
decode error and no value when no prefix of the body is well-formed JSON, when
the body is empty or only white space (`io.EOF`), and when the first byte after
the white space is neither the bracket that opens the expected kind of value
(`[` for a slice, an opening brace otherwise) nor the `n` of `null`, as with an
object where an array is expected.  A body that starts with `null` gives the
variable as it was declared and no error.  When the method returns a value and
no object of the first JSON value of the body repeats a member name, there is a
length k, the end of that value, such that: the first k bytes of the body are
well-formed JSON, every body that is a cut of this one before k gives `io.ErrUnexpectedEOF` (`io.EOF` when only white space is
left), and every body that agrees with this one on the first k bytes gives the
same result, whatever bytes follow. -/
theorem C12_decode_errors (env : Env) (c : Client) (call : Call) (req : Request)
    (resp : Response)
    (hdec : call.decodes = true)
    (hsent : Effect.Do req ∈ (call.run env c).2)
    (hresp : c.HTTPClient.Do req = .ok resp)
    (hstatus : call.accepts resp.StatusCode = true)
    (hbody : resp.Body.err = none) :
    ((∀ k, ¬ JSONText (resp.Body.data.take k)) →
        ∃ e, (call.run env c).1 = .error e
          ∧ e ∈ [GoError.SyntaxError, GoError.EOF, GoError.ErrUnexpectedEOF])
    ∧ ((∀ a ∈ resp.Body.data, isSpace a = true) → (call.run env c).1 = .error .EOF)
    ∧ (∀ ws b t, resp.Body.data = ws ++ b :: t → (∀ a ∈ ws, isSpace a = true) →
        isSpace b = false → b ≠ 110 → b ≠ (if call.wantsArray = true then 91 else 123) →
        ∃ e, (call.run env c).1 = .error e
          ∧ e ∈ [GoError.SyntaxError, GoError.ErrUnexpectedEOF, GoError.UnmarshalTypeError])
    ∧ (∀ ws t, resp.Body.data = ws ++ str "null" ++ t → (∀ a ∈ ws, isSpace a = true) →
        (call.run env c).1 = .ok call.zero)
    ∧ ((∃ x, (call.run env c).1 = .ok x) →
        (∀ v, readValue resp.Body = .ok v → v.distinctNames = true) →
        ∃ k, 0 < k ∧ k ≤ resp.Body.data.length ∧ JSONText (resp.Body.data.take k) ∧
          ∀ (c2 : Client) (req2 : Request) (resp2 : Response),
            Effect.Do req2 ∈ (call.run env c2).2 → c2.HTTPClient.Do req2 = .ok resp2 →
            call.accepts resp2.StatusCode = true → resp2.Body.err = none →
            ((∃ j, j < k ∧ resp2.Body.data = resp.Body.data.take j) →
              (call.run env c2).1
                = .error (if ∀ a ∈ resp2.Body.data, isSpace a = true then .EOF
                    else .ErrUnexpectedEOF))
            ∧ (resp2.Body.data.take k = resp.Body.data.take k →
              (call.run env c2).1 = (call.run env c).1)) := by
  rw [run_Decode env c call req resp hdec hsent hresp hstatus]
  refine ⟨?_, ?_, ?_, ?_, ?_⟩
  · intro h
    exact Decode_malformed env call resp.Body hbody h
  · intro hall
    unfold Decode
    rw [readValue_spaces _ hall hbody]
  · intro ws b t hd hws hb hn hk
    exact Decode_first env call resp.Body b t hdec hbody
      (by rw [hd]; exact skipSpace_leading ws t b hws hb) hn hk
  · intro ws t hd hws
    unfold Decode
    rw [readValue_null _ ws t hws hd hbody]
    exact store_null env call
  · rintro ⟨x, hx⟩ -
    obtain ⟨v, r, hs, hst, hv⟩ := Decode_ok_scan env call resp.Body x hdec hx
    have hr := scanValue_rest _ _ _ _ _ hs
    refine ⟨resp.Body.data.length - r.length, by omega, by omega,
      scanValue_text _ _ _ _ _ hs, ?_⟩
    intro c2 req2 resp2 hsent2 hresp2 hstatus2 hbody2
    rw [run_Decode env c2 call req2 resp2 hdec hsent2 hresp2 hstatus2]
    refine ⟨?_, ?_⟩
    · rintro ⟨j, hj, hdata⟩
      exact Decode_truncated env call resp.Body v r hs hv resp2.Body j hj hdata hbody2
    · intro htake
      rw [Decode_same_value env call resp.Body v r hs hv resp2.Body htake hbody2, hst, hx]

/-- Witness of C12 (as amended): GetCollections answered with a page of HTML,
with a blank, with an object, with `null` and a comma, and with an empty array
followed by bytes that are not JSON. -/
theorem C12_decode_errors_witness :
    (∃ e, (Call.GetCollections.run demoEnv
          (demoClient (demoResponse 200 "200 OK" "<html>"))).1 = .error e
        ∧ e ∈ [GoError.SyntaxError, GoError.EOF, GoError.ErrUnexpectedEOF])
    ∧ (Call.GetCollections.run demoEnv (demoClient (demoResponse 200 "200 OK" " "))).1
      = .error .EOF
    ∧ (∃ e, (Call.GetCollections.run demoEnv
          (demoClient (demoResponse 200 "200 OK" "\x7b\"uuid\":\"c1\"\x7d"))).1 = .error e
        ∧ e ∈ [GoError.SyntaxError, GoError.ErrUnexpectedEOF, GoError.UnmarshalTypeError])
    ∧ (Call.GetCollections.run demoEnv (demoClient (demoResponse 200 "200 OK" " null,"))).1
      = .ok (.collections none)
    ∧ (∃ k, 0 < k ∧ k ≤ (str "[]xyz").length ∧ JSONText ((str "[]xyz").take k) ∧
        ∀ (c2 : Client) (req2 : Request) (resp2 : Response),
          Effect.Do req2 ∈ (Call.GetCollections.run demoEnv c2).2 →
          c2.HTTPClient.Do req2 = .ok resp2 →
          Call.GetCollections.accepts resp2.StatusCode = true → resp2.Body.err = none →
          ((∃ j, j < k ∧ resp2.Body.data = (str "[]xyz").take j) →
            (Call.GetCollections.run demoEnv c2).1
              = .error (if ∀ a ∈ resp2.Body.data, isSpace a = true then .EOF
                  else .ErrUnexpectedEOF))
          ∧ (resp2.Body.data.take k = (str "[]xyz").take k →
            (Call.GetCollections.run demoEnv c2).1
              = (Call.GetCollections.run demoEnv
                  (demoClient (demoResponse 200 "200 OK" "[]xyz"))).1)) :=
  ⟨(C12_decode_errors demoEnv (demoClient (demoResponse 200 "200 OK" "<html>")) Call.GetCollections
      ⟨str "GET", str "https://api.contentzen.io/api/v1/collections",
        [(str "Authorization", str "Bearer secret")], .none⟩
      (demoResponse 200 "200 OK" "<html>") rfl (by decide) rfl rfl rfl).1
      (not_JSONText 60 (str "html>") (by unfold JSONFirst; omega) (by omega)),
   (C12_decode_errors demoEnv (demoClient (demoResponse 200 "200 OK" " ")) Call.GetCollections
      ⟨str "GET", str "https://api.contentzen.io/api/v1/collections",
        [(str "Authorization", str "Bearer secret")], .none⟩
      (demoResponse 200 "200 OK" " ") rfl (by decide) rfl rfl rfl).2.1 (by decide),
   (C12_decode_errors demoEnv (demoClient (demoResponse 200 "200 OK" "\x7b\"uuid\":\"c1\"\x7d"))
      Call.GetCollections
      ⟨str "GET", str "https://api.contentzen.io/api/v1/collections",
        [(str "Authorization", str "Bearer secret")], .none⟩
      (demoResponse 200 "200 OK" "\x7b\"uuid\":\"c1\"\x7d") rfl (by decide) rfl rfl rfl).2.2.1
      [] 123 (str "\"uuid\":\"c1\"\x7d") rfl (by decide) rfl (by decide) (by decide),
   (C12_decode_errors demoEnv (demoClient (demoResponse 200 "200 OK" " null,")) Call.GetCollections
      ⟨str "GET", str "https://api.contentzen.io/api/v1/collections",
        [(str "Authorization", str "Bearer secret")], .none⟩
      (demoResponse 200 "200 OK" " null,") rfl (by decide) rfl rfl rfl).2.2.2.1
      [32] [44] rfl (by decide),
   (C12_decode_errors demoEnv (demoClient (demoResponse 200 "200 OK" "[]xyz")) Call.GetCollections
      ⟨str "GET", str "https://api.contentzen.io/api/v1/collections",
        [(str "Authorization", str "Bearer secret")], .none⟩
      (demoResponse 200 "200 OK" "[]xyz") rfl (by decide) rfl rfl rfl).2.2.2.2
      ⟨.collections (some []), rfl⟩
      (fun v hv => by
        have h : readValue (demoResponse 200 "200 OK" "[]xyz").Body = .ok (.array []) := rfl
        rw [h] at hv
        cases hv
        rfl)⟩

/-- Counterexample to C12 as stated: GetDocuments answered with an empty array
followed by bytes that are not JSON returns an empty slice and no error; and
GetMedia answered with `null`, which is not an object, returns a zero Media. -/
theorem C12_counterexample :
    (GetDocuments demoEnv (demoClient (demoResponse 200 "200 OK" "[]xyz")) (str "c1")).1
      = .ok (some [])
    ∧ scanValue 7 0 (str "xyz") = .invalid
    ∧ (GetMedia demoEnv (demoClient (demoResponse 200 "200 OK" "null")) (str "m1")).1
      = .ok Media.zero := by
  refine ⟨rfl, rfl, rfl⟩


end ContentZen
